import Mathlib

/-!
# Miosix kernel: queues, thread flags, scheduler interface, scope guards

A shallow embedding of `QueueBase`, `DynUnsyncQueue` and `BufferQueue`
(`miosix/kernel/queue.h`), of `Thread::ThreadFlags` and the scope guards
(`miosix/kernel/kernel.h`) and of `basic_scheduler::PKaddThread`
(`miosix/kernel/scheduler/scheduler.h`), with the properties of the
specification proved over it.

Conventions of the embedding.

* `unsigned int` values are natural numbers; every increment and decrement is
  reduced modulo `2^32` (`UINT_MOD`), `unsigned char` values modulo `2^8`.
* An object is a structure; a member function takes the object and returns the
  new object together with its return value and the new value of each reference
  parameter.
* The calls a member function makes on the rest of the kernel
  (`Thread::IRQwakeup`, element destructors) are appended to a trace held in
  `World`, oldest first.
-/

namespace Miosix

/-- Number of values of an `unsigned int`. -/
def UINT_MOD : Nat := 2 ^ 32

/-- The `++` operator on an `unsigned int`. -/
def uinc (x : Nat) : Nat := (x + 1) % UINT_MOD

/-- The `--` operator on an `unsigned int`. -/
def udec (x : Nat) : Nat := (x + UINT_MOD - 1) % UINT_MOD

/-- Subtraction of two `unsigned int` values. -/
def usub (x y : Nat) : Nat := (x + UINT_MOD - y % UINT_MOD) % UINT_MOD

/-- What a `Thread *` designates: the identity of the thread and the priority
returned by `IRQgetPriority()`; `Priority` values are compared with `<`. -/
structure Thread where
  id : Nat
  priority : Int
  deriving DecidableEq, Repr

/-- A call made by the queue on the rest of the kernel. -/
inductive Event where
  /-- The call `t->IRQwakeup()`. -/
  | wakeup (t : Thread)
  /-- The call `buffer.data[slot].~T()`. -/
  | destroy (slot : Nat)
  /-- The call `Thread::IRQenableIrqAndWait(dLock)` made by thread `t`. -/
  | enableIrqAndWait (t : Thread)
  deriving DecidableEq, Repr

/-- The part of the kernel a queue operation reads and acts on. -/
structure World where
  /-- The value of `Thread::IRQgetCurrentThread()`. -/
  current : Thread
  /-- The calls made so far, oldest first. -/
  trace : List Event
  deriving DecidableEq, Repr

/-- Modelled from the spec: `Thread::IRQwakeup` is declared in `kernel.h` and
defined in `kernel.cpp`, which is not part of the sources at hand; the model
records the call ("wakes a single waiting Thread"). -/
def Thread.IRQwakeup (t : Thread) (w : World) : World :=
  { w with trace := w.trace ++ [Event.wakeup t] }

/-- The wakeups recorded in a trace, oldest first. -/
def wakeupsOf : List Event → List Thread
  | [] => []
  | Event.wakeup t :: es => t :: wakeupsOf es
  | _ :: es => wakeupsOf es

/-! ## `QueueBase` -/

/-- The data members of `QueueBase<T,BufferT>`. `buffer` is `buffer.data`, and
`buffer.size()` is its length. -/
structure QueueBase (T : Type) where
  buffer : List T
  waiting : Option Thread
  numElem : Nat
  putPos : Nat
  getPos : Nat
  deriving DecidableEq, Repr

namespace QueueBase

variable {T : Type}

/-- The constructor: `waiting(nullptr), numElem(0), putPos(0), getPos(0)`. The
argument is the content of the storage at construction, which the constructor
leaves as the allocator made it; its length is the length of the queue. -/
def new (storage : List T) : QueueBase T :=
  { buffer := storage, waiting := none, numElem := 0, putPos := 0, getPos := 0 }

/-- The `capacity()` member function: `buffer.size()`. -/
def capacity (q : QueueBase T) : Nat := q.buffer.length

/-- The `isEmpty()` member function: `numElem==0`. -/
def isEmpty (q : QueueBase T) : Bool := q.numElem == 0

/-- The `isFull()` member function: `numElem==buffer.size()`. -/
def isFull (q : QueueBase T) : Bool := q.numElem == q.buffer.length

/-- The `size()` member function. -/
def size (q : QueueBase T) : Nat := q.numElem

/-- The `free()` member function: `buffer.size()-numElem`. -/
def free (q : QueueBase T) : Nat := usub q.buffer.length q.numElem

/-- The `IRQwakeWaitingThread()` member function. -/
def IRQwakeWaitingThread (w : World) (q : QueueBase T) : World × QueueBase T :=
  match q.waiting with
  | none => (w, q)
  | some t => (t.IRQwakeup w, { q with waiting := none })

/-- The first statement of `IRQput` and `IRQget`,
`if(hppw && waiting && (current priority < waiting priority)) *hppw=true;`:
the new value of `*hppw`, `none` standing for `hppw==nullptr`. (In `IRQget` the
closing parenthesis stands before the `<`; as `<` binds tighter than `&&` the
condition is the same.) -/
def hppwUpdate (w : World) (q : QueueBase T) (hppw : Option Bool) : Option Bool :=
  match hppw, q.waiting with
  | some b, some t => if w.current.priority < t.priority then some true else some b
  | h, _ => h

/-- Outcome of `IRQput`: the return value, the new `*hppw`, and the new state. -/
structure PutResult (T : Type) where
  ret : Bool
  hppw : Option Bool
  world : World
  queue : QueueBase T
  deriving DecidableEq, Repr

/-- Outcome of `IRQget`: the return value, the new `elem`, the new `*hppw`, and
the new state. -/
structure GetResult (T : Type) where
  ret : Bool
  elem : T
  hppw : Option Bool
  world : World
  queue : QueueBase T
  deriving DecidableEq, Repr

/-- The private `IRQput(const T& elem, bool *hppw)`. -/
def IRQput (w : World) (q : QueueBase T) (elem : T) (hppw : Option Bool) : PutResult T :=
  let h := hppwUpdate w q hppw
  let (w1, q1) := IRQwakeWaitingThread w q
  if q1.isFull then { ret := false, hppw := h, world := w1, queue := q1 }
  else
    let q2 := { q1 with numElem := uinc q1.numElem }
    let q3 := { q2 with buffer := q2.buffer.set q2.putPos elem }
    let p := uinc q3.putPos
    let q4 := { q3 with putPos := if p == q3.buffer.length then 0 else p }
    { ret := true, hppw := h, world := w1, queue := q4 }

/-- The private `IRQget(T& elem, bool *hppw)`. The element is moved out of its
slot; what the move leaves in the slot is not modelled (the slot is outside the
queued range from then on). -/
def IRQget [Inhabited T] (w : World) (q : QueueBase T) (elem : T) (hppw : Option Bool) :
    GetResult T :=
  let h := hppwUpdate w q hppw
  let (w1, q1) := IRQwakeWaitingThread w q
  if q1.isEmpty then { ret := false, elem := elem, hppw := h, world := w1, queue := q1 }
  else
    let q2 := { q1 with numElem := udec q1.numElem }
    let e := q2.buffer.getD q2.getPos default
    let g := uinc q2.getPos
    let q3 := { q2 with getPos := if g == q2.buffer.length then 0 else g }
    { ret := true, elem := e, hppw := h, world := w1, queue := q3 }

/-- The public `IRQput(const T& elem)`: `IRQput(elem,nullptr)`. -/
def IRQput_elem (w : World) (q : QueueBase T) (elem : T) : PutResult T :=
  IRQput w q elem none

/-- The public `IRQput(const T& elem, bool& hppw)`: `IRQput(elem,&hppw)`. -/
def IRQput_hppw (w : World) (q : QueueBase T) (elem : T) (hppw : Bool) : PutResult T :=
  IRQput w q elem (some hppw)

/-- The public `IRQget(T& elem)`: `IRQget(elem,nullptr)`. -/
def IRQget_elem [Inhabited T] (w : World) (q : QueueBase T) (elem : T) : GetResult T :=
  IRQget w q elem none

/-- The public `IRQget(T& elem, bool& hppw)`: `IRQget(elem,&hppw)`. -/
def IRQget_hppw [Inhabited T] (w : World) (q : QueueBase T) (elem : T) (hppw : Bool) :
    GetResult T :=
  IRQget w q elem (some hppw)

/-- One statement of the body of the private `IRQput` or `IRQget`, as written in
`queue.h`. -/
inductive Stmt where
  /-- Statement `if(hppw && waiting && (...)) *hppw=true;`. -/
  | hppwCheck
  /-- Statement `IRQwakeWaitingThread();`. -/
  | wakeWaitingThread
  /-- Statement `if(isFull()) return false;`. -/
  | returnIfFull
  /-- Statement `if(isEmpty()) return false;`. -/
  | returnIfEmpty
  /-- Statement `numElem++;`. -/
  | incNumElem
  /-- Statement `numElem--;`. -/
  | decNumElem
  /-- Statement `buffer.data[putPos]=elem;`. -/
  | storeElem
  /-- Statement `elem=std::move(buffer.data[getPos]);`. -/
  | moveElem
  /-- Statement `if(++putPos==buffer.size()) putPos=0;`. -/
  | advancePutPos
  /-- Statement `if(++getPos==buffer.size()) getPos=0;`. -/
  | advanceGetPos
  /-- Statement `return true;`. -/
  | returnTrue
  deriving DecidableEq, Repr

/-- The variables of a running call of `IRQput` or `IRQget`: the kernel, the
queue, `elem` (for `IRQget` the object the reference designates), `*hppw`
(`none` standing for `hppw==nullptr`), and the returned value once the call has
returned. -/
structure Frame (T : Type) where
  world : World
  queue : QueueBase T
  elem : T
  hppw : Option Bool
  ret : Option Bool
  deriving DecidableEq, Repr

/-- The frame on entry of a call. -/
def Frame.enter (w : World) (q : QueueBase T) (elem : T) (hppw : Option Bool) : Frame T :=
  { world := w, queue := q, elem := elem, hppw := hppw, ret := none }

/-- The body of the private `IRQput`, statement by statement, in the order of
the source. -/
def IRQput_body : List Stmt :=
  [Stmt.hppwCheck, Stmt.wakeWaitingThread, Stmt.returnIfFull, Stmt.incNumElem,
   Stmt.storeElem, Stmt.advancePutPos, Stmt.returnTrue]

/-- The body of the private `IRQget`, statement by statement, in the order of
the source. -/
def IRQget_body : List Stmt :=
  [Stmt.hppwCheck, Stmt.wakeWaitingThread, Stmt.returnIfEmpty, Stmt.decNumElem,
   Stmt.moveElem, Stmt.advanceGetPos, Stmt.returnTrue]

/-- Whether the statement reads or writes the ring buffer, that is one of
`numElem`, `buffer`, `putPos` and `getPos` (`isFull()` and `isEmpty()` read
`numElem`). The first statement reads `waiting`, `*hppw` and the priorities
only; `IRQwakeWaitingThread()` reads and writes `waiting` only. -/
def Stmt.examinesBuffer : Stmt → Bool
  | Stmt.hppwCheck => false
  | Stmt.wakeWaitingThread => false
  | Stmt.returnIfFull => true
  | Stmt.returnIfEmpty => true
  | Stmt.incNumElem => true
  | Stmt.decNumElem => true
  | Stmt.storeElem => true
  | Stmt.moveElem => true
  | Stmt.advancePutPos => true
  | Stmt.advanceGetPos => true
  | Stmt.returnTrue => false

/-- The effect of one statement on the frame. -/
def Stmt.exec [Inhabited T] : Stmt → Frame T → Frame T
  | Stmt.hppwCheck, f => { f with hppw := hppwUpdate f.world f.queue f.hppw }
  | Stmt.wakeWaitingThread, f =>
    { f with world := (IRQwakeWaitingThread f.world f.queue).1,
             queue := (IRQwakeWaitingThread f.world f.queue).2 }
  | Stmt.returnIfFull, f => if f.queue.isFull then { f with ret := some false } else f
  | Stmt.returnIfEmpty, f => if f.queue.isEmpty then { f with ret := some false } else f
  | Stmt.incNumElem, f => { f with queue := { f.queue with numElem := uinc f.queue.numElem } }
  | Stmt.decNumElem, f => { f with queue := { f.queue with numElem := udec f.queue.numElem } }
  | Stmt.storeElem, f =>
    { f with queue := { f.queue with buffer := f.queue.buffer.set f.queue.putPos f.elem } }
  | Stmt.moveElem, f => { f with elem := f.queue.buffer.getD f.queue.getPos default }
  | Stmt.advancePutPos, f =>
    { f with queue := { f.queue with
        putPos := if uinc f.queue.putPos == f.queue.buffer.length then 0
                  else uinc f.queue.putPos } }
  | Stmt.advanceGetPos, f =>
    { f with queue := { f.queue with
        getPos := if uinc f.queue.getPos == f.queue.buffer.length then 0
                  else uinc f.queue.getPos } }
  | Stmt.returnTrue, f => { f with ret := some true }

/-- The statements a call executes, in order, each with the frame it starts
from; the execution stops at the statement that returns. -/
def executed [Inhabited T] : List Stmt → Frame T → List (Stmt × Frame T)
  | [], _ => []
  | s :: rest, f =>
    (s, f) :: (match (s.exec f).ret with
               | some _ => []
               | none => executed rest (s.exec f))

/-- The frame a call ends in: the statements are executed in order up to the
one that returns. -/
def execute [Inhabited T] : List Stmt → Frame T → Frame T
  | [], f => f
  | s :: rest, f =>
    match (s.exec f).ret with
    | some _ => s.exec f
    | none => execute rest (s.exec f)

/-- The loop `while(!isEmpty()) { numElem--; buffer.data[getPos].~T();
if(++getPos==buffer.size()) getPos=0; }` of `IRQreset`, by recursion on
`numElem` (the loop runs on a nonzero `numElem`, where `--` is the predecessor);
returns the trace and `getPos` at loop exit (`numElem` is then 0). -/
def IRQresetLoop (len : Nat) : Nat → Nat → List Event → List Event × Nat
  | 0, getPos, tr => (tr, getPos)
  | n + 1, getPos, tr =>
    let g := uinc getPos
    IRQresetLoop len n (if g == len then 0 else g) (tr ++ [Event.destroy getPos])

/-- The `IRQreset()` member function; `trivial` is
`std::is_trivially_destructible<T>::value`. -/
def IRQreset (trivial : Bool) (w : World) (q : QueueBase T) : World × QueueBase T :=
  let (w1, q1) := IRQwakeWaitingThread w q
  let w2 : World :=
    if trivial == false then
      { w1 with trace := (IRQresetLoop q1.buffer.length q1.numElem q1.getPos w1.trace).1 }
    else w1
  (w2, { q1 with putPos := 0, getPos := 0, numElem := 0 })

/-- The `reset()` member function: `IRQreset()` under a
`FastInterruptDisableLock`. -/
def reset (trivial : Bool) (w : World) (q : QueueBase T) : World × QueueBase T :=
  IRQreset trivial w q

/-- The statement `waiting=Thread::IRQgetCurrentThread();` of the blocking
`put`, `get`, `IRQputBlocking` and `IRQgetBlocking`. -/
def registerWaiting (w : World) (q : QueueBase T) : QueueBase T :=
  { q with waiting := some w.current }

/-- The queued elements, oldest first: the `numElem` slots from `getPos` on,
wrapping at the end of the buffer. -/
def contents [Inhabited T] (q : QueueBase T) : List T :=
  (List.range q.numElem).map
    (fun i => q.buffer.getD ((q.getPos + i) % q.buffer.length) default)

/-- The representation invariant of the ring buffer: the length fits an
`unsigned int`, the occupancy does not exceed it, both indices are inside the
buffer, and `putPos` is `numElem` slots after `getPos`, wrapping. -/
def WF (q : QueueBase T) : Prop :=
  q.buffer.length < UINT_MOD ∧ q.numElem ≤ q.buffer.length ∧
  (q.getPos < q.buffer.length ∨ (q.buffer.length = 0 ∧ q.getPos = 0)) ∧
  q.putPos = (q.getPos + q.numElem) % q.buffer.length

instance (q : QueueBase T) : Decidable (WF q) := by
  unfold WF; infer_instance

/-- The states a queue constructed over `storage` can be in: those produced
from the constructor by calls of `IRQput`, `IRQget`, `IRQreset` (each with any
arguments and any state of the rest of the kernel) and by the registration of a
waiter made by the blocking `put` and `get`. -/
inductive Reachable [Inhabited T] (storage : List T) : QueueBase T → Prop
  | fresh : Reachable storage (new storage)
  | put (w : World) (q : QueueBase T) (elem : T) (hppw : Option Bool) :
      Reachable storage q → Reachable storage (IRQput w q elem hppw).queue
  | get (w : World) (q : QueueBase T) (elem : T) (hppw : Option Bool) :
      Reachable storage q → Reachable storage (IRQget w q elem hppw).queue
  | reset (trivial : Bool) (w : World) (q : QueueBase T) :
      Reachable storage q → Reachable storage (IRQreset trivial w q).2
  | register (w : World) (q : QueueBase T) :
      Reachable storage q → Reachable storage (registerWaiting w q)

end QueueBase

namespace QueueBase

variable {T : Type}

/-- The calls `IRQput(e1); ...; IRQput(en)` made one after the other: the return
values in call order, and the state after the last call. -/
def putAll (w : World) (q : QueueBase T) : List T → List Bool × World × QueueBase T
  | [] => ([], w, q)
  | e :: es =>
    let r := IRQput_elem w q e
    let rest := putAll r.world r.queue es
    (r.ret :: rest.1, rest.2)

/-- The call `IRQget(elem)` made `n` times one after the other on the same
variable `elem`: the return value of each call with the value of `elem` after
it, in call order, and the state after the last call. -/
def getN [Inhabited T] (w : World) (q : QueueBase T) (elem : T) :
    Nat → List (Bool × T) × World × QueueBase T
  | 0 => ([], w, q)
  | n + 1 =>
    let r := IRQget_elem w q elem
    let rest := getN r.world r.queue r.elem n
    ((r.ret, r.elem) :: rest.1, rest.2)

end QueueBase

/-- A state of the rest of the kernel for the examples: thread 0, of priority 0,
is running and no call has been made. -/
def exampleWorld : World := ⟨⟨0, 0⟩, []⟩

/-- A queue for the examples: length two, holding the element 5. -/
def exampleQueue : QueueBase Nat :=
  (QueueBase.IRQput exampleWorld (QueueBase.new [0, 0]) 5 none).queue

/-- Modelled from the spec: `Thread::IRQenableIrqAndWait` forwards to
`IRQenableIrqAndWaitImpl`, defined in `kernel.cpp`, which is not part of the
sources at hand ("suspend with interrupts/preemption re-enabled during the wait
and restored atomically on wake"); the model records the call of the running
thread. -/
def Thread.IRQenableIrqAndWait (w : World) : World :=
  { w with trace := w.trace ++ [Event.enableIrqAndWait w.current] }

namespace QueueBase

variable {T : Type}

/-- Outcome of one evaluation of the loop condition of a blocking `put` or
`get`, with the loop body when the condition holds: `done` tells that the loop
is left. -/
structure AttemptResult (T : Type) where
  done : Bool
  elem : T
  world : World
  queue : QueueBase T
  deriving DecidableEq, Repr

/-- One turn of the loop of `get` and `IRQgetBlocking`:
`while(IRQget(elem)==false) { waiting=Thread::IRQgetCurrentThread();
Thread::IRQenableIrqAndWait(dLock); }`, up to the call of
`IRQenableIrqAndWait`. -/
def getAttempt [Inhabited T] (w : World) (q : QueueBase T) (elem : T) : AttemptResult T :=
  let r := IRQget_elem w q elem
  if r.ret == false then
    { done := false, elem := r.elem, world := Thread.IRQenableIrqAndWait r.world,
      queue := registerWaiting r.world r.queue }
  else { done := true, elem := r.elem, world := r.world, queue := r.queue }

/-- One turn of the loop of `put` and `IRQputBlocking`:
`while(IRQput(elem)==false) { waiting=Thread::IRQgetCurrentThread();
Thread::IRQenableIrqAndWait(dLock); }`, up to the call of
`IRQenableIrqAndWait`. -/
def putAttempt (w : World) (q : QueueBase T) (elem : T) : AttemptResult T :=
  let r := IRQput_elem w q elem
  if r.ret == false then
    { done := false, elem := elem, world := Thread.IRQenableIrqAndWait r.world,
      queue := registerWaiting r.world r.queue }
  else { done := true, elem := elem, world := r.world, queue := r.queue }

end QueueBase

/-- Thread A of the two-waiter example. -/
def threadA : Thread := ⟨1, 0⟩

/-- Thread B of the two-waiter example. -/
def threadB : Thread := ⟨2, 0⟩

/-- An empty queue of length one on which thread A is registered as waiter. -/
def queueWithA : QueueBase Nat :=
  QueueBase.registerWaiting ⟨threadA, []⟩ (QueueBase.new [0])

/-! ## `BufferQueue` -/

/-- Number of values of an `unsigned char`. -/
def UCHAR_MOD : Nat := 2 ^ 8

/-- The `++` operator on an `unsigned char`. -/
def ucinc (x : Nat) : Nat := (x + 1) % UCHAR_MOD

/-- The `--` operator on an `unsigned char`. -/
def ucdec (x : Nat) : Nat := (x + UCHAR_MOD - 1) % UCHAR_MOD

/-- The conversion of an `int` to `unsigned char`. -/
def toUChar (x : Int) : Nat := (x % (UCHAR_MOD : Int)).toNat

/-- The error codes passed to `errorHandler` by the queues. -/
inductive Error where
  | UNEXPECTED
  deriving DecidableEq, Repr

/-- Modelled from the spec: `errorHandler` is declared in `error.h`, which is
not part of the sources at hand; it is the "process-wide fatal error handler
that halts/reboots", so the call does not return. -/
def errorHandler (e : Error) : Except Error Unit := Except.error e

/-- The template parameters `size` and `numbuf` and the data members of
`BufferQueue<T,size,numbuf>`. The buffers `buf[numbuf][size]` are written and
read by the callers only; a pointer to `buf[i]` is the index `i`. -/
structure BufferQueue where
  size : Nat
  numbuf : Nat
  bufSize : List Nat
  put : Nat
  get : Nat
  cnt : Nat
  deriving DecidableEq, Repr

namespace BufferQueue

/-- The constructor: `put(0), get(0), cnt(0)`; `sizes` is what the array
`bufSize`, which the constructor does not initialize, holds at construction. -/
def new (size numbuf : Nat) (sizes : List Nat) : BufferQueue :=
  { size := size, numbuf := numbuf, bufSize := sizes, put := 0, get := 0, cnt := 0 }

/-- The `isEmpty()` member function: `cnt==0`. -/
def isEmpty (q : BufferQueue) : Bool := q.cnt == 0

/-- The `isFull()` member function: `cnt==numbuf`. -/
def isFull (q : BufferQueue) : Bool := q.cnt == q.numbuf

/-- The `bufferMaxSize()` member function. -/
def bufferMaxSize (q : BufferQueue) : Nat := q.size

/-- The `numberOfBuffers()` member function. -/
def numberOfBuffers (q : BufferQueue) : Nat := q.numbuf

/-- The `tryGetWritableBuffer(T *&buffer)` member function: the return value,
the new value of `buffer`, and the queue after the call. -/
def tryGetWritableBuffer (q : BufferQueue) (buffer : Nat) : Bool × Nat × BufferQueue :=
  if q.isFull then (false, buffer, q)
  else (true, q.put, q)

/-- The `bufferFilled(unsigned int actualSize)` member function. -/
def bufferFilled (q : BufferQueue) (actualSize : Nat) : Except Error BufferQueue := do
  if q.isFull then errorHandler Error.UNEXPECTED
  let q1 := { q with cnt := ucinc q.cnt }
  let q2 := { q1 with bufSize := q1.bufSize.set q1.put actualSize, put := ucinc q1.put }
  let q3 := if q2.put ≥ q2.numbuf then { q2 with put := 0 } else q2
  pure q3

/-- The `availableForWriting()` member function: `numbuf-cnt`, returned as an
`unsigned char`. -/
def availableForWriting (q : BufferQueue) : Nat := toUChar ((q.numbuf : Int) - (q.cnt : Int))

/-- The `tryGetReadableBuffer(const T *&buffer, unsigned int& actualSize)`
member function: the return value, the new values of `buffer` and `actualSize`,
and the queue after the call. -/
def tryGetReadableBuffer (q : BufferQueue) (buffer : Nat) (actualSize : Nat) :
    Bool × Nat × Nat × BufferQueue :=
  if q.isEmpty then (false, buffer, actualSize, q)
  else (true, q.get, q.bufSize.getD q.get 0, q)

/-- The `bufferEmptied()` member function. -/
def bufferEmptied (q : BufferQueue) : Except Error BufferQueue := do
  if q.isEmpty then errorHandler Error.UNEXPECTED
  let q1 := { q with cnt := ucdec q.cnt }
  let q2 := { q1 with get := ucinc q1.get }
  let q3 := if q2.get ≥ q2.numbuf then { q2 with get := 0 } else q2
  pure q3

/-- The `availableForReading()` member function. -/
def availableForReading (q : BufferQueue) : Nat := q.cnt

/-- The `reset()` member function: `put=get=cnt=0`. -/
def reset (q : BufferQueue) : BufferQueue := { q with put := 0, get := 0, cnt := 0 }

/-- The states of a `BufferQueue<T,size,numbuf>` reachable from the constructor
by calls of `tryGetWritableBuffer`, `bufferFilled`, `tryGetReadableBuffer`,
`bufferEmptied` and `reset` none of which calls `errorHandler`. -/
inductive Reachable (size numbuf : Nat) (sizes : List Nat) : BufferQueue → Prop
  | fresh : Reachable size numbuf sizes (new size numbuf sizes)
  | writable (q : BufferQueue) (buffer : Nat) :
      Reachable size numbuf sizes q →
      Reachable size numbuf sizes (tryGetWritableBuffer q buffer).2.2
  | filled (q q1 : BufferQueue) (actualSize : Nat) :
      Reachable size numbuf sizes q → bufferFilled q actualSize = Except.ok q1 →
      Reachable size numbuf sizes q1
  | readable (q : BufferQueue) (buffer actualSize : Nat) :
      Reachable size numbuf sizes q →
      Reachable size numbuf sizes (tryGetReadableBuffer q buffer actualSize).2.2.2
  | emptied (q q1 : BufferQueue) :
      Reachable size numbuf sizes q → bufferEmptied q = Except.ok q1 →
      Reachable size numbuf sizes q1
  | reset (q : BufferQueue) :
      Reachable size numbuf sizes q → Reachable size numbuf sizes (reset q)

/-- A buffer queue for the examples: double buffering, one buffer filled. -/
def exampleBufferQueue : BufferQueue :=
  { size := 16, numbuf := 2, bufSize := [10, 0], put := 1, get := 0, cnt := 1 }

end BufferQueue

/-! ## A blocking `get` against one interrupt -/

/-- Modelled from the spec: whether thread `t` is in wait status after the calls
of a trace. `IRQenableIrqAndWait` "stops the thread until wakeup() is called"
and `IRQwakeup` ends the wait; both are defined in `kernel.cpp`, which is not
part of the sources at hand. -/
def inWaitStatus (t : Thread) (tr : List Event) : Bool :=
  tr.foldl (fun b e =>
    match e with
    | Event.wakeup u => if u = t then false else b
    | Event.enableIrqAndWait u => if u = t then true else b
    | Event.destroy _ => b) false

/-- Where the thread that called `get` is: before its first attempt, suspended
inside `IRQenableIrqAndWait`, or returned from `get`. -/
inductive GetPc where
  | entry
  | parked
  | returned
  deriving DecidableEq, Repr

/-- A thread inside `QueueBase::get(elem)` and an interrupt handler that calls
`IRQput` once: the kernel, the queue, the position of the thread, its variable
`elem`, and whether the interrupt has been served. -/
structure GetSys (T : Type) where
  world : World
  queue : QueueBase T
  pc : GetPc
  elem : T
  irqDone : Bool
  deriving DecidableEq, Repr

namespace GetSys

variable {T : Type}

/-- The state in which thread `t` calls `get(elem)` on a freshly constructed
queue. -/
def init (w : World) (storage : List T) (elem : T) : GetSys T :=
  { world := w, queue := QueueBase.new storage, pc := GetPc.entry, elem := elem,
    irqDone := false }

/-- Thread `t` runs `get` from where it stands to its next suspension or to its
return. `get` holds a `FastInterruptDisableLock`, so no interrupt is served in
between; a suspended thread runs again only once it has left the wait status. -/
def threadStep [Inhabited T] (t : Thread) (s : GetSys T) : Option (GetSys T) :=
  let r := QueueBase.getAttempt { s.world with current := t } s.queue s.elem
  let next : GetSys T :=
    { world := r.world, queue := r.queue,
      pc := if r.done then GetPc.returned else GetPc.parked,
      elem := r.elem, irqDone := s.irqDone }
  match s.pc with
  | GetPc.entry => some next
  | GetPc.parked => if inWaitStatus t s.world.trace then none else some next
  | GetPc.returned => none

/-- The interrupt handler runs `IRQput(x)`; it does so once, at a point where
interrupts are enabled, that is between two steps of the thread. -/
def irqStep (x : T) (s : GetSys T) : Option (GetSys T) :=
  if s.irqDone then none
  else
    let r := QueueBase.IRQput_elem s.world s.queue x
    some { s with world := r.world, queue := r.queue, irqDone := true }

/-- One step of the system: a step of the thread or the interrupt. -/
inductive Step [Inhabited T] (t : Thread) (x : T) : GetSys T → GetSys T → Prop
  | thread {s s1 : GetSys T} : threadStep t s = some s1 → Step t x s s1
  | irq {s s1 : GetSys T} : irqStep x s = some s1 → Step t x s s1

/-- An execution of `n` steps. -/
inductive Run [Inhabited T] (t : Thread) (x : T) : Nat → GetSys T → GetSys T → Prop
  | refl (s : GetSys T) : Run t x 0 s s
  | tail {n : Nat} {s s1 s2 : GetSys T} : Run t x n s s1 → Step t x s1 s2 → Run t x (n + 1) s s2

end GetSys

/-- The state in which the thread of the example, thread A, has failed its first
attempt on the empty queue and is suspended. -/
def exampleGetParked : GetSys Nat :=
  { world := ⟨threadA, [Event.enableIrqAndWait threadA]⟩,
    queue := ⟨[0], some threadA, 0, 0, 0⟩, pc := GetPc.parked, elem := 0, irqDone := false }

/-- The state in which the interrupt has put 42 and woken thread A. -/
def exampleGetWoken : GetSys Nat :=
  { world := ⟨threadA, [Event.enableIrqAndWait threadA, Event.wakeup threadA]⟩,
    queue := ⟨[42], none, 1, 0, 0⟩, pc := GetPc.parked, elem := 0, irqDone := true }

/-- The state in which the thread of the example, thread A, has returned from
`get` with 42 after having been suspended and woken by the interrupt. -/
def exampleGetFinal : GetSys Nat :=
  { world := ⟨threadA, [Event.enableIrqAndWait threadA, Event.wakeup threadA]⟩,
    queue := ⟨[42], none, 0, 0, 0⟩, pc := GetPc.returned, elem := 42, irqDone := true }

/-! ## `Thread::ThreadFlags` (`miosix/kernel/kernel.h`) -/

/-- The data member `unsigned char flags` of `Thread::ThreadFlags` (the
back-pointer `t` to the thread plays no part in the member functions below). -/
structure ThreadFlags where
  flags : Nat
  deriving DecidableEq, Repr

namespace ThreadFlags

/-- Thread is in the wait status: `1<<0`. -/
def WAIT : Nat := 1 <<< 0

/-- Thread is sleeping: `1<<1`. -/
def SLEEP : Nat := 1 <<< 1

/-- Thread is deleted: `1<<2`. -/
def DELETED : Nat := 1 <<< 2

/-- Somebody asked this thread to delete itself: `1<<3`. -/
def DELETING : Nat := 1 <<< 3

/-- Thread is detached: `1<<4`. -/
def DETACHED : Nat := 1 <<< 4

/-- Thread is waiting for a join: `1<<5`. -/
def WAIT_JOIN : Nat := 1 <<< 5

/-- Thread is running in userspace: `1<<6`. -/
def USERSPACE : Nat := 1 <<< 6

/-- The constructor: `flags(0)`. -/
def new : ThreadFlags := { flags := 0 }

/-- The `IRQsetDeleting()` member function: `flags |= DELETING`, stored in an
`unsigned char`. -/
def IRQsetDeleting (f : ThreadFlags) : ThreadFlags :=
  { flags := (f.flags ||| DELETING) % UCHAR_MOD }

/-- The `IRQsetDetached()` member function: `flags |= DETACHED`. -/
def IRQsetDetached (f : ThreadFlags) : ThreadFlags :=
  { flags := (f.flags ||| DETACHED) % UCHAR_MOD }

/-- The `IRQsetUserspace(bool userspace)` member function:
`if(userspace) flags |= USERSPACE; else flags &= ~USERSPACE;`, the complement
being taken on an `unsigned int`. -/
def IRQsetUserspace (f : ThreadFlags) (userspace : Bool) : ThreadFlags :=
  if userspace then { flags := (f.flags ||| USERSPACE) % UCHAR_MOD }
  else { flags := (f.flags &&& (UINT_MOD - 1 - USERSPACE)) % UCHAR_MOD }

/-- The `isWaiting()` member function: `flags & WAIT`, converted to `bool`. -/
def isWaiting (f : ThreadFlags) : Bool := (f.flags &&& WAIT) != 0

/-- The `isSleeping()` member function: `flags & SLEEP`. -/
def isSleeping (f : ThreadFlags) : Bool := (f.flags &&& SLEEP) != 0

/-- The `isDeleted()` member function: `(flags & 0x14)==0x14`. -/
def isDeleted (f : ThreadFlags) : Bool := (f.flags &&& 0x14) == 0x14

/-- The `isDeletedJoin()` member function: `flags & DELETED`. -/
def isDeletedJoin (f : ThreadFlags) : Bool := (f.flags &&& DELETED) != 0

/-- The `isDeleting()` member function: `flags & DELETING`. -/
def isDeleting (f : ThreadFlags) : Bool := (f.flags &&& DELETING) != 0

/-- The `isReady()` member function: `(flags & 0x27)==0`. -/
def isReady (f : ThreadFlags) : Bool := (f.flags &&& 0x27) == 0

/-- The `isDetached()` member function: `flags & DETACHED`. -/
def isDetached (f : ThreadFlags) : Bool := (f.flags &&& DETACHED) != 0

/-- The `isWaitingJoin()` member function: `flags & WAIT_JOIN`. -/
def isWaitingJoin (f : ThreadFlags) : Bool := (f.flags &&& WAIT_JOIN) != 0

/-- The `isInUserspace()` member function: `flags & USERSPACE`. -/
def isInUserspace (f : ThreadFlags) : Bool := (f.flags &&& USERSPACE) != 0

end ThreadFlags

namespace ThreadFlags

/-- The six derived states of a thread, as the specification lists them: ready,
waiting, sleeping, waiting-join, deleted-pending-join (`isDeletedJoin()` and not
`isDetached()`) and deleted-reclaimable (`isDeleted()`). -/
def derivedStates (f : ThreadFlags) : List Bool :=
  [f.isReady, f.isWaiting, f.isSleeping, f.isWaitingJoin,
   f.isDeletedJoin && !f.isDetached, f.isDeleted]

/-- In how many of the six derived states a thread is. -/
def stateCount (f : ThreadFlags) : Nat := (derivedStates f).count true

end ThreadFlags

/-! ## `basic_scheduler` (`miosix/kernel/scheduler/scheduler.h`) -/

/-- Modelled from the spec: `CPUTimeCounter` is declared in
`kernel/cpu_time_counter.h`, which is not part of the sources at hand ("per-thread
runtime counters hooked into scheduler transitions"); the model keeps the list
of the threads passed to `CPUTimeCounter::PKaddThread`, oldest first. -/
structure CPUTimeCounter where
  added : List Thread
  deriving DecidableEq, Repr

/-- Modelled from the spec: the call `CPUTimeCounter::PKaddThread(thread)`,
recorded. -/
def CPUTimeCounter.PKaddThread (c : CPUTimeCounter) (thread : Thread) : CPUTimeCounter :=
  { added := c.added ++ [thread] }

/-- The scheduling policy `T` of `basic_scheduler<T>`, as far as `PKaddThread`
goes: its state, of type `S`, is not looked into by `basic_scheduler`, and
`T::PKaddThread(thread,priority)` returns a `bool` and a new state. -/
structure Policy (S : Type) where
  PKaddThread : S → Thread → Int → Bool × S

/-- What `basic_scheduler<T>::PKaddThread` acts on: the state of the policy and
the CPU time counter. -/
structure SchedulerState (S : Type) where
  policy : S
  cpuTimeCounter : CPUTimeCounter

/-- The `basic_scheduler<T>::PKaddThread(thread, priority)` static member
function; the first argument tells whether the macro `WITH_CPU_TIME_COUNTER` is
defined. -/
def basic_scheduler.PKaddThread {S : Type} (WITH_CPU_TIME_COUNTER : Bool) (T : Policy S)
    (s : SchedulerState S) (thread : Thread) (priority : Int) : Bool × SchedulerState S :=
  let r := T.PKaddThread s.policy thread priority
  let res := r.1
  let s1 : SchedulerState S := { s with policy := r.2 }
  let s2 : SchedulerState S :=
    if WITH_CPU_TIME_COUNTER then
      if res then { s1 with cpuTimeCounter := s1.cpuTimeCounter.PKaddThread thread } else s1
    else s1
  (res, s2)

/-- A policy for the examples: it accepts every thread and counts them. -/
def acceptingPolicy : Policy Nat := { PKaddThread := fun n _ _ => (true, n + 1) }

/-! ## `DynUnsyncQueue` (`miosix/kernel/queue.h`) -/

/-- The data members of `DynUnsyncQueue<T>`; `data` is the array `data` points
to. -/
structure DynUnsyncQueue (T : Type) where
  data : List T
  putPos : Nat
  getPos : Nat
  queueSize : Nat
  queueCapacity : Nat
  deriving DecidableEq, Repr

namespace DynUnsyncQueue

variable {T : Type}

/-- The constructor `DynUnsyncQueue(unsigned int elem)`: `data(new T[elem]),
putPos(0), getPos(0), queueSize(0), queueCapacity(elem)`. The argument is what
the new array holds; its length is `elem`. -/
def new (storage : List T) : DynUnsyncQueue T :=
  { data := storage, putPos := 0, getPos := 0, queueSize := 0,
    queueCapacity := storage.length }

/-- The `isEmpty()` member function: `queueSize==0`. -/
def isEmpty (q : DynUnsyncQueue T) : Bool := q.queueSize == 0

/-- The `isFull()` member function: `queueSize==queueCapacity`. -/
def isFull (q : DynUnsyncQueue T) : Bool := q.queueSize == q.queueCapacity

/-- The `size()` member function. -/
def size (q : DynUnsyncQueue T) : Nat := q.queueSize

/-- The `capacity()` member function. -/
def capacity (q : DynUnsyncQueue T) : Nat := q.queueCapacity

/-- The `tryPut(const T& elem)` member function: the return value and the queue
after the call. -/
def tryPut (q : DynUnsyncQueue T) (elem : T) : Bool × DynUnsyncQueue T :=
  if q.isFull then (false, q)
  else
    let q1 := { q with queueSize := uinc q.queueSize }
    let q2 := { q1 with data := q1.data.set q1.putPos elem, putPos := uinc q1.putPos }
    let q3 := if q2.putPos ≥ q2.queueCapacity then { q2 with putPos := 0 } else q2
    (true, q3)

/-- The `tryGet(T& elem)` member function: the return value, the new value of
`elem`, and the queue after the call. -/
def tryGet [Inhabited T] (q : DynUnsyncQueue T) (elem : T) : Bool × T × DynUnsyncQueue T :=
  if q.isEmpty then (false, elem, q)
  else
    let q1 := { q with queueSize := udec q.queueSize }
    let e := q1.data.getD q1.getPos default
    let q2 := { q1 with getPos := uinc q1.getPos }
    let q3 := if q2.getPos ≥ q2.queueCapacity then { q2 with getPos := 0 } else q2
    (true, e, q3)

/-- The `reset()` member function: `putPos=getPos=queueSize=0`. -/
def reset (q : DynUnsyncQueue T) : DynUnsyncQueue T :=
  { q with putPos := 0, getPos := 0, queueSize := 0 }

/-- A call on the queue. -/
inductive Call (T : Type) where
  | tryPut (elem : T)
  | tryGet
  | reset
  deriving DecidableEq, Repr

/-- What the caller sees of a call: the return value of `tryPut`; the element
delivered by a `tryGet` that returned true, or `none` when it returned false;
nothing for `reset`. -/
inductive Seen (T : Type) where
  | put (ret : Bool)
  | got (elem : Option T)
  | reset
  deriving DecidableEq, Repr

/-- A sequence of calls on the queue, and what the caller sees of each. -/
def run [Inhabited T] (q : DynUnsyncQueue T) : List (Call T) → List (Seen T)
  | [] => []
  | Call.tryPut e :: cs => Seen.put (tryPut q e).1 :: run (tryPut q e).2 cs
  | Call.tryGet :: cs =>
    Seen.got (if (tryGet q default).1 then some (tryGet q default).2.1 else none) ::
      run (tryGet q default).2.2 cs
  | Call.reset :: cs => Seen.reset :: run (reset q) cs

/-- The specification the calls are compared with: a first-in first-out list of
at most `capacity` elements, holding the elements accepted since the last reset
and not yet delivered. `tryPut` appends when there is room, `tryGet` delivers
the oldest element, `reset` empties the list. -/
def fifoSpec (capacity : Nat) : List T → List (Call T) → List (Seen T)
  | _, [] => []
  | l, Call.tryPut e :: cs =>
    if l.length < capacity then Seen.put true :: fifoSpec capacity (l ++ [e]) cs
    else Seen.put false :: fifoSpec capacity l cs
  | [], Call.tryGet :: cs => Seen.got none :: fifoSpec capacity [] cs
  | x :: l, Call.tryGet :: cs => Seen.got (some x) :: fifoSpec capacity l cs
  | _, Call.reset :: cs => Seen.reset :: fifoSpec capacity [] cs

/-- The queued elements, oldest first: the `queueSize` slots from `getPos` on,
wrapping at `queueCapacity`. -/
def contents [Inhabited T] (q : DynUnsyncQueue T) : List T :=
  (List.range q.queueSize).map
    (fun i => q.data.getD ((q.getPos + i) % q.queueCapacity) default)

/-- The representation invariant: the array has `queueCapacity` elements, an
`unsigned int`; the occupancy does not exceed it; both indices are inside the
array, `putPos` being `queueSize` slots after `getPos`, wrapping. -/
def WF (q : DynUnsyncQueue T) : Prop :=
  q.data.length = q.queueCapacity ∧ q.queueCapacity < UINT_MOD ∧
  q.queueSize ≤ q.queueCapacity ∧
  (q.getPos < q.queueCapacity ∨ (q.queueCapacity = 0 ∧ q.getPos = 0)) ∧
  q.putPos = (q.getPos + q.queueSize) % q.queueCapacity

end DynUnsyncQueue

namespace BufferQueue

/-- The representation invariant of a `BufferQueue`: `numbuf` is a nonzero
`unsigned char`, `bufSize` has `numbuf` elements, at most `numbuf` buffers are
filled, both indices are below `numbuf`, and `put` is `cnt` buffers after `get`,
wrapping. -/
def WF (q : BufferQueue) : Prop :=
  0 < q.numbuf ∧ q.numbuf < UCHAR_MOD ∧ q.bufSize.length = q.numbuf ∧ q.cnt ≤ q.numbuf ∧
  q.get < q.numbuf ∧ q.put = (q.get + q.cnt) % q.numbuf

/-- The filled buffers, oldest first, each with the size recorded for it: the
`cnt` buffers from `get` on, wrapping at `numbuf`. -/
def pending (q : BufferQueue) : List (Nat × Nat) :=
  (List.range q.cnt).map
    (fun i => ((q.get + i) % q.numbuf, q.bufSize.getD ((q.get + i) % q.numbuf) 0))

/-- A turn of the writer, with the size it reports, or of the reader. -/
inductive Turn where
  | write (actualSize : Nat)
  | read
  deriving DecidableEq, Repr

/-- A queue with the record of the hand-offs made so far: for each writer step
the buffer obtained and the size reported, for each reader step the buffer and
the size received, oldest first. -/
structure HandOff where
  queue : BufferQueue
  written : List (Nat × Nat)
  received : List (Nat × Nat)
  deriving DecidableEq, Repr

/-- A successful writer step: `tryGetWritableBuffer(buffer)` returns true, the
writer fills the buffer, then calls `bufferFilled(actualSize)`. `none` when
`tryGetWritableBuffer` returns false or `errorHandler` is called. -/
def writerStep (h : HandOff) (actualSize : Nat) : Option HandOff :=
  let r := tryGetWritableBuffer h.queue 0
  if r.1 then
    match bufferFilled r.2.2 actualSize with
    | Except.ok q1 =>
      some { queue := q1, written := h.written ++ [(r.2.1, actualSize)],
             received := h.received }
    | Except.error _ => none
  else none

/-- A successful reader step: `tryGetReadableBuffer(buffer, actualSize)` returns
true, the reader uses the buffer, then calls `bufferEmptied()`. `none` when
`tryGetReadableBuffer` returns false or `errorHandler` is called. -/
def readerStep (h : HandOff) : Option HandOff :=
  let r := tryGetReadableBuffer h.queue 0 0
  if r.1 then
    match bufferEmptied r.2.2.2 with
    | Except.ok q1 =>
      some { queue := q1, written := h.written,
             received := h.received ++ [(r.2.1, r.2.2.1)] }
    | Except.error _ => none
  else none

/-- A sequence of writer and reader steps, all successful; `none` otherwise. -/
def handOff : HandOff → List Turn → Option HandOff
  | h, [] => some h
  | h, Turn.write s :: ts => (writerStep h s).bind (fun h1 => handOff h1 ts)
  | h, Turn.read :: ts => (readerStep h).bind (fun h1 => handOff h1 ts)

/-- The number of writer turns in a sequence. -/
def writes : List Turn → Nat
  | [] => 0
  | Turn.write _ :: ts => writes ts + 1
  | Turn.read :: ts => writes ts

/-- The number of reader turns in a sequence. -/
def reads : List Turn → Nat
  | [] => 0
  | Turn.write _ :: ts => reads ts
  | Turn.read :: ts => reads ts + 1

end BufferQueue

/-! ## Scope guards (`miosix/kernel/kernel.h`) -/

/-- The functions the scope guards call. -/
inductive Primitive where
  | disableInterrupts
  | enableInterrupts
  | fastDisableInterrupts
  | fastEnableInterrupts
  | pauseKernel
  | restartKernel
  deriving DecidableEq, Repr

/-- The call that undoes a call. -/
def Primitive.inverse : Primitive → Primitive
  | Primitive.disableInterrupts => Primitive.enableInterrupts
  | Primitive.enableInterrupts => Primitive.disableInterrupts
  | Primitive.fastDisableInterrupts => Primitive.fastEnableInterrupts
  | Primitive.fastEnableInterrupts => Primitive.fastDisableInterrupts
  | Primitive.pauseKernel => Primitive.restartKernel
  | Primitive.restartKernel => Primitive.pauseKernel

/-- The six scope guard classes. -/
inductive Guard where
  | InterruptDisableLock
  | InterruptEnableLock
  | FastInterruptDisableLock
  | FastInterruptEnableLock
  | PauseKernelLock
  | RestartKernelLock
  deriving DecidableEq, Repr

/-- The body of the constructor of each guard: one call. -/
def Guard.construct : Guard → Primitive
  | Guard.InterruptDisableLock => Primitive.disableInterrupts
  | Guard.InterruptEnableLock => Primitive.enableInterrupts
  | Guard.FastInterruptDisableLock => Primitive.fastDisableInterrupts
  | Guard.FastInterruptEnableLock => Primitive.fastEnableInterrupts
  | Guard.PauseKernelLock => Primitive.pauseKernel
  | Guard.RestartKernelLock => Primitive.restartKernel

/-- The body of the destructor of each guard: one call. -/
def Guard.destruct : Guard → Primitive
  | Guard.InterruptDisableLock => Primitive.enableInterrupts
  | Guard.InterruptEnableLock => Primitive.disableInterrupts
  | Guard.FastInterruptDisableLock => Primitive.fastEnableInterrupts
  | Guard.FastInterruptEnableLock => Primitive.fastDisableInterrupts
  | Guard.PauseKernelLock => Primitive.restartKernel
  | Guard.RestartKernelLock => Primitive.pauseKernel

/-- Modelled from the spec: the state of the interrupt gate, which lives in
`kernel.cpp`, not part of the sources at hand: "process-wide enable/disable
counters for interrupts and kernel preemption, supporting nesting". `calls`
records the calls made, oldest first. -/
structure Gate where
  kernelStarted : Bool
  interruptDisableNesting : Nat
  pauseKernelNesting : Nat
  calls : List Primitive
  deriving DecidableEq, Repr

/-- Modelled from the spec: the six functions are declared in `kernel.h` and the
architecture headers and defined elsewhere. `disableInterrupts` /
`enableInterrupts` and `pauseKernel` / `restartKernel` each "form a nestable
counter" and "are no-ops if called before the kernel starts"; the fast variant
has no counter. An enable or restart with nothing outstanding is outside the
contract: `none`. -/
def Primitive.call (p : Primitive) (s : Gate) : Option Gate :=
  let s1 : Gate := { s with calls := s.calls ++ [p] }
  if s.kernelStarted = false then some s1
  else
    match p with
    | Primitive.disableInterrupts =>
      some { s1 with interruptDisableNesting := s.interruptDisableNesting + 1 }
    | Primitive.enableInterrupts =>
      if s.interruptDisableNesting = 0 then none
      else some { s1 with interruptDisableNesting := s.interruptDisableNesting - 1 }
    | Primitive.pauseKernel =>
      some { s1 with pauseKernelNesting := s.pauseKernelNesting + 1 }
    | Primitive.restartKernel =>
      if s.pauseKernelNesting = 0 then none
      else some { s1 with pauseKernelNesting := s.pauseKernelNesting - 1 }
    | Primitive.fastDisableInterrupts => some s1
    | Primitive.fastEnableInterrupts => some s1

/-- A properly nested arrangement of guarded scopes: nothing, or a scope
`{ G guard; body }` followed by the rest of the enclosing block. Leaving a
scope early (return, exception) cuts its body short, which is again such an
arrangement. -/
inductive Scopes where
  | done
  | scope (g : Guard) (body rest : Scopes)
  deriving DecidableEq, Repr

namespace Scopes

/-- Execution of an arrangement: entering a scope runs the constructor of its
guard, leaving it runs the destructor. -/
def run : Scopes → Gate → Option Gate
  | done, s => some s
  | scope g body rest, s =>
    (g.construct.call s).bind fun s1 =>
      (body.run s1).bind fun s2 =>
        (g.destruct.call s2).bind fun s3 => rest.run s3

/-- The number of guards of an arrangement. -/
def guards : Scopes → Nat
  | done => 0
  | scope _ body rest => body.guards + 1 + rest.guards

/-- The calls the specification expects of an arrangement: for each scope the
acquire (resp. release) call of its guard on entry and the inverse call on
exit, around the calls of its body. -/
def expectedCalls : Scopes → List Primitive
  | done => []
  | scope g body rest =>
    g.construct :: body.expectedCalls ++ g.construct.inverse :: rest.expectedCalls

/-- The least `interruptDisableNesting` on entry with which no
`enableInterrupts` of the arrangement finds the counter at zero. -/
def needInterrupt : Scopes → Nat
  | done => 0
  | scope g body rest =>
    max (match g with
         | Guard.InterruptDisableLock => body.needInterrupt - 1
         | Guard.InterruptEnableLock => body.needInterrupt + 1
         | _ => body.needInterrupt) rest.needInterrupt

/-- The least `pauseKernelNesting` on entry with which no `restartKernel` of the
arrangement finds the counter at zero. -/
def needPause : Scopes → Nat
  | done => 0
  | scope g body rest =>
    max (match g with
         | Guard.PauseKernelLock => body.needPause - 1
         | Guard.RestartKernelLock => body.needPause + 1
         | _ => body.needPause) rest.needPause

/-- The arrangement of the example in `kernel.h`: an `InterruptEnableLock`
inside an `InterruptDisableLock`, followed by a `PauseKernelLock` around a
`FastInterruptDisableLock`. -/
def exampleScopes : Scopes :=
  scope Guard.InterruptDisableLock (scope Guard.InterruptEnableLock done done)
    (scope Guard.PauseKernelLock (scope Guard.FastInterruptDisableLock done done) done)

end Scopes

/-- The gate after `Scopes.exampleScopes` has run in a started kernel, both
counters at zero on entry. -/
def exampleGateAfter : Gate :=
  ⟨true, 0, 0,
   [Primitive.disableInterrupts, Primitive.enableInterrupts, Primitive.disableInterrupts,
    Primitive.enableInterrupts, Primitive.pauseKernel, Primitive.fastDisableInterrupts,
    Primitive.fastEnableInterrupts, Primitive.restartKernel]⟩

/-- Turns for the hand-off example: double buffering, two buffers filled, one
read, one more filled, two read. -/
def exampleTurns : List BufferQueue.Turn :=
  [BufferQueue.Turn.write 10, BufferQueue.Turn.write 11, BufferQueue.Turn.read,
   BufferQueue.Turn.write 12, BufferQueue.Turn.read, BufferQueue.Turn.read]

/-- The queue and the record of hand-offs after `exampleTurns`. -/
def exampleHandOff : BufferQueue.HandOff :=
  ⟨⟨16, 2, [12, 11], 1, 1, 0⟩, [(0, 10), (1, 11), (0, 12)], [(0, 10), (1, 11), (0, 12)]⟩

/-! ## `GpioPin` (`miosix/arch/common/drivers/stm32f1_gpio.h`) -/

/-- Number of values of an `unsigned long`, 32 bits wide on the Cortex-M3 the
driver is written for. -/
def ULONG_MOD : Nat := 2 ^ 32

/-- The data member `unsigned long p` of `GpioPin`. -/
structure GpioPin where
  p : Nat
  deriving DecidableEq, Repr

namespace GpioPin

/-- The `pack(unsigned long p, unsigned long n)` static member function:
`p | n`. -/
def pack (p n : Nat) : Nat := (p ||| n) % ULONG_MOD

/-- The constructor `GpioPin(unsigned int p, unsigned char n) : p(pack(p, n))`;
both arguments are widened to `unsigned long`. -/
def new (p n : Nat) : GpioPin := { p := pack (p % UINT_MOD) (n % UCHAR_MOD) }

/-- The `getPort()` member function: `p & ~0xF`, returned as an `unsigned int`;
`~0xF` is the `int` -16, which converts to the `unsigned long` 0xFFFFFFF0. -/
def getPort (g : GpioPin) : Nat := (g.p &&& (ULONG_MOD - 1 - 0xF)) % UINT_MOD

/-- The `getNumber()` member function:
`static_cast<unsigned char>(p & 0xF)`. -/
def getNumber (g : GpioPin) : Nat := (g.p &&& 0xF) % UCHAR_MOD

end GpioPin

/-! ## `ClockController::calibrateClockSpeed`
(`miosix/arch/common/drivers/sd_stm32l4.cpp`) -/

/-- The static data members of `ClockController`, and the arguments of the calls
of `setClockSpeed` made so far, oldest first (the last one is the divider the
peripheral is programmed with). -/
structure ClockController where
  clockReductionAvailable : Nat
  retries : Nat
  programmed : List Nat
  deriving DecidableEq, Repr

namespace ClockController

/-- The constant `CLOCK_400KHz`. -/
def CLOCK_400KHz : Nat := 60

/-- The constant `MAX_ALLOWED_REDUCTIONS`. -/
def MAX_ALLOWED_REDUCTIONS : Nat := 1

/-- The constant `MAX_RETRY`. -/
def MAX_RETRY : Nat := 10

/-- The `setClockSpeed(unsigned int clkdiv)` member function, as far as the
divider goes: it writes `clkdiv` with fixed flags to `CLKCR`. -/
def setClockSpeed (c : ClockController) (clkdiv : Nat) : ClockController :=
  { c with programmed := c.programmed ++ [clkdiv] }

/-- The divider the peripheral is programmed with. -/
def divider (c : ClockController) : Nat := c.programmed.getLastD 0

/-- The loop `while(minFreq-maxFreq>1)` of `calibrateClockSpeed`, with at most
`fuel` turns; `none` when the fuel runs out. `readOk d` tells whether
`sdio->readBlock(buffer,512,0)==512` when the peripheral is programmed with the
divider `d`. Returns `minFreq`, `maxFreq` and the controller at loop exit. -/
def calibrateLoop (readOk : Nat → Bool) :
    Nat → Nat → Nat → ClockController → Option (Nat × Nat × ClockController)
  | fuel, minFreq, maxFreq, c =>
    if usub minFreq maxFreq > 1 then
      match fuel with
      | 0 => none
      | fuel + 1 =>
        let selected := ((minFreq + maxFreq) % UINT_MOD) / 2
        let c1 := c.setClockSpeed selected
        if readOk c1.divider then calibrateLoop readOk fuel selected maxFreq c1
        else calibrateLoop readOk fuel minFreq selected c1
    else some (minFreq, maxFreq, c)

/-- The `calibrateClockSpeed(SDIODriver *sdio)` member function; `CLOCK_MAX` is
the constant of that name (0 unless `OVERRIDE_SD_CLOCK_DIVIDER_MAX` is
defined), `fuel` bounds the turns of the loop. -/
def calibrateClockSpeed (CLOCK_MAX : Nat) (readOk : Nat → Bool) (fuel : Nat)
    (c : ClockController) : Option ClockController :=
  let c0 := { c with clockReductionAvailable := 0, retries := 1 }
  match calibrateLoop readOk fuel CLOCK_400KHz CLOCK_MAX c0 with
  | none => none
  | some (minFreq, maxFreq, c1) =>
    let c2 := c1.setClockSpeed maxFreq
    let c3 := if readOk c2.divider then c2 else c2.setClockSpeed minFreq
    some { c3 with clockReductionAvailable := MAX_ALLOWED_REDUCTIONS, retries := MAX_RETRY }

/-- A card for the examples: block reads succeed with a divider of 3 or more. -/
def exampleReadOk (d : Nat) : Bool := decide (3 ≤ d)

end ClockController

namespace QueueBase

variable {T : Type}

/-- A call on the queue: `IRQput(elem,hppw)`, `IRQget(elem,hppw)` or
`IRQreset()`, each with the state of the rest of the kernel it is made in (and,
for `IRQreset`, whether `T` is trivially destructible). -/
inductive Call (T : Type) where
  | IRQput (w : World) (elem : T) (hppw : Option Bool)
  | IRQget (w : World) (hppw : Option Bool)
  | IRQreset (trivial : Bool) (w : World)

/-- What the caller sees of a call: the return value of `IRQput`; the element
delivered by an `IRQget` that returned true, or `none` when it returned false;
nothing for `IRQreset`. -/
inductive Seen (T : Type) where
  | put (ret : Bool)
  | got (elem : Option T)
  | reset
  deriving DecidableEq, Repr

/-- A sequence of calls on the queue, and what the caller sees of each. -/
def run [Inhabited T] (q : QueueBase T) : List (Call T) → List (Seen T)
  | [] => []
  | Call.IRQput w e hppw :: cs =>
    Seen.put (IRQput w q e hppw).ret :: run (IRQput w q e hppw).queue cs
  | Call.IRQget w hppw :: cs =>
    Seen.got (if (IRQget w q default hppw).ret then some (IRQget w q default hppw).elem
              else none) ::
      run (IRQget w q default hppw).queue cs
  | Call.IRQreset trivial w :: cs => Seen.reset :: run (IRQreset trivial w q).2 cs

/-- The specification the calls are compared with: an abstract bounded
first-in first-out list of capacity `N`; put appends if the length is below
`N`, get removes the head, reset empties the list. -/
def boundedFifo (N : Nat) : List T → List (Call T) → List (Seen T)
  | _, [] => []
  | l, Call.IRQput _ e _ :: cs =>
    if l.length < N then Seen.put true :: boundedFifo N (l ++ [e]) cs
    else Seen.put false :: boundedFifo N l cs
  | [], Call.IRQget _ _ :: cs => Seen.got none :: boundedFifo N [] cs
  | x :: l, Call.IRQget _ _ :: cs => Seen.got (some x) :: boundedFifo N l cs
  | _, Call.IRQreset _ _ :: cs => Seen.reset :: boundedFifo N [] cs

/-- Calls for the examples: three puts on a queue of length two, then gets
across the wrap-around of the indices, a reset, and a get. -/
def exampleCalls : List (Call Nat) :=
  [Call.IRQput exampleWorld 1 none, Call.IRQget exampleWorld none,
   Call.IRQput exampleWorld 2 none, Call.IRQput exampleWorld 3 none,
   Call.IRQput exampleWorld 4 none, Call.IRQget exampleWorld none,
   Call.IRQget exampleWorld none, Call.IRQget exampleWorld none,
   Call.IRQput exampleWorld 5 none, Call.IRQreset true exampleWorld,
   Call.IRQget exampleWorld none]

end QueueBase

namespace BufferQueue

/-- A call of a member function of the queue. -/
inductive BufferCall where
  | tryGetWritableBuffer
  | bufferFilled (actualSize : Nat)
  | tryGetReadableBuffer
  | bufferEmptied
  | reset
  deriving DecidableEq, Repr

/-- A sequence of calls: the buffers returned by the successful calls of
`tryGetWritableBuffer`, in call order; `none` when `errorHandler` is called. -/
def writerBuffers : BufferQueue → List BufferCall → Option (List Nat)
  | _, [] => some []
  | q, BufferCall.tryGetWritableBuffer :: cs =>
    let r := tryGetWritableBuffer q 0
    (writerBuffers r.2.2 cs).map fun bs => if r.1 then r.2.1 :: bs else bs
  | q, BufferCall.bufferFilled s :: cs =>
    match bufferFilled q s with
    | Except.ok q1 => writerBuffers q1 cs
    | Except.error _ => none
  | q, BufferCall.tryGetReadableBuffer :: cs =>
    writerBuffers (tryGetReadableBuffer q 0 0).2.2.2 cs
  | q, BufferCall.bufferEmptied :: cs =>
    match bufferEmptied q with
    | Except.ok q1 => writerBuffers q1 cs
    | Except.error _ => none
  | q, BufferCall.reset :: cs => writerBuffers (reset q) cs

end BufferQueue

namespace QueueBase

variable {T : Type}

/-- The queue after a sequence of calls made on it by other threads and by
interrupt handlers. -/
def after [Inhabited T] (q : QueueBase T) : List (Call T) → QueueBase T
  | [] => q
  | Call.IRQput w e hppw :: cs => after (IRQput w q e hppw).queue cs
  | Call.IRQget w hppw :: cs => after (IRQget w q default hppw).queue cs
  | Call.IRQreset trivial w :: cs => after (IRQreset trivial w q).2 cs

/-- Outcome of a blocking `put` or `get` that has returned: the value of `elem`,
the state on return (the trace being that of the calls made by the blocking
call itself), and how many times the body of its loop has run. -/
structure BlockingResult (T : Type) where
  elem : T
  world : World
  queue : QueueBase T
  turns : Nat
  deriving DecidableEq, Repr

/-- The loop `while(attempt==false) { waiting=Thread::IRQgetCurrentThread();
Thread::IRQenableIrqAndWait(dLock); }` shared by `put`, `IRQputBlocking`, `get`
and `IRQgetBlocking`. Interrupts are disabled except inside
`IRQenableIrqAndWait`: `waits` lists, for each suspension in turn, the calls
made on the queue by others until the caller runs again. `none` when the caller
is suspended and the list is exhausted. -/
def blockingLoop [Inhabited T] (attempt : World → QueueBase T → T → AttemptResult T) :
    World → QueueBase T → T → List (List (Call T)) → Option (BlockingResult T)
  | w, q, elem, waits =>
    let a := attempt w q elem
    if a.done then some { elem := a.elem, world := a.world, queue := a.queue, turns := 0 }
    else
      match waits with
      | [] => none
      | cs :: rest =>
        (blockingLoop attempt a.world (after a.queue cs) a.elem rest).map
          fun r => { r with turns := r.turns + 1 }

/-- The `get(T& elem)` member function: a `FastInterruptDisableLock`, then the
loop on `IRQget(elem)`. -/
def get [Inhabited T] (w : World) (q : QueueBase T) (elem : T)
    (waits : List (List (Call T))) : Option (BlockingResult T) :=
  blockingLoop getAttempt w q elem waits

/-- The `IRQgetBlocking(T& elem, FastInterruptDisableLock& dLock)` member
function: the same loop, under the lock of the caller. -/
def IRQgetBlocking [Inhabited T] (w : World) (q : QueueBase T) (elem : T)
    (waits : List (List (Call T))) : Option (BlockingResult T) :=
  blockingLoop getAttempt w q elem waits

/-- The `put(const T& elem)` member function: a `FastInterruptDisableLock`, then
the loop on `IRQput(elem)`. -/
def put [Inhabited T] (w : World) (q : QueueBase T) (elem : T)
    (waits : List (List (Call T))) : Option (BlockingResult T) :=
  blockingLoop putAttempt w q elem waits

/-- The `IRQputBlocking(const T& elem, FastInterruptDisableLock& dLock)` member
function: the same loop, under the lock of the caller. -/
def IRQputBlocking [Inhabited T] (w : World) (q : QueueBase T) (elem : T)
    (waits : List (List (Call T))) : Option (BlockingResult T) :=
  blockingLoop putAttempt w q elem waits

/-- The number of calls of `IRQenableIrqAndWait` by thread `t` in a trace. -/
def suspensions (t : Thread) (tr : List Event) : Nat :=
  tr.count (Event.enableIrqAndWait t)

end QueueBase

/-- The world of thread B with nothing called yet, for the examples. -/
def worldB : World := ⟨threadB, []⟩

/-- The suspension of the blocking example: an interrupt handler puts 42. -/
def exampleWaits : List (List (QueueBase.Call Nat)) :=
  [[QueueBase.Call.IRQput exampleWorld 42 none]]

/-! ## `ProcessPool` (`miosix/kernel/process_pool.cpp`) -/

/-- The constant `blockBits`: the size of the minimum allocatable block, in
bits. -/
def blockBits : Nat := 10

/-- The constant `blockSize`: `1<<blockBits`. -/
def blockSize : Nat := 1 <<< blockBits

/-- The exceptions thrown by the pool. -/
inductive PoolError where
  | bad_alloc
  | runtime_error
  deriving DecidableEq, Repr

/-- The data members of `ProcessPool`. `poolBase` is the address held by the
pointer of that name. `bitmap` is the memory the pointer `bitmap` designates,
given by the indices of the bits that are set; the array allocated by the
constructor has `bitmapBits poolSize` bits, a larger index designates memory
past its end. `allocatedBlocks` is the map from addresses to sizes. -/
structure ProcessPool where
  poolBase : Nat
  poolSize : Nat
  bitmap : List Nat
  allocatedBlocks : List (Nat × Nat)
  deriving DecidableEq, Repr

namespace ProcessPool

/-- The local `int numBytes=poolSize/blockSize/8;` of the constructor. -/
def numBytes (poolSize : Nat) : Nat := poolSize / blockSize / 8

/-- The number of bits of the array made by
`bitmap=new unsigned int[numBytes/sizeof(unsigned int)];`, an `unsigned int`
holding 4 bytes of 8 bits. -/
def bitmapBits (poolSize : Nat) : Nat := numBytes poolSize / 4 * 32

/-- The constructor `ProcessPool(unsigned int *poolBase, unsigned int poolSize)`.
The argument `memory` gives the bits that are set, before the constructor runs,
in the memory from the address of the new array on; `memset(bitmap,0,numBytes)`
clears the first `numBytes` bytes of it, that is the bits of index below
`8*numBytes`, and leaves the others as they are. -/
def new (poolBase poolSize : Nat) (memory : List Nat) : ProcessPool :=
  { poolBase := poolBase, poolSize := poolSize,
    bitmap := memory.filter (fun b => decide (8 * numBytes poolSize ≤ b)),
    allocatedBlocks := [] }

/-- Modelled from the spec: `testBit` is declared in `process_pool.h`, which is
not part of the sources at hand; it tells whether the bit of that index of
`bitmap` is set. -/
def testBit (pool : ProcessPool) (bit : Nat) : Bool := decide (bit ∈ pool.bitmap)

/-- Modelled from the spec: `setBit` is declared in `process_pool.h`, which is
not part of the sources at hand; it sets the bit of that index of `bitmap`. -/
def setBit (pool : ProcessPool) (bit : Nat) : ProcessPool :=
  { pool with bitmap := if bit ∈ pool.bitmap then pool.bitmap else bit :: pool.bitmap }

/-- The loop `for(unsigned int j=0;j<sizeBit;j++) { if(testBit(i+j)==0)
continue; notEmpty=true; break; }` from `j` on, `left` being `sizeBit-j`: the
value of `notEmpty` and the indices passed to `testBit`, in order. -/
def scan (pool : ProcessPool) (i : Nat) : Nat → Nat → Bool × List Nat
  | _, 0 => (false, [])
  | j, left + 1 =>
    if pool.testBit ((i + j) % UINT_MOD) then (true, [(i + j) % UINT_MOD])
    else ((scan pool i (j + 1) left).1, (i + j) % UINT_MOD :: (scan pool i (j + 1) left).2)

/-- The loop `for(unsigned int j=0;j<sizeBit;j++) setBit(i+j);` from `j` on,
`left` being `sizeBit-j`. -/
def mark (i : Nat) : Nat → Nat → ProcessPool → ProcessPool
  | _, 0, pool => pool
  | j, left + 1, pool => mark i (j + 1) left (pool.setBit ((i + j) % UINT_MOD))

/-- Outcome of the search of `allocate`: the index `i` of the first block of the
free run found, if any, and the indices passed to `testBit`, in order. -/
structure Search where
  found : Option Nat
  tested : List Nat
  deriving DecidableEq, Repr

/-- The loop `for(unsigned int i=startBit;i<=poolSize/blockSize;i+=sizeBit)` of
`allocate` from `i` on, up to the point where a free run is found or the loop is
left, with at most `fuel` turns; `none` when the fuel runs out. -/
def search (pool : ProcessPool) (sizeBit : Nat) : Nat → Nat → Option Search
  | 0, _ => none
  | fuel + 1, i =>
    if i ≤ pool.poolSize / blockSize then
      if (scan pool i 0 sizeBit).1 then
        (search pool sizeBit fuel ((i + sizeBit) % UINT_MOD)).map fun s =>
          { s with tested := (scan pool i 0 sizeBit).2 ++ s.tested }
      else some { found := some i, tested := (scan pool i 0 sizeBit).2 }
    else some { found := none, tested := [] }

/-- Outcome of `allocate`: the indices passed to `testBit`, and either the
exception thrown or the pool after the call with the pair returned, the address
of the block and its size. -/
structure Allocation where
  tested : List Nat
  outcome : Except PoolError (ProcessPool × Nat × Nat)

/-- The `allocate(unsigned int size)` member function, in the kernel build
(`TEST_ALLOC` not defined). `roundSizeForMPU` is
`MPUConfiguration::roundSizeForMPU`, declared in a header that is not part of
the sources at hand. The search is given `poolSize/blockSize+2` turns, which it
never exhausts (`search_total`). -/
def allocate (roundSizeForMPU : Nat → Nat) (pool : ProcessPool) (size : Nat) :
    Option Allocation :=
  let size := roundSizeForMPU (max size blockSize)
  if size > pool.poolSize then some { tested := [], outcome := Except.error PoolError.bad_alloc }
  else
    let offset :=
      if (pool.poolBase % UINT_MOD) % size ≠ 0 then usub size ((pool.poolBase % UINT_MOD) % size)
      else 0
    let startBit := offset / blockSize
    let sizeBit := size / blockSize
    (search pool sizeBit (pool.poolSize / blockSize + 2) startBit).map fun s =>
      match s.found with
      | some i =>
        let pool1 := mark i 0 sizeBit pool
        let result := pool.poolBase + 4 * (((i * blockSize) % UINT_MOD) / 4)
        let pool2 := { pool1 with
          allocatedBlocks :=
            (result, size) :: pool1.allocatedBlocks.filter (fun e => decide (e.1 ≠ result)) }
        { tested := s.tested, outcome := Except.ok (pool2, result, size) }
      | none => { tested := s.tested, outcome := Except.error PoolError.bad_alloc }

/-- The address and size returned by an allocation, if it returned. -/
def Allocation.block (a : Allocation) : Option (Nat × Nat) :=
  match a.outcome with
  | Except.ok r => some r.2
  | Except.error _ => none

/-- The pool after an allocation that returned; the pool itself otherwise. -/
def Allocation.poolAfter (a : Allocation) (pool : ProcessPool) : ProcessPool :=
  match a.outcome with
  | Except.ok r => r.1
  | Except.error _ => pool

/-- The pool of the test build in `ProcessPool::instance`: 96 KB at
0x20008000, the memory past the bitmap holding zeros. -/
def examplePool : ProcessPool := new 0x20008000 (96 * 1024) []

/-- The pool `examplePool` after a first `allocate(65536)`, which takes the
blocks 32 to 95. -/
def examplePoolUsed : ProcessPool :=
  match allocate id examplePool 65536 with
  | some a => a.poolAfter examplePool
  | none => examplePool

end ProcessPool

/-! # Theorems -/

namespace QueueBase

variable {T : Type}

theorem uinc_of_lt {x : Nat} (h : x + 1 < UINT_MOD) : uinc x = x + 1 := by
  unfold uinc; exact Nat.mod_eq_of_lt h

theorem udec_of_pos {x : Nat} (h0 : 0 < x) (h : x < UINT_MOD) : udec x = x - 1 := by
  unfold udec
  have e : x + UINT_MOD - 1 = (x - 1) + UINT_MOD := by omega
  rw [e, Nat.add_mod_right]
  exact Nat.mod_eq_of_lt (by omega)

theorem usub_of_le {x y : Nat} (hy : y ≤ x) (hx : x < UINT_MOD) : usub x y = x - y := by
  unfold usub
  have hy2 : y % UINT_MOD = y := Nat.mod_eq_of_lt (by omega)
  rw [hy2]
  have e : x + UINT_MOD - y = (x - y) + UINT_MOD := by omega
  rw [e, Nat.add_mod_right]
  exact Nat.mod_eq_of_lt (by omega)

theorem wrap_eq_mod {p len : Nat} (h : p < len) :
    (if (p + 1 == len) = true then 0 else p + 1) = (p + 1) % len := by
  by_cases e : p + 1 = len
  · subst e; simp
  · have : p + 1 < len := by omega
    simp [e, Nat.mod_eq_of_lt this]

theorem mod_succ_mod (a len : Nat) : (a % len + 1) % len = (a + 1) % len := by
  rw [Nat.add_mod, Nat.mod_mod, ← Nat.add_mod]

theorem mod_ne_of_lt {g i n len : Nat} (hi : i < n) (hn2 : n - i < len) :
    (g + i) % len ≠ (g + n) % len := by
  intro h
  have h1 : (g + n) % len = ((g + i) + (n - i)) % len := by congr 1; omega
  rw [h1] at h
  have h2 : Nat.ModEq len ((g + i) + 0) ((g + i) + (n - i)) := by simpa [Nat.ModEq] using h
  have h3 : Nat.ModEq len 0 (n - i) := Nat.ModEq.add_left_cancel' _ h2
  have h4 : (n - i) % len = 0 := by
    have := h3.symm
    simpa [Nat.ModEq] using this
  rw [Nat.mod_eq_of_lt hn2] at h4
  omega

theorem wake_queue (w : World) (q : QueueBase T) :
    (IRQwakeWaitingThread w q).2 = { q with waiting := none } := by
  unfold IRQwakeWaitingThread
  cases h : q.waiting with
  | none => cases q; simp_all
  | some t => rfl

theorem wake_world (w : World) (q : QueueBase T) :
    (IRQwakeWaitingThread w q).1 =
      { w with trace := w.trace ++ (q.waiting.toList.map Event.wakeup) } := by
  unfold IRQwakeWaitingThread
  cases h : q.waiting with
  | none => cases w; simp
  | some t => simp [Thread.IRQwakeup]

theorem IRQput_full (w : World) (q : QueueBase T) (elem : T) (hppw : Option Bool)
    (h : q.isFull = true) :
    IRQput w q elem hppw =
      { ret := false, hppw := hppwUpdate w q hppw, world := (IRQwakeWaitingThread w q).1,
        queue := { q with waiting := none } } := by
  have hq := wake_queue w q
  unfold IRQput
  rcases hw : IRQwakeWaitingThread w q with ⟨w1, q1⟩
  rw [hw] at hq
  simp only at hq
  subst hq
  simp only [isFull] at h ⊢
  simp [h]

theorem IRQput_not_full (w : World) (q : QueueBase T) (elem : T) (hppw : Option Bool)
    (h : q.isFull = false) :
    IRQput w q elem hppw =
      { ret := true, hppw := hppwUpdate w q hppw, world := (IRQwakeWaitingThread w q).1,
        queue := { buffer := q.buffer.set q.putPos elem, waiting := none,
                   numElem := uinc q.numElem,
                   putPos := if uinc q.putPos == q.buffer.length then 0 else uinc q.putPos,
                   getPos := q.getPos } } := by
  have hq := wake_queue w q
  unfold IRQput
  rcases hw : IRQwakeWaitingThread w q with ⟨w1, q1⟩
  rw [hw] at hq
  simp only at hq
  subst hq
  simp only [isFull] at h ⊢
  simp [h]

theorem IRQget_empty [Inhabited T] (w : World) (q : QueueBase T) (elem : T)
    (hppw : Option Bool) (h : q.isEmpty = true) :
    IRQget w q elem hppw =
      { ret := false, elem := elem, hppw := hppwUpdate w q hppw,
        world := (IRQwakeWaitingThread w q).1, queue := { q with waiting := none } } := by
  have hq := wake_queue w q
  unfold IRQget
  rcases hw : IRQwakeWaitingThread w q with ⟨w1, q1⟩
  rw [hw] at hq
  simp only at hq
  subst hq
  simp only [isEmpty] at h ⊢
  simp [h]

theorem IRQget_not_empty [Inhabited T] (w : World) (q : QueueBase T) (elem : T)
    (hppw : Option Bool) (h : q.isEmpty = false) :
    IRQget w q elem hppw =
      { ret := true, elem := q.buffer.getD q.getPos default, hppw := hppwUpdate w q hppw,
        world := (IRQwakeWaitingThread w q).1,
        queue := { buffer := q.buffer, waiting := none, numElem := udec q.numElem,
                   putPos := q.putPos,
                   getPos := if uinc q.getPos == q.buffer.length then 0 else uinc q.getPos } } := by
  have hq := wake_queue w q
  unfold IRQget
  rcases hw : IRQwakeWaitingThread w q with ⟨w1, q1⟩
  rw [hw] at hq
  simp only at hq
  subst hq
  simp only [isEmpty] at h ⊢
  simp [h]

theorem WF_new (storage : List T) (h : storage.length < UINT_MOD) : WF (new storage) := by
  refine ⟨h, Nat.zero_le _, ?_, ?_⟩
  · show 0 < storage.length ∨ (storage.length = 0 ∧ 0 = 0)
    omega
  · simp [new]

theorem WF_put_queue {q : QueueBase T} (h : WF q) (hf : q.isFull = false) (elem : T) :
    ({ buffer := q.buffer.set q.putPos elem, waiting := none, numElem := q.numElem + 1,
       putPos := (q.getPos + (q.numElem + 1)) % q.buffer.length,
       getPos := q.getPos } : QueueBase T) =
    { buffer := q.buffer.set q.putPos elem, waiting := none,
      numElem := uinc q.numElem,
      putPos := if uinc q.putPos == q.buffer.length then 0 else uinc q.putPos,
      getPos := q.getPos } := by
  obtain ⟨h1, h2, h3, h4⟩ := h
  simp only [isFull, beq_eq_false_iff_ne, ne_eq] at hf
  have hlt : q.numElem < q.buffer.length := lt_of_le_of_ne h2 hf
  have hp : q.putPos < q.buffer.length := by rw [h4]; exact Nat.mod_lt _ (by omega)
  rw [uinc_of_lt (by omega), uinc_of_lt (by omega), wrap_eq_mod hp, h4, mod_succ_mod]
  rfl

theorem WF_put {q : QueueBase T} (h : WF q) (hf : q.isFull = false) (w : World) (elem : T)
    (hppw : Option Bool) : WF (IRQput w q elem hppw).queue := by
  rw [IRQput_not_full w q elem hppw hf]
  simp only
  rw [← WF_put_queue h hf]
  obtain ⟨h1, h2, h3, h4⟩ := h
  simp only [isFull, beq_eq_false_iff_ne, ne_eq] at hf
  have hlt : q.numElem < q.buffer.length := lt_of_le_of_ne h2 hf
  refine ⟨by simpa using h1, by simpa using hlt, ?_, by simp⟩
  simp only [List.length_set]
  rcases h3 with h3 | h3
  · exact Or.inl h3
  · omega

theorem WF_get_queue [Inhabited T] {q : QueueBase T} (h : WF q) (he : q.isEmpty = false) :
    ({ buffer := q.buffer, waiting := none, numElem := q.numElem - 1,
       putPos := q.putPos, getPos := (q.getPos + 1) % q.buffer.length } : QueueBase T) =
    { buffer := q.buffer, waiting := none, numElem := udec q.numElem,
      putPos := q.putPos,
      getPos := if uinc q.getPos == q.buffer.length then 0 else uinc q.getPos } := by
  obtain ⟨h1, h2, h3, h4⟩ := h
  simp only [isEmpty, beq_eq_false_iff_ne, ne_eq] at he
  have hg : q.getPos < q.buffer.length := by omega
  rw [udec_of_pos (by omega) (by omega), uinc_of_lt (by omega), wrap_eq_mod hg]

theorem WF_get [Inhabited T] {q : QueueBase T} (h : WF q) (he : q.isEmpty = false) (w : World)
    (elem : T) (hppw : Option Bool) : WF (IRQget w q elem hppw).queue := by
  rw [IRQget_not_empty w q elem hppw he]
  simp only
  rw [← WF_get_queue h he]
  obtain ⟨h1, h2, h3, h4⟩ := h
  simp only [isEmpty, beq_eq_false_iff_ne, ne_eq] at he
  have hpos : 0 < q.buffer.length := by omega
  refine ⟨h1, ?_, Or.inl (Nat.mod_lt _ hpos), ?_⟩
  · show q.numElem - 1 ≤ q.buffer.length
    omega
  · show q.putPos = ((q.getPos + 1) % q.buffer.length + (q.numElem - 1)) % q.buffer.length
    rw [h4, Nat.mod_add_mod]
    congr 1; omega

theorem WF_reset {q : QueueBase T} (h : WF q) (trivial : Bool) (w : World) :
    WF (IRQreset trivial w q).2 := by
  have hq := wake_queue w q
  unfold IRQreset
  rcases hw : IRQwakeWaitingThread w q with ⟨w1, q1⟩
  rw [hw] at hq
  simp only at hq
  subst hq
  obtain ⟨h1, h2, h3, h4⟩ := h
  refine ⟨h1, Nat.zero_le _, ?_, ?_⟩
  · show 0 < q.buffer.length ∨ (q.buffer.length = 0 ∧ 0 = 0)
    omega
  · show 0 = (0 + 0) % q.buffer.length
    simp

theorem WF_step_put {q : QueueBase T} (h : WF q) (w : World) (elem : T) (hppw : Option Bool) :
    WF (IRQput w q elem hppw).queue := by
  cases hf : q.isFull with
  | false => exact WF_put h hf w elem hppw
  | true => rw [IRQput_full w q elem hppw hf]; exact h

theorem WF_step_get [Inhabited T] {q : QueueBase T} (h : WF q) (w : World) (elem : T)
    (hppw : Option Bool) : WF (IRQget w q elem hppw).queue := by
  cases he : q.isEmpty with
  | false => exact WF_get h he w elem hppw
  | true => rw [IRQget_empty w q elem hppw he]; exact h

theorem buffer_length_put (w : World) (q : QueueBase T) (elem : T) (hppw : Option Bool) :
    (IRQput w q elem hppw).queue.buffer.length = q.buffer.length := by
  cases hf : q.isFull with
  | false => rw [IRQput_not_full w q elem hppw hf]; simp
  | true => rw [IRQput_full w q elem hppw hf]

theorem buffer_length_get [Inhabited T] (w : World) (q : QueueBase T) (elem : T)
    (hppw : Option Bool) : (IRQget w q elem hppw).queue.buffer.length = q.buffer.length := by
  cases he : q.isEmpty with
  | false => rw [IRQget_not_empty w q elem hppw he]
  | true => rw [IRQget_empty w q elem hppw he]

theorem buffer_reset (trivial : Bool) (w : World) (q : QueueBase T) :
    (IRQreset trivial w q).2.buffer = q.buffer := by
  have hq := wake_queue w q
  unfold IRQreset
  rcases hw : IRQwakeWaitingThread w q with ⟨w1, q1⟩
  rw [hw] at hq
  simp only at hq
  subst hq
  rfl

theorem Reachable.length_eq [Inhabited T] {storage : List T} {q : QueueBase T}
    (h : Reachable storage q) : q.buffer.length = storage.length := by
  induction h with
  | fresh => rfl
  | put w q elem hppw _ ih => rw [buffer_length_put, ih]
  | get w q elem hppw _ ih => rw [buffer_length_get, ih]
  | reset trivial w q _ ih => rw [buffer_reset, ih]
  | register w q _ ih => exact ih

theorem Reachable.wf [Inhabited T] {storage : List T} (hs : storage.length < UINT_MOD)
    {q : QueueBase T} (h : Reachable storage q) : WF q := by
  induction h with
  | fresh => exact WF_new storage hs
  | put w q elem hppw _ ih => exact WF_step_put ih w elem hppw
  | get w q elem hppw _ ih => exact WF_step_get ih w elem hppw
  | reset trivial w q _ ih => exact WF_reset ih trivial w
  | register w q _ ih => exact ih

theorem contents_put [Inhabited T] {q : QueueBase T} (h : WF q) (hf : q.isFull = false)
    (w : World) (elem : T) (hppw : Option Bool) :
    (IRQput w q elem hppw).queue.contents = q.contents ++ [elem] := by
  rw [IRQput_not_full w q elem hppw hf]
  simp only
  rw [← WF_put_queue h hf]
  obtain ⟨h1, h2, h3, h4⟩ := h
  simp only [isFull, beq_eq_false_iff_ne, ne_eq] at hf
  have hlt : q.numElem < q.buffer.length := lt_of_le_of_ne h2 hf
  have hp : q.putPos < q.buffer.length := by rw [h4]; exact Nat.mod_lt _ (by omega)
  simp only [contents, List.length_set, List.range_succ, List.map_append, List.map_cons,
    List.map_nil]
  congr 1
  · apply List.map_congr_left
    intro i hi
    rw [List.mem_range] at hi
    have hne : q.putPos ≠ (q.getPos + i) % q.buffer.length := by
      rw [h4]; exact (mod_ne_of_lt hi (by omega)).symm
    simp [List.getD_eq_getElem?_getD, List.getElem?_set_ne hne]
  · rw [← h4]
    simp [List.getD_eq_getElem?_getD, List.getElem?_set_self, hp]

theorem contents_get [Inhabited T] {q : QueueBase T} (h : WF q) (he : q.isEmpty = false)
    (w : World) (elem : T) (hppw : Option Bool) :
    q.contents = (IRQget w q elem hppw).elem :: (IRQget w q elem hppw).queue.contents := by
  rw [IRQget_not_empty w q elem hppw he]
  simp only
  rw [← WF_get_queue h he]
  obtain ⟨h1, h2, h3, h4⟩ := h
  simp only [isEmpty, beq_eq_false_iff_ne, ne_eq] at he
  have hg : q.getPos < q.buffer.length := by omega
  obtain ⟨m, hm⟩ : ∃ m, q.numElem = m + 1 := ⟨q.numElem - 1, by omega⟩
  simp only [contents, hm, List.range_succ_eq_map, List.map_cons, List.map_map,
    Nat.add_zero, Nat.mod_eq_of_lt hg, Nat.add_sub_cancel]
  congr 1
  apply List.map_congr_left
  intro i _
  simp only [Function.comp_apply, Nat.mod_add_mod]
  congr 2
  omega

theorem contents_empty [Inhabited T] {q : QueueBase T} (he : q.isEmpty = true) :
    q.contents = [] := by
  simp only [isEmpty, beq_iff_eq] at he
  simp [contents, he]

theorem contents_length [Inhabited T] (q : QueueBase T) : q.contents.length = q.numElem := by
  simp [contents]

end QueueBase

namespace QueueBase

variable {T : Type}

theorem isFull_false_of_lt {q : QueueBase T} (h : q.numElem < q.buffer.length) :
    q.isFull = false := by
  simp only [isFull, beq_eq_false_iff_ne, ne_eq]; omega

theorem isEmpty_false_of_pos {q : QueueBase T} (h : 0 < q.numElem) : q.isEmpty = false := by
  simp only [isEmpty, beq_eq_false_iff_ne, ne_eq]; omega

theorem putAll_spec [Inhabited T] (es : List T) :
    ∀ (w : World) (q : QueueBase T), WF q → q.numElem + es.length ≤ q.buffer.length →
      (putAll w q es).1 = List.replicate es.length true ∧
      WF (putAll w q es).2.2 ∧
      (putAll w q es).2.2.contents = q.contents ++ es := by
  induction es with
  | nil => intro w q h _; simp [putAll, h]
  | cons e es ih =>
    intro w q h hle
    simp only [List.length_cons] at hle
    have hf : q.isFull = false := isFull_false_of_lt (by omega)
    have hr : (IRQput_elem w q e).ret = true := by
      simp [IRQput_elem, IRQput_not_full w q e none hf]
    have hwf : WF (IRQput_elem w q e).queue := WF_put h hf w e none
    have hc : (IRQput_elem w q e).queue.contents = q.contents ++ [e] :=
      contents_put h hf w e none
    have hlen : (IRQput_elem w q e).queue.buffer.length = q.buffer.length :=
      buffer_length_put w q e none
    have hnum : (IRQput_elem w q e).queue.numElem = q.numElem + 1 := by
      have := congrArg List.length hc
      simpa [contents_length] using this
    obtain ⟨i1, i2, i3⟩ := ih (IRQput_elem w q e).world (IRQput_elem w q e).queue hwf
      (by rw [hnum, hlen]; omega)
    refine ⟨?_, i2, ?_⟩
    · simp only [putAll, i1, hr, List.length_cons, List.replicate_succ]
    · simp only [putAll, i3, hc, List.append_assoc, List.singleton_append]

theorem getN_spec [Inhabited T] (n : Nat) :
    ∀ (w : World) (q : QueueBase T) (elem : T), WF q → n ≤ q.numElem →
      (getN w q elem n).1 = (q.contents.take n).map (fun e => (true, e)) := by
  induction n with
  | zero => intro w q elem _ _; simp [getN]
  | succ n ih =>
    intro w q elem h hle
    have he : q.isEmpty = false := isEmpty_false_of_pos (by omega)
    have hr : (IRQget_elem w q elem).ret = true := by
      simp [IRQget_elem, IRQget_not_empty w q elem none he]
    have hwf : WF (IRQget_elem w q elem).queue := WF_get h he w elem none
    have hc : q.contents = (IRQget_elem w q elem).elem :: (IRQget_elem w q elem).queue.contents :=
      contents_get h he w elem none
    have hnum : q.numElem = (IRQget_elem w q elem).queue.numElem + 1 := by
      have := congrArg List.length hc
      simpa [contents_length] using this
    have i1 := ih (IRQget_elem w q elem).world (IRQget_elem w q elem).queue
      (IRQget_elem w q elem).elem hwf (by omega)
    simp only [getN, i1, hr]
    rw [hc]
    simp

/-- C1 (queue FIFO). On a freshly constructed queue of length `N` below `2^32`
(whatever its storage holds), `n ≤ N` calls `IRQput(e1)`, ..., `IRQput(en)` all
return true, and the `n` calls of `IRQget` that follow all return true and
deliver `e1`, ..., `en` in that order. -/
theorem queue_fifo [Inhabited T] (storage es : List T) (w : World) (elem : T)
    (hN : storage.length < UINT_MOD) (hn : es.length ≤ storage.length) :
    (putAll w (new storage) es).1 = List.replicate es.length true ∧
    (getN (putAll w (new storage) es).2.1 (putAll w (new storage) es).2.2 elem es.length).1
      = es.map (fun e => (true, e)) := by
  obtain ⟨h1, h2, h3⟩ := putAll_spec es w (new storage) (WF_new storage hN)
    (by simpa [new] using hn)
  have hc0 : (new storage).contents = [] := contents_empty rfl
  rw [hc0, List.nil_append] at h3
  have hnum : (putAll w (new storage) es).2.2.numElem = es.length := by
    rw [← contents_length, h3]
  refine ⟨h1, ?_⟩
  rw [getN_spec es.length _ _ elem h2 (by omega), h3, List.take_length]

/-- Witness of `queue_fifo`: three elements through a queue of length three. -/
theorem queue_fifo_witness :
    (putAll exampleWorld (new [0, 0, 0]) [7, 8, 9]).1 = [true, true, true] ∧
    (getN (putAll exampleWorld (new [0, 0, 0]) [7, 8, 9]).2.1
        (putAll exampleWorld (new [0, 0, 0]) [7, 8, 9]).2.2 (0 : Nat) 3).1
      = [(true, 7), (true, 8), (true, 9)] :=
  queue_fifo [0, 0, 0] [7, 8, 9] exampleWorld 0 (by decide) (by decide)

end QueueBase

namespace QueueBase

variable {T : Type}

/-- C2 (queue occupancy invariant). In every state reachable from a freshly
constructed queue (of length below `2^32`) by `IRQput`, `IRQget`, `IRQreset`
calls and waiter registrations, `0 ≤ numElem ≤ capacity()`,
`size() + free() == capacity()`, `isEmpty()` holds iff `size()==0` and
`isFull()` holds iff `size()==capacity()`. -/
theorem queue_occupancy [Inhabited T] (storage : List T) (hN : storage.length < UINT_MOD)
    (q : QueueBase T) (h : Reachable storage q) :
    0 ≤ q.numElem ∧ q.numElem ≤ q.capacity ∧ q.size + q.free = q.capacity ∧
    (q.isEmpty = true ↔ q.size = 0) ∧ (q.isFull = true ↔ q.size = q.capacity) := by
  obtain ⟨h1, h2, _, _⟩ := h.wf hN
  refine ⟨Nat.zero_le _, h2, ?_, ?_, ?_⟩
  · simp only [size, free, capacity, usub_of_le h2 h1]
    omega
  · simp [isEmpty, size]
  · simp [isFull, size, capacity]

/-- Witness of `queue_occupancy`: the state after one `IRQput` on a fresh queue
of length two. -/
theorem queue_occupancy_witness :
    0 ≤ exampleQueue.numElem ∧
    exampleQueue.numElem ≤
      exampleQueue.capacity ∧
    exampleQueue.size +
      exampleQueue.free =
      exampleQueue.capacity ∧
    (exampleQueue.isEmpty = true ↔
      exampleQueue.size = 0) ∧
    (exampleQueue.isFull = true ↔
      exampleQueue.size =
        exampleQueue.capacity) :=
  queue_occupancy [0, 0] (by decide) exampleQueue
    (Reachable.put exampleWorld (new [0, 0]) (5 : Nat) none Reachable.fresh)

/-- C3 (`IRQput` contract). On a reachable queue, `IRQput` (any overload)
returns true iff the queue was not full before the call; when it returns true
`size()` has grown by one and `elem` is queued behind the elements already
there; when it returns false `size()`, `getPos`, `putPos` and the buffer are
unchanged. -/
theorem IRQput_contract [Inhabited T] (storage : List T) (hN : storage.length < UINT_MOD)
    (q : QueueBase T) (h : Reachable storage q) (w : World) (elem : T) (hppw : Option Bool) :
    ((IRQput w q elem hppw).ret = true ↔ q.isFull = false) ∧
    ((IRQput w q elem hppw).ret = true →
      (IRQput w q elem hppw).queue.size = q.size + 1 ∧
      (IRQput w q elem hppw).queue.contents = q.contents ++ [elem]) ∧
    ((IRQput w q elem hppw).ret = false →
      (IRQput w q elem hppw).queue.size = q.size ∧
      (IRQput w q elem hppw).queue.getPos = q.getPos ∧
      (IRQput w q elem hppw).queue.putPos = q.putPos ∧
      (IRQput w q elem hppw).queue.buffer = q.buffer) := by
  have hwf := h.wf hN
  cases hf : q.isFull with
  | true =>
    rw [IRQput_full w q elem hppw hf]
    simp [size]
  | false =>
    have hc := contents_put hwf hf w elem hppw
    have hs : (IRQput w q elem hppw).queue.size = q.size + 1 := by
      have := congrArg List.length hc
      simpa [contents_length, size] using this
    refine ⟨?_, fun _ => ⟨hs, hc⟩, ?_⟩
    · simp [IRQput_not_full w q elem hppw hf]
    · simp [IRQput_not_full w q elem hppw hf]

/-- Witness of `IRQput_contract`: a fresh queue of length two. -/
theorem IRQput_contract_witness :
    ((IRQput exampleWorld (new [0, 0]) 5 none).ret = true ↔ (new [0, 0]).isFull = false) ∧
    ((IRQput exampleWorld (new [0, 0]) 5 none).ret = true →
      exampleQueue.size = (new [0, 0]).size + 1 ∧
      exampleQueue.contents =
        (new [0, 0]).contents ++ [5]) ∧
    ((IRQput exampleWorld (new [0, 0]) 5 none).ret = false →
      exampleQueue.size = (new [0, 0]).size ∧
      exampleQueue.getPos = (new [0, 0]).getPos ∧
      exampleQueue.putPos = (new [0, 0]).putPos ∧
      exampleQueue.buffer = (new [0, 0]).buffer) :=
  IRQput_contract [0, 0] (by decide) (new [0, 0]) Reachable.fresh exampleWorld (5 : Nat) none

/-- C4 (`IRQget` contract). On a reachable queue, `IRQget` (any overload)
returns true iff the queue was not empty before the call; when it returns true
`elem` is the oldest queued element, the elements that remain are the others in
the same order, and `size()` has shrunk by one; when it returns false `elem`
keeps its value and `size()`, `getPos` and `putPos` are unchanged. -/
theorem IRQget_contract [Inhabited T] (storage : List T) (hN : storage.length < UINT_MOD)
    (q : QueueBase T) (h : Reachable storage q) (w : World) (elem : T) (hppw : Option Bool) :
    ((IRQget w q elem hppw).ret = true ↔ q.isEmpty = false) ∧
    ((IRQget w q elem hppw).ret = true →
      q.contents = (IRQget w q elem hppw).elem :: (IRQget w q elem hppw).queue.contents ∧
      (IRQget w q elem hppw).queue.size + 1 = q.size) ∧
    ((IRQget w q elem hppw).ret = false →
      (IRQget w q elem hppw).elem = elem ∧
      (IRQget w q elem hppw).queue.size = q.size ∧
      (IRQget w q elem hppw).queue.getPos = q.getPos ∧
      (IRQget w q elem hppw).queue.putPos = q.putPos) := by
  have hwf := h.wf hN
  cases he : q.isEmpty with
  | true =>
    rw [IRQget_empty w q elem hppw he]
    simp [size]
  | false =>
    have hc := contents_get hwf he w elem hppw
    have hs : (IRQget w q elem hppw).queue.size + 1 = q.size := by
      have := congrArg List.length hc
      simpa [contents_length, size] using this.symm
    refine ⟨?_, fun _ => ⟨hc, hs⟩, ?_⟩
    · simp [IRQget_not_empty w q elem hppw he]
    · simp [IRQget_not_empty w q elem hppw he]

/-- Witness of `IRQget_contract`: a queue of length two holding one element. -/
theorem IRQget_contract_witness :
    ((IRQget exampleWorld exampleQueue 1 none).ret = true ↔
      exampleQueue.isEmpty = false) ∧
    ((IRQget exampleWorld exampleQueue 1 none).ret = true →
      exampleQueue.contents =
        (IRQget exampleWorld exampleQueue 1 none).elem ::
        (IRQget exampleWorld
          exampleQueue 1 none).queue.contents ∧
      (IRQget exampleWorld
          exampleQueue 1 none).queue.size + 1 =
        exampleQueue.size) ∧
    ((IRQget exampleWorld exampleQueue 1 none).ret = false →
      (IRQget exampleWorld exampleQueue 1 none).elem = 1 ∧
      (IRQget exampleWorld
          exampleQueue 1 none).queue.size =
        exampleQueue.size ∧
      (IRQget exampleWorld
          exampleQueue 1 none).queue.getPos =
        exampleQueue.getPos ∧
      (IRQget exampleWorld
          exampleQueue 1 none).queue.putPos =
        exampleQueue.putPos) :=
  IRQget_contract [0, 0] (by decide) exampleQueue
    (Reachable.put exampleWorld (new [0, 0]) (5 : Nat) none Reachable.fresh)
    exampleWorld 1 none

end QueueBase

namespace QueueBase

variable {T : Type}

theorem IRQput_world (w : World) (q : QueueBase T) (elem : T) (hppw : Option Bool) :
    (IRQput w q elem hppw).world = (IRQwakeWaitingThread w q).1 := by
  cases hf : q.isFull with
  | false => rw [IRQput_not_full w q elem hppw hf]
  | true => rw [IRQput_full w q elem hppw hf]

theorem IRQget_world [Inhabited T] (w : World) (q : QueueBase T) (elem : T)
    (hppw : Option Bool) : (IRQget w q elem hppw).world = (IRQwakeWaitingThread w q).1 := by
  cases he : q.isEmpty with
  | false => rw [IRQget_not_empty w q elem hppw he]
  | true => rw [IRQget_empty w q elem hppw he]

theorem IRQput_waiting (w : World) (q : QueueBase T) (elem : T) (hppw : Option Bool) :
    (IRQput w q elem hppw).queue.waiting = none := by
  cases hf : q.isFull with
  | false => rw [IRQput_not_full w q elem hppw hf]
  | true => rw [IRQput_full w q elem hppw hf]

theorem IRQget_waiting [Inhabited T] (w : World) (q : QueueBase T) (elem : T)
    (hppw : Option Bool) : (IRQget w q elem hppw).queue.waiting = none := by
  cases he : q.isEmpty with
  | false => rw [IRQget_not_empty w q elem hppw he]
  | true => rw [IRQget_empty w q elem hppw he]

theorem IRQput_clear_waiting (w w1 : World) (q : QueueBase T) (elem : T)
    (hppw : Option Bool) :
    (IRQput w1 { q with waiting := none } elem hppw).queue = (IRQput w q elem hppw).queue ∧
    (IRQput w1 { q with waiting := none } elem hppw).ret = (IRQput w q elem hppw).ret := by
  cases hf : q.isFull with
  | false =>
    have hf2 : ({ q with waiting := none } : QueueBase T).isFull = false := hf
    rw [IRQput_not_full w q elem hppw hf, IRQput_not_full w1 _ elem hppw hf2]
    simp
  | true =>
    have hf2 : ({ q with waiting := none } : QueueBase T).isFull = true := hf
    rw [IRQput_full w q elem hppw hf, IRQput_full w1 _ elem hppw hf2]
    simp

theorem IRQget_clear_waiting [Inhabited T] (w w1 : World) (q : QueueBase T) (elem : T)
    (hppw : Option Bool) :
    (IRQget w1 { q with waiting := none } elem hppw).queue = (IRQget w q elem hppw).queue ∧
    (IRQget w1 { q with waiting := none } elem hppw).ret = (IRQget w q elem hppw).ret ∧
    (IRQget w1 { q with waiting := none } elem hppw).elem = (IRQget w q elem hppw).elem := by
  cases he : q.isEmpty with
  | false =>
    have he2 : ({ q with waiting := none } : QueueBase T).isEmpty = false := he
    rw [IRQget_not_empty w q elem hppw he, IRQget_not_empty w1 _ elem hppw he2]
    simp
  | true =>
    have he2 : ({ q with waiting := none } : QueueBase T).isEmpty = true := he
    rw [IRQget_empty w q elem hppw he, IRQget_empty w1 _ elem hppw he2]
    simp

/-- C5 (wake-before-operate). For every queue state and every call of `IRQput`
or `IRQget`, whatever the call returns: the body executed statement by
statement, in the order of the source, ends as the call does; the calls made on
the kernel are exactly one `IRQwakeup()` on the registered waiter, or none when
no waiter is registered; `waiting` is null on return; the call does reach the
test of the buffer (`isFull()`, `isEmpty()`); and whenever a statement that
reads or writes the ring buffer starts, that one wakeup has already been made
and `waiting` is already null. -/
theorem wake_before_operate [Inhabited T] (w : World) (q : QueueBase T) (elem : T)
    (hppw : Option Bool) :
    ((execute IRQput_body (Frame.enter w q elem hppw)).ret =
        some (IRQput w q elem hppw).ret ∧
      (execute IRQput_body (Frame.enter w q elem hppw)).hppw = (IRQput w q elem hppw).hppw ∧
      (execute IRQput_body (Frame.enter w q elem hppw)).world = (IRQput w q elem hppw).world ∧
      (execute IRQput_body (Frame.enter w q elem hppw)).queue = (IRQput w q elem hppw).queue ∧
      (IRQput w q elem hppw).world.trace =
        w.trace ++ (match q.waiting with
                    | some t => [Event.wakeup t]
                    | none => []) ∧
      (IRQput w q elem hppw).queue.waiting = none ∧
      (∃ f, (Stmt.returnIfFull, f) ∈ executed IRQput_body (Frame.enter w q elem hppw)) ∧
      (∀ s f, (s, f) ∈ executed IRQput_body (Frame.enter w q elem hppw) →
        s.examinesBuffer = true →
        f.queue.waiting = none ∧
        f.world.trace = w.trace ++ (match q.waiting with
                                    | some t => [Event.wakeup t]
                                    | none => []))) ∧
    ((execute IRQget_body (Frame.enter w q elem hppw)).ret =
        some (IRQget w q elem hppw).ret ∧
      (execute IRQget_body (Frame.enter w q elem hppw)).elem = (IRQget w q elem hppw).elem ∧
      (execute IRQget_body (Frame.enter w q elem hppw)).hppw = (IRQget w q elem hppw).hppw ∧
      (execute IRQget_body (Frame.enter w q elem hppw)).world = (IRQget w q elem hppw).world ∧
      (execute IRQget_body (Frame.enter w q elem hppw)).queue = (IRQget w q elem hppw).queue ∧
      (IRQget w q elem hppw).world.trace =
        w.trace ++ (match q.waiting with
                    | some t => [Event.wakeup t]
                    | none => []) ∧
      (IRQget w q elem hppw).queue.waiting = none ∧
      (∃ f, (Stmt.returnIfEmpty, f) ∈ executed IRQget_body (Frame.enter w q elem hppw)) ∧
      (∀ s f, (s, f) ∈ executed IRQget_body (Frame.enter w q elem hppw) →
        s.examinesBuffer = true →
        f.queue.waiting = none ∧
        f.world.trace = w.trace ++ (match q.waiting with
                                    | some t => [Event.wakeup t]
                                    | none => []))) := by
  have ht : (IRQwakeWaitingThread w q).1.trace =
      w.trace ++ (match q.waiting with
                  | some t => [Event.wakeup t]
                  | none => []) := by
    rw [wake_world]
    cases q.waiting <;> simp
  have hq := wake_queue w q
  constructor
  · cases hf : q.isFull with
    | true =>
      have hf2 : ({ q with waiting := none } : QueueBase T).isFull = true := hf
      rw [IRQput_full w q elem hppw hf]
      refine ⟨?_, ?_, ?_, ?_, ht, rfl, ?_, ?_⟩
      · simp [execute, IRQput_body, Stmt.exec, Frame.enter, hq, hf2]
      · simp [execute, IRQput_body, Stmt.exec, Frame.enter, hq, hf2]
      · simp [execute, IRQput_body, Stmt.exec, Frame.enter, hq, hf2]
      · simp [execute, IRQput_body, Stmt.exec, Frame.enter, hq, hf2]
      · simp [executed, IRQput_body, Stmt.exec, Frame.enter, hq, hf2]
      · intro s f hm hs
        simp only [executed, IRQput_body, Stmt.exec, Frame.enter, hq, hf2, if_true,
          List.mem_cons, Prod.mk.injEq, List.mem_nil_iff, or_false] at hm
        rcases hm with ⟨rfl, rfl⟩ | ⟨rfl, rfl⟩ | ⟨rfl, rfl⟩
        · simp [Stmt.examinesBuffer] at hs
        · simp [Stmt.examinesBuffer] at hs
        · exact ⟨rfl, ht⟩
    | false =>
      have hf2 : ({ q with waiting := none } : QueueBase T).isFull = false := hf
      rw [IRQput_not_full w q elem hppw hf]
      refine ⟨?_, ?_, ?_, ?_, ht, rfl, ?_, ?_⟩
      · simp [execute, IRQput_body, Stmt.exec, Frame.enter, hq, hf2]
      · simp [execute, IRQput_body, Stmt.exec, Frame.enter, hq, hf2]
      · simp [execute, IRQput_body, Stmt.exec, Frame.enter, hq, hf2]
      · simp [execute, IRQput_body, Stmt.exec, Frame.enter, hq, hf2]
      · simp [executed, IRQput_body, Stmt.exec, Frame.enter, hq, hf2]
      · intro s f hm hs
        simp only [executed, IRQput_body, Stmt.exec, Frame.enter, hq, hf2,
          Bool.false_eq_true, if_false,
          List.mem_cons, Prod.mk.injEq, List.mem_nil_iff, or_false] at hm
        rcases hm with ⟨rfl, rfl⟩ | ⟨rfl, rfl⟩ | ⟨rfl, rfl⟩ | ⟨rfl, rfl⟩ | ⟨rfl, rfl⟩ |
          ⟨rfl, rfl⟩ | ⟨rfl, rfl⟩
        · simp [Stmt.examinesBuffer] at hs
        · simp [Stmt.examinesBuffer] at hs
        · exact ⟨rfl, ht⟩
        · exact ⟨rfl, ht⟩
        · exact ⟨rfl, ht⟩
        · exact ⟨rfl, ht⟩
        · simp [Stmt.examinesBuffer] at hs
  · cases hf : q.isEmpty with
    | true =>
      have hf2 : ({ q with waiting := none } : QueueBase T).isEmpty = true := hf
      rw [IRQget_empty w q elem hppw hf]
      refine ⟨?_, ?_, ?_, ?_, ?_, ht, rfl, ?_, ?_⟩
      · simp [execute, IRQget_body, Stmt.exec, Frame.enter, hq, hf2]
      · simp [execute, IRQget_body, Stmt.exec, Frame.enter, hq, hf2]
      · simp [execute, IRQget_body, Stmt.exec, Frame.enter, hq, hf2]
      · simp [execute, IRQget_body, Stmt.exec, Frame.enter, hq, hf2]
      · simp [execute, IRQget_body, Stmt.exec, Frame.enter, hq, hf2]
      · simp [executed, IRQget_body, Stmt.exec, Frame.enter, hq, hf2]
      · intro s f hm hs
        simp only [executed, IRQget_body, Stmt.exec, Frame.enter, hq, hf2, if_true,
          List.mem_cons, Prod.mk.injEq, List.mem_nil_iff, or_false] at hm
        rcases hm with ⟨rfl, rfl⟩ | ⟨rfl, rfl⟩ | ⟨rfl, rfl⟩
        · simp [Stmt.examinesBuffer] at hs
        · simp [Stmt.examinesBuffer] at hs
        · exact ⟨rfl, ht⟩
    | false =>
      have hf2 : ({ q with waiting := none } : QueueBase T).isEmpty = false := hf
      rw [IRQget_not_empty w q elem hppw hf]
      refine ⟨?_, ?_, ?_, ?_, ?_, ht, rfl, ?_, ?_⟩
      · simp [execute, IRQget_body, Stmt.exec, Frame.enter, hq, hf2]
      · simp [execute, IRQget_body, Stmt.exec, Frame.enter, hq, hf2]
      · simp [execute, IRQget_body, Stmt.exec, Frame.enter, hq, hf2]
      · simp [execute, IRQget_body, Stmt.exec, Frame.enter, hq, hf2]
      · simp [execute, IRQget_body, Stmt.exec, Frame.enter, hq, hf2]
      · simp [executed, IRQget_body, Stmt.exec, Frame.enter, hq, hf2]
      · intro s f hm hs
        simp only [executed, IRQget_body, Stmt.exec, Frame.enter, hq, hf2,
          Bool.false_eq_true, if_false,
          List.mem_cons, Prod.mk.injEq, List.mem_nil_iff, or_false] at hm
        rcases hm with ⟨rfl, rfl⟩ | ⟨rfl, rfl⟩ | ⟨rfl, rfl⟩ | ⟨rfl, rfl⟩ | ⟨rfl, rfl⟩ |
          ⟨rfl, rfl⟩ | ⟨rfl, rfl⟩
        · simp [Stmt.examinesBuffer] at hs
        · simp [Stmt.examinesBuffer] at hs
        · exact ⟨rfl, ht⟩
        · exact ⟨rfl, ht⟩
        · exact ⟨rfl, ht⟩
        · exact ⟨rfl, ht⟩
        · simp [Stmt.examinesBuffer] at hs

end QueueBase

namespace QueueBase

variable {T : Type}

theorem IRQresetLoop_trace (len : Nat) (hlen : len < UINT_MOD) :
    ∀ (n g : Nat) (tr : List Event), g < len →
      (IRQresetLoop len n g tr).1 =
        tr ++ (List.range n).map (fun i => Event.destroy ((g + i) % len)) := by
  intro n
  induction n with
  | zero => intro g tr _; simp [IRQresetLoop]
  | succ n ih =>
    intro g tr hg
    have hpos : 0 < len := by omega
    simp only [IRQresetLoop]
    rw [uinc_of_lt (by omega), wrap_eq_mod hg, ih _ _ (Nat.mod_lt _ hpos)]
    simp only [List.range_succ_eq_map, List.map_cons, List.map_map, Nat.add_zero,
      Nat.mod_eq_of_lt hg, List.append_assoc, List.singleton_append]
    congr 2
    apply List.map_congr_left
    intro i _
    simp only [Function.comp_apply, Nat.mod_add_mod]
    congr 2
    omega

theorem slots_nodup {g n len : Nat} (hn : n ≤ len) :
    ((List.range n).map (fun i => (g + i) % len)).Nodup := by
  apply List.Nodup.map_on _ (List.nodup_range n)
  intro i hi j hj hij
  rw [List.mem_range] at hi hj
  by_contra hne
  rcases Nat.lt_or_gt_of_ne hne with hlt | hlt
  · exact @mod_ne_of_lt g i j len hlt (by omega) hij
  · exact @mod_ne_of_lt g j i len hlt (by omega) hij.symm

/-- C6 (`IRQreset`). From any reachable state `IRQreset()` leaves the queue
empty (`size()==0`, `isEmpty()`, `putPos==getPos==0`, `free()==capacity()`) with
`waiting` cleared; the calls it makes are one `IRQwakeup()` on the registered
waiter if there is one, followed, when the element type is not trivially
destructible, by one destructor call on each of the `size()` queued slots in
dequeue order (pairwise distinct slots) and on no other slot; a following
`IRQget` returns false; and `reset()` does the same. -/
theorem IRQreset_contract [Inhabited T] (storage : List T) (hN : storage.length < UINT_MOD)
    (q : QueueBase T) (h : Reachable storage q) (trivial : Bool) (w : World) :
    (IRQreset trivial w q).2.size = 0 ∧ (IRQreset trivial w q).2.isEmpty = true ∧
    (IRQreset trivial w q).2.putPos = 0 ∧ (IRQreset trivial w q).2.getPos = 0 ∧
    (IRQreset trivial w q).2.free = (IRQreset trivial w q).2.capacity ∧
    (IRQreset trivial w q).2.waiting = none ∧
    (IRQreset trivial w q).1.trace =
      w.trace ++ (match q.waiting with
                  | some t => [Event.wakeup t]
                  | none => []) ++
        (if trivial = true then []
         else (List.range q.size).map
                (fun i => Event.destroy ((q.getPos + i) % q.capacity))) ∧
    ((List.range q.size).map (fun i => (q.getPos + i) % q.capacity)).Nodup ∧
    (∀ (w1 : World) (elem : T) (hppw : Option Bool),
      (IRQget w1 (IRQreset trivial w q).2 elem hppw).ret = false) ∧
    reset trivial w q = IRQreset trivial w q := by
  obtain ⟨h1, h2, h3, h4⟩ := h.wf hN
  have ht : (IRQwakeWaitingThread w q).1.trace =
      w.trace ++ (match q.waiting with
                  | some t => [Event.wakeup t]
                  | none => []) := by
    rw [wake_world]
    cases q.waiting <;> simp
  have hq := wake_queue w q
  have hr : IRQreset trivial w q =
      ((if trivial == false then
          { (IRQwakeWaitingThread w q).1 with
            trace := (IRQresetLoop q.buffer.length q.numElem q.getPos
                        (IRQwakeWaitingThread w q).1.trace).1 }
        else (IRQwakeWaitingThread w q).1),
       { buffer := q.buffer, waiting := none, numElem := 0, putPos := 0, getPos := 0 }) := by
    unfold IRQreset
    rcases hw : IRQwakeWaitingThread w q with ⟨w1, q1⟩
    rw [hw] at hq
    simp only at hq
    subst hq
    rfl
  have hreset : reset trivial w q = IRQreset trivial w q := rfl
  rw [hreset, hr]
  refine ⟨rfl, rfl, rfl, rfl, ?_, rfl, ?_, slots_nodup h2, ?_, rfl⟩
  · simp only [free, capacity]
    rw [usub_of_le (Nat.zero_le _) h1]
    rfl
  · cases trivial with
    | true => simp [ht]
    | false =>
      simp only [beq_self_eq_true, if_true, size, capacity]
      rcases Nat.eq_zero_or_pos q.numElem with h0 | h0
      · simp [h0, IRQresetLoop, ht]
      · rw [IRQresetLoop_trace _ h1 _ _ _ (by omega), ht]
        simp
  · intro w1 elem hppw
    have he : ({ buffer := q.buffer, waiting := none, numElem := 0, putPos := 0,
                 getPos := 0 } : QueueBase T).isEmpty = true := rfl
    rw [IRQget_empty w1 _ elem hppw he]

/-- Witness of `IRQreset_contract`: reset of a queue holding one element. -/
theorem IRQreset_contract_witness :
    (IRQreset false exampleWorld exampleQueue).2.size = 0 ∧
    (IRQreset false exampleWorld exampleQueue).2.isEmpty = true ∧
    (IRQreset false exampleWorld exampleQueue).2.putPos = 0 ∧
    (IRQreset false exampleWorld exampleQueue).2.getPos = 0 ∧
    (IRQreset false exampleWorld exampleQueue).2.free =
      (IRQreset false exampleWorld exampleQueue).2.capacity ∧
    (IRQreset false exampleWorld exampleQueue).2.waiting = none ∧
    (IRQreset false exampleWorld exampleQueue).1.trace =
      exampleWorld.trace ++ (match exampleQueue.waiting with
                  | some t => [Event.wakeup t]
                  | none => []) ++
        (if false = true then []
         else (List.range exampleQueue.size).map
                (fun i => Event.destroy ((exampleQueue.getPos + i) % exampleQueue.capacity))) ∧
    ((List.range exampleQueue.size).map
      (fun i => (exampleQueue.getPos + i) % exampleQueue.capacity)).Nodup ∧
    (∀ (w1 : World) (elem : Nat) (hppw : Option Bool),
      (IRQget w1 (IRQreset false exampleWorld exampleQueue).2 elem hppw).ret = false) ∧
    reset false exampleWorld exampleQueue = IRQreset false exampleWorld exampleQueue :=
  IRQreset_contract [0, 0] (by decide) exampleQueue
    (Reachable.put exampleWorld (new [0, 0]) (5 : Nat) none Reachable.fresh) false exampleWorld

/-- C9 (hppw reporting). For `IRQput(elem,hppw)` and `IRQget(elem,hppw)`, in
every queue state (so whether or not the put or get succeeds): if a waiter is
registered whose priority is strictly higher than that of the running thread,
`hppw` is true after the call; otherwise `hppw` keeps the value it had; in
particular a true `hppw` is never set to false. -/
theorem hppw_reporting [Inhabited T] (w : World) (q : QueueBase T) (elem : T) (hppw : Bool) :
    ((∃ t, q.waiting = some t ∧ w.current.priority < t.priority) →
      (IRQput_hppw w q elem hppw).hppw = some true ∧
      (IRQget_hppw w q elem hppw).hppw = some true) ∧
    (¬ (∃ t, q.waiting = some t ∧ w.current.priority < t.priority) →
      (IRQput_hppw w q elem hppw).hppw = some hppw ∧
      (IRQget_hppw w q elem hppw).hppw = some hppw) ∧
    (hppw = true →
      (IRQput_hppw w q elem hppw).hppw = some true ∧
      (IRQget_hppw w q elem hppw).hppw = some true) := by
  have hp : (IRQput_hppw w q elem hppw).hppw = hppwUpdate w q (some hppw) := by
    unfold IRQput_hppw
    cases hf : q.isFull with
    | false => rw [IRQput_not_full w q elem _ hf]
    | true => rw [IRQput_full w q elem _ hf]
  have hg : (IRQget_hppw w q elem hppw).hppw = hppwUpdate w q (some hppw) := by
    unfold IRQget_hppw
    cases he : q.isEmpty with
    | false => rw [IRQget_not_empty w q elem _ he]
    | true => rw [IRQget_empty w q elem _ he]
  rw [hp, hg]
  unfold hppwUpdate
  cases hw : q.waiting with
  | none => simp
  | some t =>
    by_cases hlt : w.current.priority < t.priority
    · simp [hlt]
    · simp [hlt]

/-- Witness of `hppw_reporting`: a waiter of priority 3 while thread 0, of
priority 0, runs. -/
theorem hppw_reporting_witness :
    (IRQput_hppw exampleWorld (registerWaiting ⟨⟨1, 3⟩, []⟩ exampleQueue) 7 false).hppw
      = some true ∧
    (IRQget_hppw exampleWorld (registerWaiting ⟨⟨1, 3⟩, []⟩ exampleQueue) 7 false).hppw
      = some true :=
  (hppw_reporting exampleWorld (registerWaiting ⟨⟨1, 3⟩, []⟩ exampleQueue) 7 false).1
    ⟨⟨1, 3⟩, rfl, by decide⟩

end QueueBase

theorem wakeupsOf_append (a b : List Event) :
    wakeupsOf (a ++ b) = wakeupsOf a ++ wakeupsOf b := by
  induction a with
  | nil => rfl
  | cons e es ih => cases e <;> simp [wakeupsOf, ih]

namespace QueueBase

variable {T : Type}

/-- C8, the claim as stated fails. Thread A is registered on an empty queue and
has not been woken; thread B makes a failed attempt inside the blocking `get`
and registers itself; an `IRQput` follows. The threads woken by the queue are A
and then B, not B only. -/
theorem second_waiter_counterexample :
    queueWithA.waiting = some threadA ∧
    (getAttempt ⟨threadB, []⟩ queueWithA 0).done = false ∧
    (getAttempt ⟨threadB, []⟩ queueWithA 0).queue.waiting = some threadB ∧
    wakeupsOf (IRQput_elem (getAttempt ⟨threadB, []⟩ queueWithA 0).world
        (getAttempt ⟨threadB, []⟩ queueWithA 0).queue 9).world.trace = [threadA, threadB] ∧
    ¬ (wakeupsOf (IRQput_elem (getAttempt ⟨threadB, []⟩ queueWithA 0).world
        (getAttempt ⟨threadB, []⟩ queueWithA 0).queue 9).world.trace = [threadB]) := by
  decide

theorem getAttempt_fail [Inhabited T] (w : World) (q : QueueBase T) (elem : T)
    (he : q.isEmpty = true) :
    getAttempt w q elem =
      { done := false, elem := elem,
        world := Thread.IRQenableIrqAndWait (IRQwakeWaitingThread w q).1,
        queue := { q with waiting := some (IRQwakeWaitingThread w q).1.current } } := by
  unfold getAttempt IRQget_elem
  rw [IRQget_empty w q elem none he]
  rfl

theorem putAttempt_fail (w : World) (q : QueueBase T) (elem : T) (hf : q.isFull = true) :
    putAttempt w q elem =
      { done := false, elem := elem,
        world := Thread.IRQenableIrqAndWait (IRQwakeWaitingThread w q).1,
        queue := { q with waiting := some (IRQwakeWaitingThread w q).1.current } } := by
  unfold putAttempt IRQput_elem
  rw [IRQput_full w q elem none hf]
  rfl

theorem wake_current (w : World) (q : QueueBase T) :
    (IRQwakeWaitingThread w q).1.current = w.current := by
  rw [wake_world]

theorem IRQreset_wakeups (trivial : Bool) (w : World) (q : QueueBase T) :
    wakeupsOf (IRQreset trivial w q).1.trace = wakeupsOf w.trace ++ q.waiting.toList := by
  have hq := wake_queue w q
  have hw1 := wake_world w q
  unfold IRQreset
  rcases hw : IRQwakeWaitingThread w q with ⟨w1, q1⟩
  rw [hw] at hq hw1
  simp only at hq hw1
  subst hq
  subst hw1
  have hl : ∀ (len n g : Nat) (tr : List Event),
      wakeupsOf (IRQresetLoop len n g tr).1 = wakeupsOf tr := by
    intro len n
    induction n with
    | zero => intro g tr; rfl
    | succ n ih =>
      intro g tr
      simp only [IRQresetLoop]
      rw [ih, wakeupsOf_append]
      simp [wakeupsOf]
  cases trivial with
  | true => cases hq : q.waiting <;> simp [wakeupsOf_append, wakeupsOf]
  | false =>
    simp only [beq_self_eq_true, if_true]
    rw [hl]
    cases hq : q.waiting <;> simp [wakeupsOf_append, wakeupsOf]

/-- C8 as amended (at most one waiter). While thread A is registered, a failed
attempt of the running thread B inside the blocking `get` (queue empty) or `put`
(queue full) makes exactly two calls: `IRQwakeup()` on A, then
`IRQenableIrqAndWait` by B; after it B is the registered waiter. The next
`IRQput`, `IRQget` or `IRQreset`, in whatever state of the kernel, wakes B and
no other thread. -/
theorem second_waiter [Inhabited T] (q : QueueBase T) (a : Thread) (w : World) (elem : T)
    (ha : q.waiting = some a) :
    (q.isEmpty = true →
      (getAttempt w q elem).done = false ∧
      (getAttempt w q elem).world.trace =
        w.trace ++ [Event.wakeup a, Event.enableIrqAndWait w.current] ∧
      (getAttempt w q elem).queue.waiting = some w.current ∧
      (∀ (w1 : World) (e : T) (hppw : Option Bool),
        wakeupsOf (IRQput w1 (getAttempt w q elem).queue e hppw).world.trace =
          wakeupsOf w1.trace ++ [w.current] ∧
        wakeupsOf (IRQget w1 (getAttempt w q elem).queue e hppw).world.trace =
          wakeupsOf w1.trace ++ [w.current]) ∧
      (∀ (w1 : World) (trivial : Bool),
        wakeupsOf (IRQreset trivial w1 (getAttempt w q elem).queue).1.trace =
          wakeupsOf w1.trace ++ [w.current])) ∧
    (q.isFull = true →
      (putAttempt w q elem).done = false ∧
      (putAttempt w q elem).world.trace =
        w.trace ++ [Event.wakeup a, Event.enableIrqAndWait w.current] ∧
      (putAttempt w q elem).queue.waiting = some w.current ∧
      (∀ (w1 : World) (e : T) (hppw : Option Bool),
        wakeupsOf (IRQput w1 (putAttempt w q elem).queue e hppw).world.trace =
          wakeupsOf w1.trace ++ [w.current] ∧
        wakeupsOf (IRQget w1 (putAttempt w q elem).queue e hppw).world.trace =
          wakeupsOf w1.trace ++ [w.current]) ∧
      (∀ (w1 : World) (trivial : Bool),
        wakeupsOf (IRQreset trivial w1 (putAttempt w q elem).queue).1.trace =
          wakeupsOf w1.trace ++ [w.current])) := by
  have key : ∀ r : AttemptResult T,
      r = { done := false, elem := elem,
            world := Thread.IRQenableIrqAndWait (IRQwakeWaitingThread w q).1,
            queue := { q with waiting := some (IRQwakeWaitingThread w q).1.current } } →
      r.done = false ∧
      r.world.trace = w.trace ++ [Event.wakeup a, Event.enableIrqAndWait w.current] ∧
      r.queue.waiting = some w.current ∧
      (∀ (w1 : World) (e : T) (hppw : Option Bool),
        wakeupsOf (IRQput w1 r.queue e hppw).world.trace = wakeupsOf w1.trace ++ [w.current] ∧
        wakeupsOf (IRQget w1 r.queue e hppw).world.trace =
          wakeupsOf w1.trace ++ [w.current]) ∧
      (∀ (w1 : World) (trivial : Bool),
        wakeupsOf (IRQreset trivial w1 r.queue).1.trace =
          wakeupsOf w1.trace ++ [w.current]) := by
    intro r hr
    subst hr
    refine ⟨rfl, ?_, ?_, ?_, ?_⟩
    · simp [Thread.IRQenableIrqAndWait, wake_world, ha]
    · simp [wake_current]
    · intro w1 e hppw
      rw [IRQput_world, IRQget_world, wake_world]
      simp [wakeupsOf_append, wakeupsOf, wake_current]
    · intro w1 trivial
      rw [IRQreset_wakeups]
      simp [wake_current]
  exact ⟨fun he => key _ (getAttempt_fail w q elem he),
    fun hf => key _ (putAttempt_fail w q elem hf)⟩

/-- Witness of `second_waiter`: thread B fails a `get` on the empty queue on
which thread A is registered. -/
theorem second_waiter_witness :
    (getAttempt ⟨threadB, []⟩ queueWithA 0).done = false ∧
    (getAttempt ⟨threadB, []⟩ queueWithA 0).world.trace =
      [] ++ [Event.wakeup threadA, Event.enableIrqAndWait threadB] ∧
    (getAttempt ⟨threadB, []⟩ queueWithA 0).queue.waiting = some threadB ∧
    (∀ (w1 : World) (e : Nat) (hppw : Option Bool),
      wakeupsOf (IRQput w1 (getAttempt ⟨threadB, []⟩ queueWithA 0).queue e hppw).world.trace =
        wakeupsOf w1.trace ++ [threadB] ∧
      wakeupsOf (IRQget w1 (getAttempt ⟨threadB, []⟩ queueWithA 0).queue e hppw).world.trace =
        wakeupsOf w1.trace ++ [threadB]) ∧
    (∀ (w1 : World) (trivial : Bool),
      wakeupsOf (IRQreset trivial w1 (getAttempt ⟨threadB, []⟩ queueWithA 0).queue).1.trace =
        wakeupsOf w1.trace ++ [threadB]) :=
  (second_waiter queueWithA threadA ⟨threadB, []⟩ 0 rfl).1 rfl

end QueueBase

namespace BufferQueue

theorem tryGetWritableBuffer_queue (q : BufferQueue) (buffer : Nat) :
    (tryGetWritableBuffer q buffer).2.2 = q := by
  unfold tryGetWritableBuffer; split <;> rfl

theorem tryGetReadableBuffer_queue (q : BufferQueue) (buffer actualSize : Nat) :
    (tryGetReadableBuffer q buffer actualSize).2.2.2 = q := by
  unfold tryGetReadableBuffer; split <;> rfl

theorem bufferFilled_ok {q q1 : BufferQueue} {actualSize : Nat}
    (h : bufferFilled q actualSize = Except.ok q1) :
    q.isFull = false ∧ q1.cnt = ucinc q.cnt ∧ q1.numbuf = q.numbuf ∧ q1.size = q.size := by
  unfold bufferFilled at h
  cases hf : q.isFull with
  | true => simp [hf, errorHandler, bind, Except.bind] at h
  | false =>
    simp only [hf, Bool.false_eq_true, if_false, bind, Except.bind, pure, Except.pure] at h
    injection h with h
    subst h
    refine ⟨rfl, ?_, ?_, ?_⟩ <;> split <;> rfl

theorem bufferEmptied_ok {q q1 : BufferQueue} (h : bufferEmptied q = Except.ok q1) :
    q.isEmpty = false ∧ q1.cnt = ucdec q.cnt ∧ q1.numbuf = q.numbuf ∧ q1.size = q.size := by
  unfold bufferEmptied at h
  cases he : q.isEmpty with
  | true => simp [he, errorHandler, bind, Except.bind] at h
  | false =>
    simp only [he, Bool.false_eq_true, if_false, bind, Except.bind, pure, Except.pure] at h
    injection h with h
    subst h
    refine ⟨rfl, ?_, ?_, ?_⟩ <;> split <;> rfl

theorem Reachable.cnt_le {size numbuf : Nat} {sizes : List Nat} (hn : numbuf < UCHAR_MOD)
    {q : BufferQueue} (h : Reachable size numbuf sizes q) :
    q.numbuf = numbuf ∧ q.cnt ≤ numbuf := by
  induction h with
  | fresh => exact ⟨rfl, Nat.zero_le _⟩
  | writable q buffer _ ih => rw [tryGetWritableBuffer_queue]; exact ih
  | filled q q1 actualSize _ hok ih =>
    obtain ⟨hf, hc, hb, _⟩ := bufferFilled_ok hok
    simp only [isFull, beq_eq_false_iff_ne, ne_eq] at hf
    have hlt : q.cnt + 1 < UCHAR_MOD := by omega
    rw [hc, hb, ucinc, Nat.mod_eq_of_lt hlt]
    exact ⟨ih.1, by omega⟩
  | readable q buffer actualSize _ ih => rw [tryGetReadableBuffer_queue]; exact ih
  | emptied q q1 _ hok ih =>
    obtain ⟨he, hc, hb, _⟩ := bufferEmptied_ok hok
    simp only [isEmpty, beq_eq_false_iff_ne, ne_eq] at he
    have e : q.cnt + UCHAR_MOD - 1 = (q.cnt - 1) + UCHAR_MOD := by omega
    have hlt : q.cnt - 1 < UCHAR_MOD := by omega
    rw [hc, hb, ucdec, e, Nat.add_mod_right, Nat.mod_eq_of_lt hlt]
    exact ⟨ih.1, by omega⟩
  | reset q _ ih => exact ⟨ih.1, Nat.zero_le _⟩

/-- C10 (`BufferQueue` invariant). In every state reachable from a freshly
constructed `BufferQueue<T,size,numbuf>` (`2 ≤ numbuf`, an `unsigned char`) by
calls of `tryGetWritableBuffer`, `bufferFilled`, `tryGetReadableBuffer`,
`bufferEmptied` and `reset` that do not call `errorHandler`,
`availableForReading() + availableForWriting() == numberOfBuffers()` and
`0 ≤ availableForReading() ≤ numbuf`. -/
theorem bufferQueue_invariant (size numbuf : Nat) (sizes : List Nat) (h2 : 2 ≤ numbuf)
    (hn : numbuf < UCHAR_MOD) (q : BufferQueue) (h : Reachable size numbuf sizes q) :
    q.availableForReading + q.availableForWriting = q.numberOfBuffers ∧
    0 ≤ q.availableForReading ∧ q.availableForReading ≤ numbuf := by
  obtain ⟨hb, hc⟩ := h.cnt_le hn
  refine ⟨?_, Nat.zero_le _, hc⟩
  simp only [availableForReading, availableForWriting, numberOfBuffers, toUChar, hb]
  have hu : UCHAR_MOD = 256 := rfl
  rw [hu] at hn ⊢
  omega

/-- Witness of `bufferQueue_invariant`: double buffering after one
`bufferFilled(10)`. -/
theorem bufferQueue_invariant_witness :
    exampleBufferQueue.availableForReading + exampleBufferQueue.availableForWriting =
      exampleBufferQueue.numberOfBuffers ∧
    0 ≤ exampleBufferQueue.availableForReading ∧ exampleBufferQueue.availableForReading ≤ 2 :=
  bufferQueue_invariant 16 2 [0, 0] (by decide) (by decide) exampleBufferQueue
    (Reachable.filled (new 16 2 [0, 0]) exampleBufferQueue 10 Reachable.fresh rfl)

end BufferQueue

namespace GetSys

variable {T : Type}

theorem inWaitStatus_wait (t : Thread) (tr : List Event) :
    inWaitStatus t (tr ++ [Event.enableIrqAndWait t]) = true := by
  simp [inWaitStatus, List.foldl_append]

theorem inWaitStatus_wakeup (t : Thread) (tr : List Event) :
    inWaitStatus t (tr ++ [Event.wakeup t]) = false := by
  simp [inWaitStatus, List.foldl_append]

theorem step_cases [Inhabited T] {t : Thread} {x : T} {s s1 : GetSys T} (h : Step t x s s1) :
    threadStep t s = some s1 ∨ irqStep x s = some s1 := by
  cases h with
  | thread h => exact Or.inl h
  | irq h => exact Or.inr h

theorem run_cases [Inhabited T] (t : Thread) (x x0 elem0 : T) (w0 : World) :
    ∀ (n : Nat) (s : GetSys T), Run t x n (init w0 [x0] elem0) s →
      (n = 0 ∧ s = init w0 [x0] elem0) ∨
      (n = 1 ∧ s = { world := ⟨t, w0.trace ++ [Event.enableIrqAndWait t]⟩,
                     queue := ⟨[x0], some t, 0, 0, 0⟩, pc := GetPc.parked, elem := elem0,
                     irqDone := false }) ∨
      (n = 1 ∧ s = { world := w0, queue := ⟨[x], none, 1, 0, 0⟩, pc := GetPc.entry,
                     elem := elem0, irqDone := true }) ∨
      (n = 2 ∧ s = { world := ⟨t, w0.trace ++ [Event.enableIrqAndWait t] ++ [Event.wakeup t]⟩,
                     queue := ⟨[x], none, 1, 0, 0⟩, pc := GetPc.parked, elem := elem0,
                     irqDone := true }) ∨
      (n = 2 ∧ s = { world := ⟨t, w0.trace⟩, queue := ⟨[x], none, 0, 0, 0⟩,
                     pc := GetPc.returned, elem := x, irqDone := true }) ∨
      (n = 3 ∧ s = { world := ⟨t, w0.trace ++ [Event.enableIrqAndWait t] ++ [Event.wakeup t]⟩,
                     queue := ⟨[x], none, 0, 0, 0⟩, pc := GetPc.returned, elem := x,
                     irqDone := true }) := by
  intro n s h
  have h1 : udec 1 = 0 := by norm_num [udec, UINT_MOD]
  have h2 : uinc 0 = 1 := by norm_num [uinc, UINT_MOD]
  generalize hs0 : init w0 [x0] elem0 = s0 at h
  induction h with
  | refl => exact Or.inl ⟨rfl, rfl⟩
  | tail hrun hstep ih =>
    rcases ih hs0 with ⟨hn, hs⟩ | ⟨hn, hs⟩ | ⟨hn, hs⟩ | ⟨hn, hs⟩ | ⟨hn, hs⟩ | ⟨hn, hs⟩ <;>
      subst hn <;> subst hs <;> rcases step_cases hstep with h | h
    · right; left
      refine ⟨rfl, ?_⟩
      rw [← hs0] at h
      exact (Option.some.inj h).symm
    · right; right; left
      refine ⟨rfl, ?_⟩
      rw [← hs0] at h
      exact (Option.some.inj h).symm
    · exfalso
      simp [threadStep, inWaitStatus_wait] at h
    · right; right; right; left
      exact ⟨rfl, (Option.some.inj h).symm⟩
    · right; right; right; right; left
      refine ⟨rfl, ?_⟩
      rw [← Option.some.inj h]
      simp [QueueBase.getAttempt, QueueBase.IRQget_elem, QueueBase.IRQget,
        QueueBase.IRQwakeWaitingThread, QueueBase.hppwUpdate, QueueBase.isEmpty, h1, h2]
    · exact absurd h (by simp [irqStep])
    · right; right; right; right; right
      refine ⟨rfl, ?_⟩
      simp only [threadStep, inWaitStatus_wakeup] at h
      rw [← Option.some.inj h]
      simp [QueueBase.getAttempt, QueueBase.IRQget_elem, QueueBase.IRQget,
        QueueBase.IRQwakeWaitingThread, QueueBase.hppwUpdate, QueueBase.isEmpty, h1, h2]
    · exact absurd h (by simp [irqStep])
    · exact absurd h (by simp [threadStep])
    · exact absurd h (by simp [irqStep])
    · exact absurd h (by simp [threadStep])
    · exact absurd h (by simp [irqStep])

end GetSys

namespace GetSys

variable {T : Type}

/-- C7 (no lost wakeup). Thread `t` calls the blocking `get()` on an empty
queue of length one while an interrupt handler calls `IRQput(x)` exactly once,
at any point where interrupts are enabled. Every execution has at most three
steps; in every state where neither the thread nor the interrupt can take a
step the thread has returned from `get()` with `x` and the interrupt has been
served; and the thread never returns with anything else. Hence `get()`
eventually returns with `x` (with `x = 42` for the scenario of the claim). -/
theorem no_lost_wakeup [Inhabited T] (t : Thread) (x x0 elem0 : T) (w0 : World) (n : Nat)
    (s : GetSys T) (h : Run t x n (init w0 [x0] elem0) s) :
    n ≤ 3 ∧ (s.pc = GetPc.returned → s.elem = x) ∧
    ((∀ s1, ¬ Step t x s s1) → s.pc = GetPc.returned ∧ s.elem = x ∧ s.irqDone = true) := by
  rcases run_cases t x x0 elem0 w0 n s h with
    ⟨hn, hs⟩ | ⟨hn, hs⟩ | ⟨hn, hs⟩ | ⟨hn, hs⟩ | ⟨hn, hs⟩ | ⟨hn, hs⟩ <;> subst hn <;> subst hs
  · refine ⟨by omega, fun hp => absurd hp (by simp [init]), fun hstuck => ?_⟩
    exact (hstuck _ (Step.thread rfl)).elim
  · refine ⟨by omega, fun hp => absurd hp (by simp), fun hstuck => ?_⟩
    exact (hstuck _ (Step.irq rfl)).elim
  · refine ⟨by omega, fun hp => absurd hp (by simp), fun hstuck => ?_⟩
    exact (hstuck _ (Step.thread rfl)).elim
  · refine ⟨by omega, fun hp => absurd hp (by simp), fun hstuck => ?_⟩
    have hstep : ∃ s1, threadStep t
        ({ world := ⟨t, w0.trace ++ [Event.enableIrqAndWait t] ++ [Event.wakeup t]⟩,
           queue := ⟨[x], none, 1, 0, 0⟩, pc := GetPc.parked, elem := elem0,
           irqDone := true } : GetSys T) = some s1 := by
      simp only [threadStep, inWaitStatus_wakeup, Bool.false_eq_true, if_false]
      exact ⟨_, rfl⟩
    obtain ⟨s1, hs1⟩ := hstep
    exact (hstuck _ (Step.thread hs1)).elim
  · exact ⟨by omega, fun _ => rfl, fun _ => ⟨rfl, rfl, rfl⟩⟩
  · exact ⟨by omega, fun _ => rfl, fun _ => ⟨rfl, rfl, rfl⟩⟩

/-- Witness of `no_lost_wakeup`: the thread attempts first and is suspended, the
interrupt puts 42 and wakes it, the thread attempts again and returns 42. -/
theorem no_lost_wakeup_witness :
    3 ≤ 3 ∧ (exampleGetFinal.pc = GetPc.returned → exampleGetFinal.elem = 42) ∧
    ((∀ s1, ¬ Step threadA 42 exampleGetFinal s1) →
      exampleGetFinal.pc = GetPc.returned ∧ exampleGetFinal.elem = 42 ∧
      exampleGetFinal.irqDone = true) :=
  no_lost_wakeup threadA 42 0 0 ⟨threadA, []⟩ 3 exampleGetFinal
    (Run.tail (Run.tail (Run.tail (Run.refl _)
      (@Step.thread Nat _ threadA 42 _ exampleGetParked (by decide)))
      (@Step.irq Nat _ threadA 42 _ exampleGetWoken (by decide)))
      (@Step.thread Nat _ threadA 42 _ exampleGetFinal (by decide)))

end GetSys

namespace BufferQueue

theorem bufferFilled_full (q : BufferQueue) (actualSize : Nat) (h : q.isFull = true) :
    bufferFilled q actualSize = Except.error Error.UNEXPECTED := by
  simp [bufferFilled, h, errorHandler, bind, Except.bind]

theorem bufferFilled_not_full (q : BufferQueue) (actualSize : Nat) (h : q.isFull = false) :
    bufferFilled q actualSize =
      Except.ok { q with cnt := ucinc q.cnt, bufSize := q.bufSize.set q.put actualSize,
                         put := if ucinc q.put ≥ q.numbuf then 0 else ucinc q.put } := by
  simp only [bufferFilled, h, Bool.false_eq_true, if_false, bind, Except.bind, pure,
    Except.pure]
  congr 1
  split <;> rfl

theorem bufferEmptied_empty (q : BufferQueue) (h : q.isEmpty = true) :
    bufferEmptied q = Except.error Error.UNEXPECTED := by
  simp [bufferEmptied, h, errorHandler, bind, Except.bind]

theorem bufferEmptied_not_empty (q : BufferQueue) (h : q.isEmpty = false) :
    bufferEmptied q =
      Except.ok { q with cnt := ucdec q.cnt,
                         get := if ucinc q.get ≥ q.numbuf then 0 else ucinc q.get } := by
  simp only [bufferEmptied, h, Bool.false_eq_true, if_false, bind, Except.bind, pure,
    Except.pure]
  congr 1
  split <;> rfl

/-- C11 (`tryGetWritableBuffer`, `tryGetReadableBuffer`). In every state of the
queue: `tryGetWritableBuffer` returns false iff `isFull()`, and then leaves its
`buffer` parameter as it was; `tryGetReadableBuffer` returns false iff
`isEmpty()`, and then leaves `buffer` and `actualSize` as they were; and neither
call, successful or not, changes the queue (`put`, `get`, `cnt`, `bufSize`). -/
theorem tryGet_buffers (q : BufferQueue) (buffer actualSize : Nat) :
    ((tryGetWritableBuffer q buffer).1 = false ↔ q.isFull = true) ∧
    ((tryGetWritableBuffer q buffer).1 = false → (tryGetWritableBuffer q buffer).2.1 = buffer) ∧
    (tryGetWritableBuffer q buffer).2.2 = q ∧
    ((tryGetReadableBuffer q buffer actualSize).1 = false ↔ q.isEmpty = true) ∧
    ((tryGetReadableBuffer q buffer actualSize).1 = false →
      (tryGetReadableBuffer q buffer actualSize).2.1 = buffer ∧
      (tryGetReadableBuffer q buffer actualSize).2.2.1 = actualSize) ∧
    (tryGetReadableBuffer q buffer actualSize).2.2.2 = q := by
  refine ⟨?_, ?_, tryGetWritableBuffer_queue q buffer, ?_, ?_,
    tryGetReadableBuffer_queue q buffer actualSize⟩
  · unfold tryGetWritableBuffer; cases q.isFull <;> simp
  · unfold tryGetWritableBuffer; cases q.isFull <;> simp
  · unfold tryGetReadableBuffer; cases q.isEmpty <;> simp
  · unfold tryGetReadableBuffer; cases q.isEmpty <;> simp

/-- Witness of `tryGet_buffers`: on a full double buffer the writer is refused
and its `buffer` variable keeps the value 7. -/
theorem tryGet_buffers_witness :
    (tryGetWritableBuffer { exampleBufferQueue with cnt := 2 } 7).2.1 = 7 :=
  (tryGet_buffers { exampleBufferQueue with cnt := 2 } 7 0).2.1 (by decide)

/-- C13 (`BufferQueue` misuse detection). In every reachable state
`bufferFilled()` calls `errorHandler(UNEXPECTED)` iff the queue is full, that
is iff no buffer is available for writing, and `bufferEmptied()` calls it iff
the queue is empty, that is iff no buffer is available for reading; in the
other cases they complete without error, with the count one more,
respectively one less, than before. -/
theorem bufferQueue_misuse (size numbuf : Nat) (sizes : List Nat) (hn : numbuf < UCHAR_MOD)
    (q : BufferQueue) (h : Reachable size numbuf sizes q) (actualSize : Nat) :
    (bufferFilled q actualSize = Except.error Error.UNEXPECTED ↔ q.isFull = true) ∧
    (q.isFull = true ↔ q.availableForWriting = 0) ∧
    (q.isFull = false →
      ∃ q1, bufferFilled q actualSize = Except.ok q1 ∧
        q1.availableForReading = q.availableForReading + 1) ∧
    (bufferEmptied q = Except.error Error.UNEXPECTED ↔ q.isEmpty = true) ∧
    (q.isEmpty = true ↔ q.availableForReading = 0) ∧
    (q.isEmpty = false →
      ∃ q1, bufferEmptied q = Except.ok q1 ∧
        q1.availableForReading + 1 = q.availableForReading) := by
  obtain ⟨hb, hc⟩ := h.cnt_le hn
  have hu : UCHAR_MOD = 256 := rfl
  refine ⟨?_, ?_, ?_, ?_, ?_, ?_⟩
  · cases hf : q.isFull with
    | true => simp [bufferFilled_full q actualSize hf]
    | false => simp [bufferFilled_not_full q actualSize hf]
  · simp only [isFull, availableForWriting, toUChar, hb, beq_iff_eq]
    rw [hu] at hn ⊢
    omega
  · intro hf
    refine ⟨_, bufferFilled_not_full q actualSize hf, ?_⟩
    simp only [isFull, beq_eq_false_iff_ne, ne_eq] at hf
    simp only [availableForReading, ucinc]
    rw [hu] at hn ⊢
    omega
  · cases he : q.isEmpty with
    | true => simp [bufferEmptied_empty q he]
    | false => simp [bufferEmptied_not_empty q he]
  · simp [isEmpty, availableForReading]
  · intro he
    refine ⟨_, bufferEmptied_not_empty q he, ?_⟩
    simp only [isEmpty, beq_eq_false_iff_ne, ne_eq] at he
    simp only [availableForReading, ucdec]
    rw [hu] at hn ⊢
    omega

/-- Witness of `bufferQueue_misuse`: double buffering after one
`bufferFilled(10)`. -/
theorem bufferQueue_misuse_witness :
    (bufferFilled exampleBufferQueue 3 = Except.error Error.UNEXPECTED ↔
      exampleBufferQueue.isFull = true) ∧
    (exampleBufferQueue.isFull = true ↔ exampleBufferQueue.availableForWriting = 0) ∧
    (exampleBufferQueue.isFull = false →
      ∃ q1, bufferFilled exampleBufferQueue 3 = Except.ok q1 ∧
        q1.availableForReading = exampleBufferQueue.availableForReading + 1) ∧
    (bufferEmptied exampleBufferQueue = Except.error Error.UNEXPECTED ↔
      exampleBufferQueue.isEmpty = true) ∧
    (exampleBufferQueue.isEmpty = true ↔ exampleBufferQueue.availableForReading = 0) ∧
    (exampleBufferQueue.isEmpty = false →
      ∃ q1, bufferEmptied exampleBufferQueue = Except.ok q1 ∧
        q1.availableForReading + 1 = exampleBufferQueue.availableForReading) :=
  bufferQueue_misuse 16 2 [0, 0] (by decide) exampleBufferQueue
    (Reachable.filled (new 16 2 [0, 0]) exampleBufferQueue 10 Reachable.fresh rfl) 3

end BufferQueue

namespace ThreadFlags

set_option maxRecDepth 100000

/-- C15 (`isDeleted`). For every value of the flags byte, `isDeleted()` is true
iff the DELETED flag (bit 2) and the DETACHED flag (bit 4) are both set, that is
iff `isDeletedJoin()` and `isDetached()` both hold; so a thread that is deleted
but not detached is not reported reclaimable. -/
theorem isDeleted_iff (f : ThreadFlags) (h : f.flags < UCHAR_MOD) :
    (f.isDeleted = true ↔ f.flags.testBit 2 = true ∧ f.flags.testBit 4 = true) ∧
    (f.isDeleted = true ↔ f.isDeletedJoin = true ∧ f.isDetached = true) ∧
    (f.isDeletedJoin = true ∧ f.isDetached = false → f.isDeleted = false) := by
  cases f with
  | mk n =>
    revert n
    decide

/-- Witness of `isDeleted_iff`: DELETED set, DETACHED clear. -/
theorem isDeleted_iff_witness : isDeleted ⟨DELETED⟩ = false :=
  (isDeleted_iff ⟨DELETED⟩ (by decide)).2.2 (by decide)

/-- C16 (`isReady`). For every value of the flags byte, `isReady()` is true iff
the thread is not waiting, not sleeping, not deleted and not waiting for a
join; and toggling the DELETING, DETACHED or USERSPACE flag does not change
it. -/
theorem isReady_iff (f : ThreadFlags) (h : f.flags < UCHAR_MOD) :
    f.isReady = !(f.isWaiting || f.isSleeping || f.isDeletedJoin || f.isWaitingJoin) ∧
    isReady ⟨f.flags ^^^ DELETING⟩ = f.isReady ∧
    isReady ⟨f.flags ^^^ DETACHED⟩ = f.isReady ∧
    isReady ⟨f.flags ^^^ USERSPACE⟩ = f.isReady := by
  cases f with
  | mk n =>
    revert n
    decide

/-- Witness of `isReady_iff`: a thread asked to terminate, detached, in
userspace, is ready. -/
theorem isReady_iff_witness :
    isReady ⟨DELETING ||| DETACHED ||| USERSPACE⟩ =
      !(isWaiting ⟨DELETING ||| DETACHED ||| USERSPACE⟩ ||
        isSleeping ⟨DELETING ||| DETACHED ||| USERSPACE⟩ ||
        isDeletedJoin ⟨DELETING ||| DETACHED ||| USERSPACE⟩ ||
        isWaitingJoin ⟨DELETING ||| DETACHED ||| USERSPACE⟩) :=
  (isReady_iff ⟨DELETING ||| DETACHED ||| USERSPACE⟩ (by decide)).1

/-- C17, the claim as stated fails: with WAIT and SLEEP both set a thread is in
two of the six derived states, waiting and sleeping. -/
theorem state_exclusivity_counterexample :
    isWaiting ⟨WAIT ||| SLEEP⟩ = true ∧ isSleeping ⟨WAIT ||| SLEEP⟩ = true ∧
    stateCount ⟨WAIT ||| SLEEP⟩ = 2 ∧ ¬ (stateCount ⟨WAIT ||| SLEEP⟩ = 1) := by
  decide

/-- C17 as amended. For every value of the flags byte a thread is in at least
one of the six derived states; a ready thread is in no other of them; and
deleted-pending-join and deleted-reclaimable exclude each other. -/
theorem state_coverage (f : ThreadFlags) (h : f.flags < UCHAR_MOD) :
    1 ≤ stateCount f ∧
    (f.isReady = true → stateCount f = 1) ∧
    ¬ ((f.isDeletedJoin && !f.isDetached) = true ∧ f.isDeleted = true) := by
  cases f with
  | mk n =>
    revert n
    decide

/-- Witness of `state_coverage`: the flags of a freshly constructed thread. -/
theorem state_coverage_witness :
    1 ≤ stateCount new ∧ (new.isReady = true → stateCount new = 1) ∧
    ¬ ((new.isDeletedJoin && !new.isDetached) = true ∧ new.isDeleted = true) :=
  state_coverage new (by decide)

/-- C18 (`IRQsetDeleting`). For every value of the flags byte,
`IRQsetDeleting()` makes `isDeleting()` true, leaves `isReady`, `isWaiting`,
`isSleeping`, `isDeletedJoin`, `isDeleted`, `isDetached`, `isWaitingJoin` and
`isInUserspace` as they were (a ready thread stays ready), and applying it
twice gives the same flags as applying it once. -/
theorem IRQsetDeleting_frame (f : ThreadFlags) (h : f.flags < UCHAR_MOD) :
    (IRQsetDeleting f).isDeleting = true ∧
    (IRQsetDeleting f).isReady = f.isReady ∧
    (IRQsetDeleting f).isWaiting = f.isWaiting ∧
    (IRQsetDeleting f).isSleeping = f.isSleeping ∧
    (IRQsetDeleting f).isDeletedJoin = f.isDeletedJoin ∧
    (IRQsetDeleting f).isDeleted = f.isDeleted ∧
    (IRQsetDeleting f).isDetached = f.isDetached ∧
    (IRQsetDeleting f).isWaitingJoin = f.isWaitingJoin ∧
    (IRQsetDeleting f).isInUserspace = f.isInUserspace ∧
    (f.isReady = true → (IRQsetDeleting f).isReady = true) ∧
    IRQsetDeleting (IRQsetDeleting f) = IRQsetDeleting f ∧
    (IRQsetDeleting f).flags < UCHAR_MOD := by
  cases f with
  | mk n =>
    revert n
    decide

/-- Witness of `IRQsetDeleting_frame`: a ready thread asked to terminate is
still ready. -/
theorem IRQsetDeleting_frame_witness :
    (IRQsetDeleting new).isDeleting = true ∧ (IRQsetDeleting new).isReady = true :=
  ⟨(IRQsetDeleting_frame new (by decide)).1,
   (IRQsetDeleting_frame new (by decide)).2.2.2.2.2.2.2.2.2.1 (by decide)⟩

end ThreadFlags

namespace basic_scheduler

/-- C19, the claim as stated fails: in a kernel built without
`WITH_CPU_TIME_COUNTER` the policy accepts thread A and `PKaddThread` returns
true, yet the CPU time counter is not informed. -/
theorem PKaddThread_counterexample :
    (PKaddThread false acceptingPolicy ⟨0, ⟨[]⟩⟩ threadA 1).1 = true ∧
    (PKaddThread false acceptingPolicy ⟨0, ⟨[]⟩⟩ threadA 1).2.cpuTimeCounter.added = [] ∧
    ¬ ((PKaddThread false acceptingPolicy ⟨0, ⟨[]⟩⟩ threadA 1).2.cpuTimeCounter.added
        = [threadA]) := by
  decide

/-- C19 as amended. `basic_scheduler<T>::PKaddThread(thread, priority)` returns
the result of `T::PKaddThread` and leaves the policy in the state `T::PKaddThread`
left it; when the policy reports failure `CPUTimeCounter::PKaddThread` is not
called; when it reports success the CPU time counter is informed exactly once
if the kernel is built with `WITH_CPU_TIME_COUNTER`, and is not informed
otherwise. -/
theorem PKaddThread_contract {S : Type} (WITH_CPU_TIME_COUNTER : Bool) (T : Policy S)
    (s : SchedulerState S) (thread : Thread) (priority : Int) :
    (PKaddThread WITH_CPU_TIME_COUNTER T s thread priority).1 =
      (T.PKaddThread s.policy thread priority).1 ∧
    (PKaddThread WITH_CPU_TIME_COUNTER T s thread priority).2.policy =
      (T.PKaddThread s.policy thread priority).2 ∧
    ((T.PKaddThread s.policy thread priority).1 = false →
      (PKaddThread WITH_CPU_TIME_COUNTER T s thread priority).2.cpuTimeCounter =
        s.cpuTimeCounter) ∧
    ((T.PKaddThread s.policy thread priority).1 = true →
      (PKaddThread WITH_CPU_TIME_COUNTER T s thread priority).2.cpuTimeCounter.added =
        if WITH_CPU_TIME_COUNTER = true then s.cpuTimeCounter.added ++ [thread]
        else s.cpuTimeCounter.added) := by
  unfold PKaddThread
  cases WITH_CPU_TIME_COUNTER <;> cases h : (T.PKaddThread s.policy thread priority).1 <;>
    simp [h, CPUTimeCounter.PKaddThread]

/-- Witness of `PKaddThread_contract`: with `WITH_CPU_TIME_COUNTER` the accepted
thread A is passed to the CPU time counter once. -/
theorem PKaddThread_contract_witness :
    (PKaddThread true acceptingPolicy ⟨0, ⟨[]⟩⟩ threadA 1).2.cpuTimeCounter.added =
      if true = true then [] ++ [threadA] else [] :=
  (PKaddThread_contract true acceptingPolicy ⟨0, ⟨[]⟩⟩ threadA 1).2.2.2 rfl

end basic_scheduler

theorem wrap_ge_eq_mod {p len : Nat} (h : p < len) :
    (if p + 1 ≥ len then 0 else p + 1) = (p + 1) % len := by
  by_cases e : p + 1 = len
  · subst e; simp
  · have h1 : p + 1 < len := by omega
    have h2 : ¬ (p + 1 ≥ len) := by omega
    simp [h2, Nat.mod_eq_of_lt h1]

theorem ring_cons {α : Type} (f : Nat → α) {g len : Nat} (hg : g < len) (m : Nat) :
    (List.range (m + 1)).map (fun i => f ((g + i) % len)) =
      f g :: (List.range m).map (fun i => f (((g + 1) % len + i) % len)) := by
  simp only [List.range_succ_eq_map, List.map_cons, List.map_map, Nat.add_zero,
    Nat.mod_eq_of_lt hg]
  congr 1
  apply List.map_congr_left
  intro i _
  simp only [Function.comp_apply, Nat.mod_add_mod]
  congr 2
  omega

theorem ring_snoc {α : Type} (f f1 : Nat → α) {g n len : Nat} (hn : n < len)
    (hf : ∀ j, j ≠ (g + n) % len → f1 j = f j) :
    (List.range (n + 1)).map (fun i => f1 ((g + i) % len)) =
      (List.range n).map (fun i => f ((g + i) % len)) ++ [f1 ((g + n) % len)] := by
  simp only [List.range_succ, List.map_append, List.map_cons, List.map_nil]
  congr 1
  apply List.map_congr_left
  intro i hi
  rw [List.mem_range] at hi
  exact hf _ (QueueBase.mod_ne_of_lt hi (by omega))

namespace DynUnsyncQueue

variable {T : Type}

theorem tryPut_full (q : DynUnsyncQueue T) (elem : T) (h : q.isFull = true) :
    tryPut q elem = (false, q) := by
  simp [tryPut, h]

theorem tryGet_empty [Inhabited T] (q : DynUnsyncQueue T) (elem : T) (h : q.isEmpty = true) :
    tryGet q elem = (false, elem, q) := by
  simp [tryGet, h]

theorem tryPut_not_full {q : DynUnsyncQueue T} (hwf : WF q) (elem : T)
    (h : q.isFull = false) :
    tryPut q elem =
      (true, { data := q.data.set q.putPos elem,
               putPos := (q.getPos + (q.queueSize + 1)) % q.queueCapacity,
               getPos := q.getPos, queueSize := q.queueSize + 1,
               queueCapacity := q.queueCapacity }) := by
  obtain ⟨h0, h1, h2, h3, h4⟩ := hwf
  have hf := h
  simp only [isFull, beq_eq_false_iff_ne, ne_eq] at hf
  have hlt : q.queueSize < q.queueCapacity := lt_of_le_of_ne h2 hf
  have hp : q.putPos < q.queueCapacity := by rw [h4]; exact Nat.mod_lt _ (by omega)
  have e1 : uinc q.queueSize = q.queueSize + 1 := QueueBase.uinc_of_lt (by omega)
  have e2 : uinc q.putPos = q.putPos + 1 := QueueBase.uinc_of_lt (by omega)
  have e3 : (q.getPos + (q.queueSize + 1)) % q.queueCapacity = (q.putPos + 1) % q.queueCapacity := by
    rw [h4, QueueBase.mod_succ_mod]; rfl
  simp only [tryPut, h, Bool.false_eq_true, if_false, e1, e2]
  rw [e3, ← wrap_ge_eq_mod hp]
  split <;> rfl

theorem tryGet_not_empty [Inhabited T] {q : DynUnsyncQueue T} (hwf : WF q) (elem : T)
    (h : q.isEmpty = false) :
    tryGet q elem =
      (true, q.data.getD q.getPos default,
        { data := q.data, putPos := q.putPos,
          getPos := (q.getPos + 1) % q.queueCapacity, queueSize := q.queueSize - 1,
          queueCapacity := q.queueCapacity }) := by
  obtain ⟨h0, h1, h2, h3, h4⟩ := hwf
  have he := h
  simp only [isEmpty, beq_eq_false_iff_ne, ne_eq] at he
  have hg : q.getPos < q.queueCapacity := by omega
  have e1 : udec q.queueSize = q.queueSize - 1 := QueueBase.udec_of_pos (by omega) (by omega)
  have e2 : uinc q.getPos = q.getPos + 1 := QueueBase.uinc_of_lt (by omega)
  simp only [tryGet, h, Bool.false_eq_true, if_false, e1, e2]
  rw [← wrap_ge_eq_mod hg]
  split <;> rfl

theorem dynWF_new (storage : List T) (h : storage.length < UINT_MOD) : WF (new storage) := by
  refine ⟨rfl, h, Nat.zero_le _, ?_, ?_⟩
  · show 0 < storage.length ∨ (storage.length = 0 ∧ 0 = 0)
    omega
  · simp [new]

theorem dynWF_reset {q : DynUnsyncQueue T} (h : WF q) : WF (reset q) := by
  obtain ⟨h0, h1, h2, h3, h4⟩ := h
  refine ⟨h0, h1, Nat.zero_le _, ?_, ?_⟩
  · show 0 < q.queueCapacity ∨ (q.queueCapacity = 0 ∧ 0 = 0)
    omega
  · show 0 = (0 + 0) % q.queueCapacity
    simp

theorem WF_tryPut {q : DynUnsyncQueue T} (h : WF q) (elem : T) : WF (tryPut q elem).2 := by
  cases hf : q.isFull with
  | true => rw [tryPut_full q elem hf]; exact h
  | false =>
    rw [tryPut_not_full h elem hf]
    obtain ⟨h0, h1, h2, h3, h4⟩ := h
    simp only [isFull, beq_eq_false_iff_ne, ne_eq] at hf
    refine ⟨by simpa using h0, h1, ?_, ?_, rfl⟩
    · show q.queueSize + 1 ≤ q.queueCapacity
      omega
    · show q.getPos < q.queueCapacity ∨ (q.queueCapacity = 0 ∧ q.getPos = 0)
      exact h3

theorem WF_tryGet [Inhabited T] {q : DynUnsyncQueue T} (h : WF q) (elem : T) :
    WF (tryGet q elem).2.2 := by
  cases he : q.isEmpty with
  | true => rw [tryGet_empty q elem he]; exact h
  | false =>
    rw [tryGet_not_empty h elem he]
    obtain ⟨h0, h1, h2, h3, h4⟩ := h
    simp only [isEmpty, beq_eq_false_iff_ne, ne_eq] at he
    have hpos : 0 < q.queueCapacity := by omega
    refine ⟨h0, h1, ?_, Or.inl (Nat.mod_lt _ hpos), ?_⟩
    · show q.queueSize - 1 ≤ q.queueCapacity
      omega
    · show q.putPos = ((q.getPos + 1) % q.queueCapacity + (q.queueSize - 1)) % q.queueCapacity
      rw [h4, Nat.mod_add_mod]
      congr 1; omega

theorem contents_tryPut [Inhabited T] {q : DynUnsyncQueue T} (h : WF q) (elem : T)
    (hf : q.isFull = false) : (tryPut q elem).2.contents = q.contents ++ [elem] := by
  rw [tryPut_not_full h elem hf]
  obtain ⟨h0, h1, h2, h3, h4⟩ := h
  simp only [isFull, beq_eq_false_iff_ne, ne_eq] at hf
  have hlt : q.queueSize < q.queueCapacity := lt_of_le_of_ne h2 hf
  have hp : q.putPos < q.data.length := by rw [h4, h0]; exact Nat.mod_lt _ (by omega)
  simp only [contents]
  refine (ring_snoc (fun j => q.data.getD j default)
    (fun j => (q.data.set q.putPos elem).getD j default) hlt ?_).trans ?_
  · intro j hj
    rw [← h4] at hj
    simp [List.getD_eq_getElem?_getD, List.getElem?_set_ne hj.symm]
  · rw [← h4]
    simp [List.getD_eq_getElem?_getD, List.getElem?_set_self, hp]

theorem contents_tryGet [Inhabited T] {q : DynUnsyncQueue T} (h : WF q) (elem : T)
    (he : q.isEmpty = false) :
    q.contents = (tryGet q elem).2.1 :: (tryGet q elem).2.2.contents := by
  rw [tryGet_not_empty h elem he]
  obtain ⟨h0, h1, h2, h3, h4⟩ := h
  simp only [isEmpty, beq_eq_false_iff_ne, ne_eq] at he
  have hg : q.getPos < q.queueCapacity := by omega
  obtain ⟨m, hm⟩ : ∃ m, q.queueSize = m + 1 := ⟨q.queueSize - 1, by omega⟩
  simp only [contents, hm, Nat.add_sub_cancel]
  exact ring_cons (fun j => q.data.getD j default) hg m

theorem run_refines [Inhabited T] (cs : List (Call T)) :
    ∀ q : DynUnsyncQueue T, WF q → run q cs = fifoSpec q.queueCapacity q.contents cs := by
  induction cs with
  | nil => intro q _; cases hc : q.contents <;> simp [run, fifoSpec]
  | cons c cs ih =>
    intro q h
    have hlen : q.contents.length = q.queueSize := by simp [contents]
    cases c with
    | tryPut e =>
      cases hf : q.isFull with
      | true =>
        have hnl : ¬ q.contents.length < q.queueCapacity := by
          simp only [isFull, beq_iff_eq] at hf
          omega
        simp only [run, fifoSpec, hnl, if_false]
        rw [tryPut_full q e hf]
        exact congrArg _ (ih q h)
      | false =>
        have hl : q.contents.length < q.queueCapacity := by
          have := h.2.2.1
          simp only [isFull, beq_eq_false_iff_ne, ne_eq] at hf
          omega
        have hcap : (tryPut q e).2.queueCapacity = q.queueCapacity := by
          rw [tryPut_not_full h e hf]
        simp only [run, fifoSpec, hl, if_true]
        rw [ih _ (WF_tryPut h e), contents_tryPut h e hf, hcap]
        rw [tryPut_not_full h e hf]
    | tryGet =>
      cases he : q.isEmpty with
      | true =>
        have hc : q.contents = [] := by
          simp only [isEmpty, beq_iff_eq] at he
          simp [contents, he]
        simp only [run]
        rw [tryGet_empty q default he, hc]
        simp only [fifoSpec, Bool.false_eq_true, if_false]
        have := ih q h
        rw [hc] at this
        rw [this]
      | false =>
        have hc := contents_tryGet h default he
        have hcap : (tryGet q default).2.2.queueCapacity = q.queueCapacity := by
          rw [tryGet_not_empty h default he]
        have hret : (tryGet q default).1 = true := by rw [tryGet_not_empty h default he]
        simp only [run, hret, if_true]
        rw [hc, ih _ (WF_tryGet h default), hcap]
        simp only [fifoSpec]
    | reset =>
      have hc : (reset q).contents = [] := by simp [contents, reset]
      simp only [run]
      rw [ih _ (dynWF_reset h), hc]
      cases q.contents <;> simp [fifoSpec, reset]

/-- C14 (`DynUnsyncQueue`). `tryPut` returns true iff the queue was not full and
`tryGet` returns true iff the queue was not empty; a failed call leaves the
queue, and for `tryGet` the variable `elem`, as they were; and on a queue
constructed with capacity `C` (any `C < 2^32`, so any `C ≥ 1`) every sequence of `tryPut`,
`tryGet` and `reset` calls returns what the first-in first-out list `fifoSpec`
of capacity `C` returns: each successful `tryGet` delivers the oldest element
accepted since the last `reset` and not yet delivered, also when `putPos` and
`getPos` wrap around. -/
theorem dynUnsyncQueue_fifo [Inhabited T] (storage : List T)
    (h32 : storage.length < UINT_MOD) (q : DynUnsyncQueue T) (elem : T)
    (cs : List (Call T)) :
    ((tryPut q elem).1 = true ↔ q.isFull = false) ∧
    ((tryPut q elem).1 = false → (tryPut q elem).2 = q) ∧
    ((tryGet q elem).1 = true ↔ q.isEmpty = false) ∧
    ((tryGet q elem).1 = false → (tryGet q elem).2.1 = elem ∧ (tryGet q elem).2.2 = q) ∧
    run (new storage) cs = fifoSpec storage.length [] cs := by
  refine ⟨?_, ?_, ?_, ?_, ?_⟩
  · unfold tryPut; cases q.isFull <;> simp
  · unfold tryPut; cases q.isFull <;> simp
  · unfold tryGet; cases q.isEmpty <;> simp
  · unfold tryGet; cases q.isEmpty <;> simp
  · have h := run_refines cs (new storage) (dynWF_new storage h32)
    have hc : (new storage).contents = [] := by simp [contents, new]
    rw [hc] at h
    exact h

/-- Witness of `dynUnsyncQueue_fifo`: a queue of capacity two, filled, refused a
third element, emptied across the wrap-around of both indices. -/
theorem dynUnsyncQueue_fifo_witness :
    run (new [0, 0]) [Call.tryPut 1, Call.tryGet, Call.tryPut 2, Call.tryPut 3, Call.tryPut 4,
        Call.tryGet, Call.tryGet, Call.tryGet] =
      fifoSpec 2 [] [Call.tryPut 1, Call.tryGet, Call.tryPut 2, Call.tryPut 3, Call.tryPut 4,
        Call.tryGet, Call.tryGet, Call.tryGet] :=
  (dynUnsyncQueue_fifo [0, 0] (by decide) (new [0, 0]) 0
    [Call.tryPut 1, Call.tryGet, Call.tryPut 2, Call.tryPut 3, Call.tryPut 4,
      Call.tryGet, Call.tryGet, Call.tryGet]).2.2.2.2

end DynUnsyncQueue

namespace BufferQueue

theorem bufWF_new (size numbuf : Nat) (sizes : List Nat) (h0 : 0 < numbuf)
    (hn : numbuf < UCHAR_MOD) (hs : sizes.length = numbuf) : WF (new size numbuf sizes) := by
  refine ⟨h0, hn, hs, Nat.zero_le _, h0, ?_⟩
  simp [new]

theorem bufWF_reset {q : BufferQueue} (h : WF q) : WF (reset q) := by
  obtain ⟨h0, h1, h2, h3, h4, h5⟩ := h
  refine ⟨h0, h1, h2, Nat.zero_le _, h0, ?_⟩
  show 0 = (0 + 0) % q.numbuf
  simp

theorem bufferFilled_wf {q : BufferQueue} (h : WF q) (hf : q.isFull = false)
    (actualSize : Nat) :
    bufferFilled q actualSize =
      Except.ok { size := q.size, numbuf := q.numbuf,
                  bufSize := q.bufSize.set q.put actualSize,
                  put := (q.get + (q.cnt + 1)) % q.numbuf, get := q.get, cnt := q.cnt + 1 } := by
  obtain ⟨h0, h1, h2, h3, h4, h5⟩ := h
  rw [bufferFilled_not_full q actualSize hf]
  simp only [isFull, beq_eq_false_iff_ne, ne_eq] at hf
  have hu : UCHAR_MOD = 256 := rfl
  have hp : q.put < q.numbuf := by rw [h5]; exact Nat.mod_lt _ h0
  have e1 : ucinc q.cnt = q.cnt + 1 := by
    unfold ucinc; exact Nat.mod_eq_of_lt (by omega)
  have e2 : ucinc q.put = q.put + 1 := by
    unfold ucinc; exact Nat.mod_eq_of_lt (by omega)
  have e3 : (q.get + (q.cnt + 1)) % q.numbuf = (q.put + 1) % q.numbuf := by
    rw [h5, QueueBase.mod_succ_mod]; rfl
  rw [e1, e2, e3, ← wrap_ge_eq_mod hp]

theorem bufferEmptied_wf {q : BufferQueue} (h : WF q) (he : q.isEmpty = false) :
    bufferEmptied q =
      Except.ok { size := q.size, numbuf := q.numbuf, bufSize := q.bufSize,
                  put := q.put, get := (q.get + 1) % q.numbuf, cnt := q.cnt - 1 } := by
  obtain ⟨h0, h1, h2, h3, h4, h5⟩ := h
  rw [bufferEmptied_not_empty q he]
  simp only [isEmpty, beq_eq_false_iff_ne, ne_eq] at he
  have hu : UCHAR_MOD = 256 := rfl
  have e1 : ucdec q.cnt = q.cnt - 1 := by
    unfold ucdec
    have e : q.cnt + UCHAR_MOD - 1 = (q.cnt - 1) + UCHAR_MOD := by omega
    rw [e, Nat.add_mod_right]
    exact Nat.mod_eq_of_lt (by omega)
  have e2 : ucinc q.get = q.get + 1 := by
    unfold ucinc; exact Nat.mod_eq_of_lt (by omega)
  rw [e1, e2, ← wrap_ge_eq_mod h4]

theorem WF_bufferFilled {q q1 : BufferQueue} (h : WF q) {actualSize : Nat}
    (hok : bufferFilled q actualSize = Except.ok q1) : WF q1 := by
  have hf := (bufferFilled_ok hok).1
  rw [bufferFilled_wf h hf] at hok
  injection hok with hok
  subst hok
  obtain ⟨h0, h1, h2, h3, h4, h5⟩ := h
  simp only [isFull, beq_eq_false_iff_ne, ne_eq] at hf
  refine ⟨h0, h1, by simpa using h2, ?_, h4, rfl⟩
  show q.cnt + 1 ≤ q.numbuf
  omega

theorem WF_bufferEmptied {q q1 : BufferQueue} (h : WF q)
    (hok : bufferEmptied q = Except.ok q1) : WF q1 := by
  have he := (bufferEmptied_ok hok).1
  rw [bufferEmptied_wf h he] at hok
  injection hok with hok
  subst hok
  obtain ⟨h0, h1, h2, h3, h4, h5⟩ := h
  simp only [isEmpty, beq_eq_false_iff_ne, ne_eq] at he
  refine ⟨h0, h1, h2, ?_, Nat.mod_lt _ h0, ?_⟩
  · show q.cnt - 1 ≤ q.numbuf
    omega
  · show q.put = ((q.get + 1) % q.numbuf + (q.cnt - 1)) % q.numbuf
    rw [h5, Nat.mod_add_mod]
    congr 1; omega

theorem Reachable.bufWF {size numbuf : Nat} {sizes : List Nat} (h0 : 0 < numbuf)
    (hn : numbuf < UCHAR_MOD) (hs : sizes.length = numbuf) {q : BufferQueue}
    (h : Reachable size numbuf sizes q) : WF q := by
  induction h with
  | fresh => exact bufWF_new size numbuf sizes h0 hn hs
  | writable q buffer _ ih => rw [tryGetWritableBuffer_queue]; exact ih
  | filled q q1 actualSize _ hok ih => exact WF_bufferFilled ih hok
  | readable q buffer actualSize _ ih => rw [tryGetReadableBuffer_queue]; exact ih
  | emptied q q1 _ hok ih => exact WF_bufferEmptied ih hok
  | reset q _ ih => exact bufWF_reset ih

theorem pending_filled {q : BufferQueue} (h : WF q) (hf : q.isFull = false)
    (actualSize : Nat) :
    pending { size := q.size, numbuf := q.numbuf, bufSize := q.bufSize.set q.put actualSize,
              put := (q.get + (q.cnt + 1)) % q.numbuf, get := q.get, cnt := q.cnt + 1 } =
      pending q ++ [(q.put, actualSize)] := by
  obtain ⟨h0, h1, h2, h3, h4, h5⟩ := h
  simp only [isFull, beq_eq_false_iff_ne, ne_eq] at hf
  have hlt : q.cnt < q.numbuf := lt_of_le_of_ne h3 hf
  have hp : q.put < q.bufSize.length := by rw [h5, h2]; exact Nat.mod_lt _ h0
  simp only [pending]
  refine (ring_snoc (fun j => (j, q.bufSize.getD j 0))
    (fun j => (j, (q.bufSize.set q.put actualSize).getD j 0)) hlt ?_).trans ?_
  · intro j hj
    rw [← h5] at hj
    simp [List.getD_eq_getElem?_getD, List.getElem?_set_ne hj.symm]
  · rw [← h5]
    simp [List.getD_eq_getElem?_getD, List.getElem?_set_self, hp]

theorem pending_emptied {q : BufferQueue} (h : WF q) (he : q.isEmpty = false) :
    pending q = (q.get, q.bufSize.getD q.get 0) ::
      pending { size := q.size, numbuf := q.numbuf, bufSize := q.bufSize, put := q.put,
                get := (q.get + 1) % q.numbuf, cnt := q.cnt - 1 } := by
  obtain ⟨h0, h1, h2, h3, h4, h5⟩ := h
  simp only [isEmpty, beq_eq_false_iff_ne, ne_eq] at he
  obtain ⟨m, hm⟩ : ∃ m, q.cnt = m + 1 := ⟨q.cnt - 1, by omega⟩
  simp only [pending, hm, Nat.add_sub_cancel]
  exact ring_cons (fun j => (j, q.bufSize.getD j 0)) h4 m

theorem writerStep_some {h h1 : HandOff} {actualSize : Nat} (hwf : WF h.queue)
    (hs : writerStep h actualSize = some h1) :
    WF h1.queue ∧ pending h1.queue = pending h.queue ++ [(h.queue.put, actualSize)] ∧
    h1.written = h.written ++ [(h.queue.put, actualSize)] ∧ h1.received = h.received := by
  unfold writerStep tryGetWritableBuffer at hs
  cases hf : h.queue.isFull with
  | true => simp [hf] at hs
  | false =>
    simp only [hf, Bool.false_eq_true, if_false, if_true] at hs
    rw [bufferFilled_wf hwf hf] at hs
    simp only [Option.some.injEq] at hs
    subst hs
    exact ⟨WF_bufferFilled hwf (bufferFilled_wf hwf hf actualSize),
      pending_filled hwf hf actualSize, rfl, rfl⟩

theorem readerStep_some {h h1 : HandOff} (hwf : WF h.queue) (hs : readerStep h = some h1) :
    WF h1.queue ∧
    pending h.queue = (h.queue.get, h.queue.bufSize.getD h.queue.get 0) :: pending h1.queue ∧
    h1.written = h.written ∧
    h1.received = h.received ++ [(h.queue.get, h.queue.bufSize.getD h.queue.get 0)] := by
  unfold readerStep tryGetReadableBuffer at hs
  cases he : h.queue.isEmpty with
  | true => simp [he] at hs
  | false =>
    simp only [he, Bool.false_eq_true, if_false, if_true] at hs
    rw [bufferEmptied_wf hwf he] at hs
    simp only [Option.some.injEq] at hs
    subst hs
    exact ⟨WF_bufferEmptied hwf (bufferEmptied_wf hwf he), pending_emptied hwf he, rfl, rfl⟩

theorem handOff_spec (ts : List Turn) :
    ∀ h h1 : HandOff, WF h.queue → h.written = h.received ++ pending h.queue →
      handOff h ts = some h1 →
      h1.written = h1.received ++ pending h1.queue ∧
      h1.written.length = h.written.length + writes ts ∧
      h1.received.length = h.received.length + reads ts := by
  induction ts with
  | nil =>
    intro h h1 _ hinv hr
    simp only [handOff, Option.some.injEq] at hr
    subst hr
    exact ⟨hinv, rfl, rfl⟩
  | cons t ts ih =>
    intro h h1 hwf hinv hr
    cases t with
    | write s =>
      simp only [handOff] at hr
      cases hw : writerStep h s with
      | none => simp [hw] at hr
      | some h2 =>
        simp only [hw, Option.some_bind] at hr
        obtain ⟨w1, w2, w3, w4⟩ := writerStep_some hwf hw
        obtain ⟨i1, i2, i3⟩ := ih h2 h1 w1 (by rw [w3, w4, w2, hinv, List.append_assoc]) hr
        refine ⟨i1, ?_, ?_⟩
        · rw [i2, w3]; simp [writes]; omega
        · rw [i3, w4]; simp [reads]
    | read =>
      simp only [handOff] at hr
      cases hw : readerStep h with
      | none => simp [hw] at hr
      | some h2 =>
        simp only [hw, Option.some_bind] at hr
        obtain ⟨w1, w2, w3, w4⟩ := readerStep_some hwf hw
        obtain ⟨i1, i2, i3⟩ := ih h2 h1 w1 (by rw [w3, w4, hinv, w2]; simp) hr
        refine ⟨i1, ?_, ?_⟩
        · rw [i2, w3]; simp [writes]
        · rw [i3, w4]; simp [reads]; omega

/-- C12 (`BufferQueue` hand-off order). On a freshly constructed
`BufferQueue<T,size,numbuf>` (`2 ≤ numbuf`, an `unsigned char`), for every
sequence of writer steps (`tryGetWritableBuffer` then `bufferFilled(s)`) and
reader steps (`tryGetReadableBuffer` then `bufferEmptied`), in any order, all
successful and none calling `errorHandler`: there are as many hand-offs
recorded as steps made on each side, and the `k`-th reader step receives the
buffer that the `k`-th writer step obtained together with the size that the
writer reported for it. -/
theorem handOff_order (size numbuf : Nat) (sizes : List Nat) (h2 : 2 ≤ numbuf)
    (hn : numbuf < UCHAR_MOD) (hs : sizes.length = numbuf) (ts : List Turn) (h : HandOff)
    (hr : handOff ⟨new size numbuf sizes, [], []⟩ ts = some h) :
    h.written.length = writes ts ∧ h.received.length = reads ts ∧
    h.received.length ≤ h.written.length ∧
    (∀ k, k < h.received.length → h.received[k]? = h.written[k]?) := by
  have hwf : WF (new size numbuf sizes) := bufWF_new size numbuf sizes (by omega) hn hs
  obtain ⟨i1, i2, i3⟩ := handOff_spec ts ⟨new size numbuf sizes, [], []⟩ h hwf
    (by simp [pending, new]) hr
  refine ⟨by simpa using i2, by simpa using i3, ?_, ?_⟩
  · rw [i1]; simp
  · intro k hk
    rw [i1, List.getElem?_append_left hk]

/-- Witness of `handOff_order`: the turns `exampleTurns` on a double buffer. -/
theorem handOff_order_witness :
    exampleHandOff.written.length = writes exampleTurns ∧
    exampleHandOff.received.length = reads exampleTurns ∧
    exampleHandOff.received.length ≤ exampleHandOff.written.length ∧
    (∀ k, k < exampleHandOff.received.length →
      exampleHandOff.received[k]? = exampleHandOff.written[k]?) :=
  handOff_order 16 2 [0, 0] (by decide) (by decide) rfl exampleTurns exampleHandOff
    (by decide)

end BufferQueue

namespace Scopes

theorem destruct_eq_inverse (g : Guard) : g.destruct = g.construct.inverse := by
  cases g <;> rfl

theorem run_not_started (b : Scopes) :
    ∀ (i p : Nat) (cs : List Primitive),
      b.run ⟨false, i, p, cs⟩ = some ⟨false, i, p, cs ++ b.expectedCalls⟩ := by
  induction b with
  | done => intro i p cs; simp [run, expectedCalls]
  | scope g body rest ihb ihr =>
    intro i p cs
    simp [run, Primitive.call, ihb, ihr, expectedCalls, destruct_eq_inverse]

theorem ite_some_bind {α β : Type} (c : Prop) [Decidable c] (a : α) (f : α → Option β) :
    (if c then some a else none).bind f = if c then f a else none := by
  split <;> rfl

theorem call_disableInterrupts (i p : Nat) (cs : List Primitive) :
    Primitive.disableInterrupts.call ⟨true, i, p, cs⟩ =
      some ⟨true, i + 1, p, cs ++ [Primitive.disableInterrupts]⟩ := rfl

theorem call_enableInterrupts (i p : Nat) (cs : List Primitive) :
    Primitive.enableInterrupts.call ⟨true, i, p, cs⟩ =
      if 1 ≤ i then some ⟨true, i - 1, p, cs ++ [Primitive.enableInterrupts]⟩ else none := by
  rcases Nat.eq_zero_or_pos i with h | h
  · subst h; rfl
  · have h0 : i ≠ 0 := by omega
    have h1 : 1 ≤ i := h
    simp [Primitive.call, h0, h1]

theorem call_pauseKernel (i p : Nat) (cs : List Primitive) :
    Primitive.pauseKernel.call ⟨true, i, p, cs⟩ =
      some ⟨true, i, p + 1, cs ++ [Primitive.pauseKernel]⟩ := rfl

theorem call_restartKernel (i p : Nat) (cs : List Primitive) :
    Primitive.restartKernel.call ⟨true, i, p, cs⟩ =
      if 1 ≤ p then some ⟨true, i, p - 1, cs ++ [Primitive.restartKernel]⟩ else none := by
  rcases Nat.eq_zero_or_pos p with h | h
  · subst h; rfl
  · have h0 : p ≠ 0 := by omega
    have h1 : 1 ≤ p := h
    simp [Primitive.call, h0, h1]

theorem call_fastDisableInterrupts (i p : Nat) (cs : List Primitive) :
    Primitive.fastDisableInterrupts.call ⟨true, i, p, cs⟩ =
      some ⟨true, i, p, cs ++ [Primitive.fastDisableInterrupts]⟩ := rfl

theorem call_fastEnableInterrupts (i p : Nat) (cs : List Primitive) :
    Primitive.fastEnableInterrupts.call ⟨true, i, p, cs⟩ =
      some ⟨true, i, p, cs ++ [Primitive.fastEnableInterrupts]⟩ := rfl

theorem run_started (b : Scopes) :
    ∀ (i p : Nat) (cs : List Primitive),
      b.run ⟨true, i, p, cs⟩ =
        if b.needInterrupt ≤ i ∧ b.needPause ≤ p then some ⟨true, i, p, cs ++ b.expectedCalls⟩
        else none := by
  induction b with
  | done => intro i p cs; simp [run, expectedCalls, needInterrupt, needPause]
  | scope g body rest ihb ihr =>
    intro i p cs
    cases g <;>
      simp only [run, Guard.construct, Guard.destruct, Primitive.inverse,
        expectedCalls, needInterrupt, needPause, call_disableInterrupts, call_enableInterrupts,
        call_pauseKernel, call_restartKernel, call_fastDisableInterrupts,
        call_fastEnableInterrupts, ihb, ihr, Option.some_bind, Option.none_bind,
        ite_some_bind, max_le_iff] <;>
      (split_ifs <;>
        first
        | rfl
        | (exfalso; omega)
        | (simp only [Option.some.injEq, Gate.mk.injEq, List.append_assoc, List.cons_append,
            List.nil_append, List.singleton_append, true_and, and_true] <;> omega))

theorem expectedCalls_length (b : Scopes) : b.expectedCalls.length = 2 * b.guards := by
  induction b with
  | done => rfl
  | scope g body rest ihb ihr =>
    simp only [expectedCalls, guards, List.length_cons, List.length_append, ihb, ihr]
    omega

theorem expectedCalls_count (b : Scopes) (p : Primitive) :
    b.expectedCalls.count p = b.expectedCalls.count p.inverse := by
  induction b with
  | done => rfl
  | scope g body rest ihb ihr =>
    simp only [expectedCalls, List.count_cons, List.count_append, ihb, ihr]
    cases g <;> cases p <;> simp [Guard.construct, Primitive.inverse] <;> omega

/-- C20 (scope guards). The destructor of each guard makes the inverse of the
one call its constructor makes. For every properly nested arrangement of
`InterruptDisableLock`, `FastInterruptDisableLock`, `PauseKernelLock` scopes and
their enable counterparts: it runs to its end iff the kernel is not started or
the nesting counters on entry cover the enable guards that stand outside a
disable guard of the arrangement; when it has run, the calls made are, scope by
scope, the call of the constructor on entry and the inverse call on exit, two per
guard; disable and enable calls, fast or not, and pause and restart calls are in
equal number; and the nesting counters are back at their values on entry. -/
theorem scope_guards_balanced (b : Scopes) (s : Gate) :
    (∀ g : Guard, g.destruct = g.construct.inverse) ∧
    ((b.run s).isSome = true ↔
      (s.kernelStarted = false ∨
        (b.needInterrupt ≤ s.interruptDisableNesting ∧ b.needPause ≤ s.pauseKernelNesting))) ∧
    (∀ s1, b.run s = some s1 →
      s1.calls = s.calls ++ b.expectedCalls ∧
      s1.interruptDisableNesting = s.interruptDisableNesting ∧
      s1.pauseKernelNesting = s.pauseKernelNesting ∧
      s1.kernelStarted = s.kernelStarted) ∧
    b.expectedCalls.length = 2 * b.guards ∧
    b.expectedCalls.count Primitive.disableInterrupts =
      b.expectedCalls.count Primitive.enableInterrupts ∧
    b.expectedCalls.count Primitive.fastDisableInterrupts =
      b.expectedCalls.count Primitive.fastEnableInterrupts ∧
    b.expectedCalls.count Primitive.pauseKernel =
      b.expectedCalls.count Primitive.restartKernel := by
  refine ⟨destruct_eq_inverse, ?_, ?_, expectedCalls_length b,
    expectedCalls_count b Primitive.disableInterrupts,
    expectedCalls_count b Primitive.fastDisableInterrupts,
    expectedCalls_count b Primitive.pauseKernel⟩
  · obtain ⟨k, i, p, cs⟩ := s
    cases k with
    | false => simp [run_not_started]
    | true =>
      rw [run_started]
      split <;> simp_all
  · intro s1 h
    obtain ⟨k, i, p, cs⟩ := s
    cases k with
    | false =>
      rw [run_not_started] at h
      injection h with h
      subst h
      exact ⟨rfl, rfl, rfl, rfl⟩
    | true =>
      rw [run_started] at h
      split at h
      · injection h with h
        subst h
        exact ⟨rfl, rfl, rfl, rfl⟩
      · exact absurd h (by simp)

/-- Witness of `scope_guards_balanced`: the arrangement `exampleScopes` run in a
started kernel with both counters at zero. -/
theorem scope_guards_balanced_witness :
    exampleGateAfter.calls = [] ++ exampleScopes.expectedCalls ∧
    exampleGateAfter.interruptDisableNesting = 0 ∧
    exampleGateAfter.pauseKernelNesting = 0 ∧
    exampleGateAfter.kernelStarted = true :=
  (scope_guards_balanced exampleScopes ⟨true, 0, 0, []⟩).2.2.1 exampleGateAfter (by decide)

end Scopes

namespace GpioPin

theorem mask_testBit (i : Nat) :
    (ULONG_MOD - 1 - 0xF).testBit i = (decide (4 ≤ i) && decide (i < 32)) := by
  by_cases h : i < 32
  · interval_cases i <;> rfl
  · have hlt : ULONG_MOD - 1 - 0xF < 2 ^ i :=
      lt_of_lt_of_le (by decide : ULONG_MOD - 1 - 0xF < 2 ^ 32)
        (Nat.pow_le_pow_right (by decide) (by omega))
    rw [Nat.testBit_eq_false_of_lt hlt]
    simp [h]

theorem low_bits_of_multiple {p : Nat} (h16 : p % 16 = 0) {i : Nat} (hi : i < 4) :
    p.testBit i = false := by
  have h := Nat.testBit_mod_two_pow p 4 i
  have e : p % 2 ^ 4 = 0 := h16
  rw [e] at h
  simpa [hi] using h.symm

theorem high_bits_of_lt {n j i : Nat} (hn : n < 2 ^ j) (hi : j ≤ i) : n.testBit i = false :=
  Nat.testBit_eq_false_of_lt (lt_of_lt_of_le hn (Nat.pow_le_pow_right (by decide) hi))

/-- C22 (`GpioPin` pack/unpack round trip). For every port base address `p` (an
`unsigned int`) that is a multiple of 16 and every pin number `n` in 0..15,
`GpioPin(p,n).getPort() == p` and `GpioPin(p,n).getNumber() == n`. -/
theorem pack_round_trip (p n : Nat) (hp : p < UINT_MOD) (h16 : p % 16 = 0) (hn : n ≤ 15) :
    (new p n).getPort = p ∧ (new p n).getNumber = n := by
  have hp32 : p < 2 ^ 32 := hp
  have hn4 : n < 2 ^ 4 := by omega
  have e1 : p % UINT_MOD = p := Nat.mod_eq_of_lt hp
  have e2 : n % UCHAR_MOD = n := Nat.mod_eq_of_lt (by unfold UCHAR_MOD; omega)
  have hor : p ||| n < 2 ^ 32 := Nat.or_lt_two_pow hp32 (by omega)
  have e3 : (p ||| n) % ULONG_MOD = p ||| n := Nat.mod_eq_of_lt hor
  have hport : (p ||| n) &&& (ULONG_MOD - 1 - 0xF) = p := by
    apply Nat.eq_of_testBit_eq
    intro i
    rw [Nat.testBit_and, Nat.testBit_or, mask_testBit]
    by_cases h4 : 4 ≤ i
    · by_cases h32 : i < 32
      · simp [h4, h32, high_bits_of_lt hn4 h4]
      · simp [h32, high_bits_of_lt hp32 (by omega : 32 ≤ i)]
    · simp [h4, low_bits_of_multiple h16 (by omega : i < 4)]
  have hnum : (p ||| n) &&& 0xF = n := by
    apply Nat.eq_of_testBit_eq
    intro i
    have h15 : (0xF : Nat).testBit i = decide (i < 4) := by
      have := Nat.testBit_two_pow_sub_one 4 i
      simpa using this
    rw [Nat.testBit_and, Nat.testBit_or, h15]
    by_cases h4 : i < 4
    · simp [h4, low_bits_of_multiple h16 h4]
    · simp [h4, high_bits_of_lt hn4 (by omega : 4 ≤ i)]
  constructor
  · simp only [getPort, new, pack, e1, e2, e3, hport]
  · simp only [getNumber, new, pack, e1, e2, e3, hnum]

/-- Witness of `pack_round_trip`: pin 13 of the port at 0x40011000 (GPIOC). -/
theorem pack_round_trip_witness :
    (new 0x40011000 13).getPort = 0x40011000 ∧ (new 0x40011000 13).getNumber = 13 :=
  pack_round_trip 0x40011000 13 (by decide) (by decide) (by decide)

end GpioPin

namespace ClockController

theorem divider_setClockSpeed (c : ClockController) (clkdiv : Nat) :
    (c.setClockSpeed clkdiv).divider = clkdiv := by
  simp [divider, setClockSpeed, List.getLastD_eq_getLast?]

theorem calibrateLoop_spec (readOk : Nat → Bool) :
    ∀ (fuel minFreq maxFreq : Nat) (c : ClockController),
      maxFreq < minFreq → minFreq ≤ 60 → minFreq - maxFreq ≤ fuel + 1 →
      readOk minFreq = true → (maxFreq = 0 ∨ readOk maxFreq = false) →
      ∃ min1 max1 c1, calibrateLoop readOk fuel minFreq maxFreq c = some (min1, max1, c1) ∧
        min1 = max1 + 1 ∧ min1 ≤ 60 ∧ readOk min1 = true ∧
        (max1 = 0 ∨ readOk max1 = false) := by
  intro fuel
  induction fuel with
  | zero =>
    intro minFreq maxFreq c hlt h60 hfuel hmin hmax
    have hs : usub minFreq maxFreq = minFreq - maxFreq :=
      QueueBase.usub_of_le (by omega) (by unfold UINT_MOD; omega)
    have hg : ¬ (usub minFreq maxFreq > 1) := by omega
    refine ⟨minFreq, maxFreq, c, ?_, by omega, h60, hmin, hmax⟩
    unfold calibrateLoop
    simp [hg]
  | succ fuel ih =>
    intro minFreq maxFreq c hlt h60 hfuel hmin hmax
    have hs : usub minFreq maxFreq = minFreq - maxFreq :=
      QueueBase.usub_of_le (by omega) (by unfold UINT_MOD; omega)
    by_cases hg : usub minFreq maxFreq > 1
    · have hsel : (minFreq + maxFreq) % UINT_MOD = minFreq + maxFreq :=
        Nat.mod_eq_of_lt (by unfold UINT_MOD; omega)
      have hunf : calibrateLoop readOk (fuel + 1) minFreq maxFreq c =
          if readOk ((minFreq + maxFreq) / 2) then
            calibrateLoop readOk fuel ((minFreq + maxFreq) / 2) maxFreq
              (c.setClockSpeed ((minFreq + maxFreq) / 2))
          else
            calibrateLoop readOk fuel minFreq ((minFreq + maxFreq) / 2)
              (c.setClockSpeed ((minFreq + maxFreq) / 2)) := by
        rw [calibrateLoop]
        simp only [hg, if_true, hsel, divider_setClockSpeed]
      rw [hunf]
      cases hr : readOk ((minFreq + maxFreq) / 2) with
      | true =>
        simp only [if_true]
        exact ih _ _ _ (by omega) (by omega) (by omega) hr hmax
      | false =>
        simp only [Bool.false_eq_true, if_false]
        exact ih _ _ _ (by omega) h60 (by omega) hmin (Or.inr hr)
    · refine ⟨minFreq, maxFreq, c, ?_, by omega, h60, hmin, hmax⟩
      unfold calibrateLoop
      simp [hg]

/-- C21 (SD clock calibration). With the default `CLOCK_MAX=0` and a block-read
outcome that is monotone in the clock divider (a read that succeeds at divider
`d` succeeds at every divider from `d` to 60, and a read succeeds at 60),
`calibrateClockSpeed` returns (60 turns of its loop are enough) and the last
divider it programs with `setClockSpeed` is the smallest divider in 0..60 at
which the read succeeds; clock reduction and retries are enabled again. -/
theorem calibrateClockSpeed_optimal (readOk : Nat → Bool) (fuel : Nat) (c : ClockController)
    (hfuel : 60 ≤ fuel) (h60 : readOk 60 = true)
    (hmono : ∀ d d1, readOk d = true → d ≤ d1 → d1 ≤ 60 → readOk d1 = true) :
    ∃ c1, calibrateClockSpeed 0 readOk fuel c = some c1 ∧
      c1.divider ≤ 60 ∧ readOk c1.divider = true ∧
      (∀ d, d < c1.divider → readOk d = false) ∧
      c1.clockReductionAvailable = MAX_ALLOWED_REDUCTIONS ∧ c1.retries = MAX_RETRY := by
  obtain ⟨min1, max1, c1, hloop, hm, hle, hok, hmax⟩ :=
    calibrateLoop_spec readOk fuel CLOCK_400KHz 0
      { c with clockReductionAvailable := 0, retries := 1 }
      (by decide) (by decide) (by unfold CLOCK_400KHz; omega) h60 (Or.inl rfl)
  have hbelow : ∀ d e, readOk e = false → e ≤ 60 → d ≤ e → readOk d = false := by
    intro d e he he60 hde
    cases hd : readOk d with
    | false => rfl
    | true => rw [hmono d e hd hde he60] at he; exact absurd he (by simp)
  unfold calibrateClockSpeed
  simp only [hloop]
  cases hr : readOk max1 with
  | true =>
    have h0 : max1 = 0 := by
      rcases hmax with h | h
      · exact h
      · rw [hr] at h; exact absurd h (by simp)
    refine ⟨_, rfl, ?_, ?_, ?_, rfl, rfl⟩
    · simp only [divider_setClockSpeed, hr, if_true]
      show (c1.setClockSpeed max1).divider ≤ 60
      rw [divider_setClockSpeed]; omega
    · simp only [divider_setClockSpeed, hr, if_true]
      show readOk (c1.setClockSpeed max1).divider = true
      rw [divider_setClockSpeed]; exact hr
    · intro d hd
      simp only [divider_setClockSpeed, hr, if_true] at hd
      change d < (c1.setClockSpeed max1).divider at hd
      rw [divider_setClockSpeed] at hd
      omega
  | false =>
    refine ⟨_, rfl, ?_, ?_, ?_, rfl, rfl⟩
    · simp only [divider_setClockSpeed, hr, Bool.false_eq_true, if_false]
      show ((c1.setClockSpeed max1).setClockSpeed min1).divider ≤ 60
      rw [divider_setClockSpeed]; exact hle
    · simp only [divider_setClockSpeed, hr, Bool.false_eq_true, if_false]
      show readOk ((c1.setClockSpeed max1).setClockSpeed min1).divider = true
      rw [divider_setClockSpeed]; exact hok
    · intro d hd
      simp only [divider_setClockSpeed, hr, Bool.false_eq_true, if_false] at hd
      change d < ((c1.setClockSpeed max1).setClockSpeed min1).divider at hd
      rw [divider_setClockSpeed] at hd
      exact hbelow d max1 hr (by omega) (by omega)

/-- Witness of `calibrateClockSpeed_optimal`: a card that reads with a divider
of 3 or more. -/
theorem calibrateClockSpeed_optimal_witness :
    ∃ c1, calibrateClockSpeed 0 exampleReadOk 60 ⟨0, 10, []⟩ = some c1 ∧
      c1.divider ≤ 60 ∧ exampleReadOk c1.divider = true ∧
      (∀ d, d < c1.divider → exampleReadOk d = false) ∧
      c1.clockReductionAvailable = MAX_ALLOWED_REDUCTIONS ∧ c1.retries = MAX_RETRY :=
  calibrateClockSpeed_optimal exampleReadOk 60 ⟨0, 10, []⟩ (by decide) (by decide)
    (by
      intro d d1 hd hle _
      simp only [exampleReadOk, decide_eq_true_eq] at hd ⊢
      omega)

end ClockController

namespace QueueBase

variable {T : Type}

theorem contents_reset [Inhabited T] (trivial : Bool) (w : World) (q : QueueBase T) :
    (IRQreset trivial w q).2.contents = [] := by
  have hq := wake_queue w q
  unfold IRQreset
  rcases hw : IRQwakeWaitingThread w q with ⟨w1, q1⟩
  rw [hw] at hq
  simp only at hq
  subst hq
  simp [contents]

theorem queue_run_refines [Inhabited T] (cs : List (Call T)) :
    ∀ q : QueueBase T, WF q → run q cs = boundedFifo q.buffer.length q.contents cs := by
  induction cs with
  | nil => intro q _; cases hc : q.contents <;> simp [run, boundedFifo]
  | cons c cs ih =>
    intro q h
    have hlen : q.contents.length = q.numElem := contents_length q
    cases c with
    | IRQput w e hppw =>
      have hb := buffer_length_put w q e hppw
      cases hf : q.isFull with
      | true =>
        have hnl : ¬ q.contents.length < q.buffer.length := by
          simp only [isFull, beq_iff_eq] at hf
          omega
        simp only [run, boundedFifo, hnl, if_false]
        rw [ih _ (WF_step_put h w e hppw), hb]
        rw [IRQput_full w q e hppw hf]
        rfl
      | false =>
        have hl : q.contents.length < q.buffer.length := by
          have := h.2.1
          simp only [isFull, beq_eq_false_iff_ne, ne_eq] at hf
          omega
        simp only [run, boundedFifo, hl, if_true]
        rw [ih _ (WF_step_put h w e hppw), hb, contents_put h hf w e hppw]
        rw [IRQput_not_full w q e hppw hf]
    | IRQget w hppw =>
      have hb := buffer_length_get w q default hppw
      cases he : q.isEmpty with
      | true =>
        have hc : q.contents = [] := contents_empty he
        simp only [run]
        rw [ih _ (WF_step_get h w default hppw), hb, hc]
        rw [IRQget_empty w q default hppw he]
        simp only [boundedFifo, Bool.false_eq_true, if_false]
        have hc2 : ({ q with waiting := none } : QueueBase T).contents = [] :=
          contents_empty he
        rw [hc2]
      | false =>
        have hc := contents_get h he w default hppw
        have hret : (IRQget w q default hppw).ret = true := by
          rw [IRQget_not_empty w q default hppw he]
        simp only [run, hret, if_true]
        rw [ih _ (WF_step_get h w default hppw), hb, hc]
        simp only [boundedFifo]
    | IRQreset trivial w =>
      simp only [run]
      rw [ih _ (WF_reset h trivial w), buffer_reset, contents_reset]
      cases q.contents <;> simp [boundedFifo]

/-- C24 (ring-buffer refinement). For every capacity `N` (`1 ≤ N < 2^32`) and
every sequence of `IRQput`, `IRQget` and `IRQreset` calls on a freshly
constructed `QueueBase`, the return values and delivered elements are those of
the abstract bounded first-in first-out list `boundedFifo` of capacity `N`; and
in every reachable state `getPos < N`, `putPos < N` and
`putPos == (getPos + numElem) mod N`. -/
theorem ring_buffer_refinement [Inhabited T] (storage : List T) (h1 : 1 ≤ storage.length)
    (h32 : storage.length < UINT_MOD) (cs : List (Call T)) (q : QueueBase T)
    (hq : Reachable storage q) :
    run (new storage) cs = boundedFifo storage.length [] cs ∧
    q.getPos < storage.length ∧ q.putPos < storage.length ∧
    q.putPos = (q.getPos + q.numElem) % storage.length := by
  have hr := queue_run_refines cs (new storage) (WF_new storage h32)
  have hc : (new storage).contents = [] := contents_empty rfl
  rw [hc] at hr
  obtain ⟨w1, w2, w3, w4⟩ := hq.wf h32
  have hl := hq.length_eq
  rw [hl] at w3 w4
  refine ⟨hr, by omega, ?_, w4⟩
  rw [w4]
  exact Nat.mod_lt _ (by omega)

/-- Witness of `ring_buffer_refinement`: the calls `exampleCalls` on a queue of
length two, and the state `exampleQueue`. -/
theorem ring_buffer_refinement_witness :
    run (new [0, 0]) exampleCalls = boundedFifo 2 [] exampleCalls ∧
    exampleQueue.getPos < 2 ∧ exampleQueue.putPos < 2 ∧
    exampleQueue.putPos = (exampleQueue.getPos + exampleQueue.numElem) % 2 :=
  ring_buffer_refinement [0, 0] (by decide) (by decide) exampleCalls exampleQueue
    (Reachable.put exampleWorld (new [0, 0]) (5 : Nat) none Reachable.fresh)

end QueueBase

namespace BufferQueue

/-- C25, the claim as stated fails. In the reachable state `exampleBufferQueue`
the reader is given buffer 0; without any call of `bufferEmptied()`, a
`reset()` followed by `tryGetWritableBuffer` gives buffer 0 to the writer. -/
theorem buffers_disjoint_counterexample :
    (tryGetReadableBuffer exampleBufferQueue 9 9).1 = true ∧
    (tryGetReadableBuffer exampleBufferQueue 9 9).2.1 = 0 ∧
    BufferCall.bufferEmptied ∉ [BufferCall.reset, BufferCall.tryGetWritableBuffer] ∧
    writerBuffers exampleBufferQueue [BufferCall.reset, BufferCall.tryGetWritableBuffer]
      = some [0] ∧
    (tryGetReadableBuffer exampleBufferQueue 9 9).2.1 ∈ [0] := by
  decide

theorem mod_add_ne_self {g c n : Nat} (hc0 : 0 < c) (hc : c < n) (hg : g < n) :
    (g + c) % n ≠ g := by
  have h := @QueueBase.mod_ne_of_lt g 0 c n hc0 (by omega)
  rw [Nat.add_zero, Nat.mod_eq_of_lt hg] at h
  exact fun e => h e.symm

theorem writerBuffers_held (cs : List BufferCall) :
    ∀ (q : BufferQueue) (bs : List Nat), WF q → 1 ≤ q.cnt →
      (∀ c ∈ cs, c ≠ BufferCall.bufferEmptied ∧ c ≠ BufferCall.reset) →
      writerBuffers q cs = some bs → q.get ∉ bs := by
  induction cs with
  | nil =>
    intro q bs _ _ _ h
    simp only [writerBuffers, Option.some.injEq] at h
    subst h
    simp
  | cons c cs ih =>
    intro q bs hwf hcnt hcs h
    have hrest : ∀ c ∈ cs, c ≠ BufferCall.bufferEmptied ∧ c ≠ BufferCall.reset :=
      fun c hc => hcs c (List.mem_cons_of_mem _ hc)
    cases c with
    | tryGetWritableBuffer =>
      simp only [writerBuffers, tryGetWritableBuffer_queue, Option.map_eq_some'] at h
      obtain ⟨bs1, h1, h2⟩ := h
      have hn := ih q bs1 hwf hcnt hrest h1
      unfold tryGetWritableBuffer at h2
      cases hf : q.isFull with
      | true =>
        simp only [hf, Bool.false_eq_true, if_false, if_true] at h2
        subst h2; exact hn
      | false =>
        simp only [hf, Bool.false_eq_true, if_false, if_true] at h2
        subst h2
        obtain ⟨h0, h1, h2, h3, h4, h5⟩ := hwf
        simp only [isFull, beq_eq_false_iff_ne, ne_eq] at hf
        have hne : q.put ≠ q.get := by
          rw [h5]; exact mod_add_ne_self (by omega) (by omega) h4
        simp only [List.mem_cons, not_or]
        exact ⟨fun e => hne e.symm, hn⟩
    | bufferFilled s =>
      simp only [writerBuffers] at h
      cases hb : bufferFilled q s with
      | error e => simp [hb] at h
      | ok q1 =>
        simp only [hb] at h
        have hf := (bufferFilled_ok hb).1
        have hq1 := hb
        rw [bufferFilled_wf hwf hf] at hq1
        injection hq1 with hq1
        have hget : q1.get = q.get := by rw [← hq1]
        have hc1 : 1 ≤ q1.cnt := by rw [← hq1]; show 1 ≤ q.cnt + 1; omega
        rw [← hget]
        exact ih q1 bs (WF_bufferFilled hwf hb) hc1 hrest h
    | tryGetReadableBuffer =>
      simp only [writerBuffers, tryGetReadableBuffer_queue] at h
      exact ih q bs hwf hcnt hrest h
    | bufferEmptied => exact absurd rfl (hcs _ (List.mem_cons_self _ _)).1
    | reset => exact absurd rfl (hcs _ (List.mem_cons_self _ _)).2

/-- C25 as amended. In every reachable state of a `BufferQueue<T,size,numbuf>`
(`2 ≤ numbuf`, an `unsigned char`) `put == (get + cnt) mod numbuf` with
`put, get < numbuf`; whenever `tryGetWritableBuffer` and `tryGetReadableBuffer`
both succeed in the same state they return different buffers; and a buffer
returned to the reader is not returned to the writer by any following calls
until `bufferEmptied()` or `reset()` has been called. -/
theorem buffers_disjoint (size numbuf : Nat) (sizes : List Nat) (h2 : 2 ≤ numbuf)
    (hn : numbuf < UCHAR_MOD) (hs : sizes.length = numbuf) (q : BufferQueue)
    (hq : Reachable size numbuf sizes q) :
    q.put = (q.get + q.cnt) % numbuf ∧ q.put < numbuf ∧ q.get < numbuf ∧
    (∀ bw br s, (tryGetWritableBuffer q bw).1 = true →
      (tryGetReadableBuffer q br s).1 = true →
      (tryGetWritableBuffer q bw).2.1 ≠ (tryGetReadableBuffer q br s).2.1) ∧
    (∀ br s cs bs, (tryGetReadableBuffer q br s).1 = true →
      (∀ c ∈ cs, c ≠ BufferCall.bufferEmptied ∧ c ≠ BufferCall.reset) →
      writerBuffers q cs = some bs → (tryGetReadableBuffer q br s).2.1 ∉ bs) := by
  have hwf := hq.bufWF (by omega) hn hs
  have hnb := (hq.cnt_le hn).1
  obtain ⟨h0, h1, h3, h4, h5, h6⟩ := hwf
  have hwf : WF q := ⟨h0, h1, h3, h4, h5, h6⟩
  rw [hnb] at h4 h5 h6 h0
  refine ⟨h6, ?_, h5, ?_, ?_⟩
  · rw [h6]; exact Nat.mod_lt _ h0
  · intro bw br s hw hr
    unfold tryGetWritableBuffer at hw ⊢
    unfold tryGetReadableBuffer at hr ⊢
    cases hf : q.isFull with
    | true => simp [hf] at hw
    | false =>
      cases he : q.isEmpty with
      | true => simp [he] at hr
      | false =>
        simp only [hf, he, Bool.false_eq_true, if_false]
        simp only [isFull, isEmpty, beq_eq_false_iff_ne, ne_eq] at hf he
        rw [h6]
        exact mod_add_ne_self (by omega) (by omega) h5
  · intro br s cs bs hr hcs hb
    unfold tryGetReadableBuffer at hr ⊢
    cases he : q.isEmpty with
    | true => simp [he] at hr
    | false =>
      simp only [he, Bool.false_eq_true, if_false]
      simp only [isEmpty, beq_eq_false_iff_ne, ne_eq] at he
      exact writerBuffers_held cs q bs hwf (by omega) hcs hb

/-- Witness of `buffers_disjoint`: the state `exampleBufferQueue`, where buffer
0 is with the reader and the writer is given buffer 1. -/
theorem buffers_disjoint_witness :
    (tryGetWritableBuffer exampleBufferQueue 9).2.1 ≠
      (tryGetReadableBuffer exampleBufferQueue 9 9).2.1 :=
  (buffers_disjoint 16 2 [0, 0] (by decide) (by decide) rfl exampleBufferQueue
    (Reachable.filled (new 16 2 [0, 0]) exampleBufferQueue 10 Reachable.fresh rfl)).2.2.2.1
    9 9 9 (by decide) (by decide)

end BufferQueue

namespace QueueBase

variable {T : Type}

theorem blockingLoop_done [Inhabited T] (attempt : World → QueueBase T → T → AttemptResult T)
    (w : World) (q : QueueBase T) (elem : T) (waits : List (List (Call T)))
    (h : (attempt w q elem).done = true) :
    blockingLoop attempt w q elem waits =
      some { elem := (attempt w q elem).elem, world := (attempt w q elem).world,
             queue := (attempt w q elem).queue, turns := 0 } := by
  cases waits <;> simp [blockingLoop, h]

theorem blockingLoop_nil [Inhabited T] (attempt : World → QueueBase T → T → AttemptResult T)
    (w : World) (q : QueueBase T) (elem : T) (h : (attempt w q elem).done = false) :
    blockingLoop attempt w q elem [] = none := by
  simp [blockingLoop, h]

theorem blockingLoop_cons [Inhabited T] (attempt : World → QueueBase T → T → AttemptResult T)
    (w : World) (q : QueueBase T) (elem : T) (cs : List (Call T))
    (rest : List (List (Call T))) (h : (attempt w q elem).done = false) :
    blockingLoop attempt w q elem (cs :: rest) =
      (blockingLoop attempt (attempt w q elem).world (after (attempt w q elem).queue cs)
        (attempt w q elem).elem rest).map fun r => { r with turns := r.turns + 1 } := by
  simp [blockingLoop, h]

theorem after_reachable [Inhabited T] {storage : List T} (cs : List (Call T)) :
    ∀ q : QueueBase T, Reachable storage q → Reachable storage (after q cs) := by
  induction cs with
  | nil => intro q h; exact h
  | cons c cs ih =>
    intro q h
    cases c with
    | IRQput w e hppw => exact ih _ (Reachable.put w q e hppw h)
    | IRQget w hppw => exact ih _ (Reachable.get w q default hppw h)
    | IRQreset trivial w => exact ih _ (Reachable.reset trivial w q h)

theorem suspensions_wake (t : Thread) (w : World) (q : QueueBase T) :
    suspensions t (IRQwakeWaitingThread w q).1.trace = suspensions t w.trace := by
  rw [wake_world]
  cases q.waiting <;> simp [suspensions]

theorem getAttempt_done [Inhabited T] (w : World) (q : QueueBase T) (elem : T)
    (he : q.isEmpty = false) :
    getAttempt w q elem =
      { done := true, elem := (IRQget_elem w q elem).elem,
        world := (IRQget_elem w q elem).world, queue := (IRQget_elem w q elem).queue } := by
  have hr : (IRQget_elem w q elem).ret = true := by
    unfold IRQget_elem; rw [IRQget_not_empty w q elem none he]
  simp [getAttempt, hr]

theorem putAttempt_done (w : World) (q : QueueBase T) (elem : T) (hf : q.isFull = false) :
    putAttempt w q elem =
      { done := true, elem := elem,
        world := (IRQput_elem w q elem).world, queue := (IRQput_elem w q elem).queue } := by
  have hr : (IRQput_elem w q elem).ret = true := by
    unfold IRQput_elem; rw [IRQput_not_full w q elem none hf]
  simp [putAttempt, hr]

theorem attempt_fail_reachable [Inhabited T] {storage : List T} (w : World)
    {q : QueueBase T} (h : Reachable storage q) :
    Reachable storage { q with waiting := some (IRQwakeWaitingThread w q).1.current } := by
  rw [wake_current]
  exact Reachable.register w q h

theorem get_returns [Inhabited T] {storage : List T} (waits : List (List (Call T))) :
    ∀ (w : World) (q : QueueBase T) (elem : T) (r : BlockingResult T),
      Reachable storage q → get w q elem waits = some r →
      ∃ w1 q1 e1, Reachable storage q1 ∧ q1.isEmpty = false ∧ w1.current = w.current ∧
        r.elem = (IRQget_elem w1 q1 e1).elem ∧ r.queue = (IRQget_elem w1 q1 e1).queue ∧
        r.world = (IRQget_elem w1 q1 e1).world ∧
        suspensions w.current r.world.trace = suspensions w.current w.trace + r.turns := by
  induction waits with
  | nil =>
    intro w q elem r hq hr
    cases he : q.isEmpty with
    | true =>
      have hd : (getAttempt w q elem).done = false := by rw [getAttempt_fail w q elem he]
      rw [get, blockingLoop_nil getAttempt w q elem hd] at hr
      exact absurd hr (by simp)
    | false =>
      have hd : (getAttempt w q elem).done = true := by rw [getAttempt_done w q elem he]
      rw [get, blockingLoop_done getAttempt w q elem [] hd, getAttempt_done w q elem he] at hr
      injection hr with hr
      subst hr
      refine ⟨w, q, elem, hq, he, rfl, rfl, rfl, rfl, ?_⟩
      show suspensions w.current (IRQget_elem w q elem).world.trace = _
      unfold IRQget_elem
      rw [IRQget_world, suspensions_wake]; rfl
  | cons cs rest ih =>
    intro w q elem r hq hr
    cases he : q.isEmpty with
    | true =>
      have hd : (getAttempt w q elem).done = false := by rw [getAttempt_fail w q elem he]
      rw [get, blockingLoop_cons getAttempt w q elem cs rest hd,
        getAttempt_fail w q elem he] at hr
      simp only [Option.map_eq_some'] at hr
      obtain ⟨r1, hr1, hr2⟩ := hr
      obtain ⟨w1, q1, e1, a1, a2, a3, a4, a5, a6, a7⟩ :=
        ih _ _ _ r1 (after_reachable cs _ (attempt_fail_reachable w hq)) hr1
      have hcur : (Thread.IRQenableIrqAndWait (IRQwakeWaitingThread w q).1).current =
          w.current := by
        simp [Thread.IRQenableIrqAndWait, wake_current]
      rw [hcur] at a3 a7
      subst hr2
      refine ⟨w1, q1, e1, a1, a2, a3, a4, a5, a6, ?_⟩
      show suspensions w.current r1.world.trace = suspensions w.current w.trace + (r1.turns + 1)
      rw [a7]
      have hs : suspensions w.current
          (Thread.IRQenableIrqAndWait (IRQwakeWaitingThread w q).1).trace =
          suspensions w.current w.trace + 1 := by
        have h1 := suspensions_wake w.current w q
        simp only [suspensions] at h1 ⊢
        simp [Thread.IRQenableIrqAndWait, wake_current, h1]
      rw [hs]; omega
    | false =>
      have hd : (getAttempt w q elem).done = true := by rw [getAttempt_done w q elem he]
      rw [get, blockingLoop_done getAttempt w q elem _ hd, getAttempt_done w q elem he] at hr
      injection hr with hr
      subst hr
      refine ⟨w, q, elem, hq, he, rfl, rfl, rfl, rfl, ?_⟩
      show suspensions w.current (IRQget_elem w q elem).world.trace = _
      unfold IRQget_elem
      rw [IRQget_world, suspensions_wake]; rfl

theorem put_returns [Inhabited T] {storage : List T} (waits : List (List (Call T))) :
    ∀ (w : World) (q : QueueBase T) (elem : T) (r : BlockingResult T),
      Reachable storage q → put w q elem waits = some r →
      ∃ w1 q1, Reachable storage q1 ∧ q1.isFull = false ∧ w1.current = w.current ∧
        r.elem = elem ∧ r.queue = (IRQput_elem w1 q1 elem).queue ∧
        r.world = (IRQput_elem w1 q1 elem).world ∧
        suspensions w.current r.world.trace = suspensions w.current w.trace + r.turns := by
  induction waits with
  | nil =>
    intro w q elem r hq hr
    cases hf : q.isFull with
    | true =>
      have hd : (putAttempt w q elem).done = false := by rw [putAttempt_fail w q elem hf]
      rw [put, blockingLoop_nil putAttempt w q elem hd] at hr
      exact absurd hr (by simp)
    | false =>
      have hd : (putAttempt w q elem).done = true := by rw [putAttempt_done w q elem hf]
      rw [put, blockingLoop_done putAttempt w q elem [] hd, putAttempt_done w q elem hf] at hr
      injection hr with hr
      subst hr
      refine ⟨w, q, hq, hf, rfl, rfl, rfl, rfl, ?_⟩
      show suspensions w.current (IRQput_elem w q elem).world.trace = _
      unfold IRQput_elem
      rw [IRQput_world, suspensions_wake]; rfl
  | cons cs rest ih =>
    intro w q elem r hq hr
    cases hf : q.isFull with
    | true =>
      have hd : (putAttempt w q elem).done = false := by rw [putAttempt_fail w q elem hf]
      rw [put, blockingLoop_cons putAttempt w q elem cs rest hd,
        putAttempt_fail w q elem hf] at hr
      simp only [Option.map_eq_some'] at hr
      obtain ⟨r1, hr1, hr2⟩ := hr
      obtain ⟨w1, q1, a1, a2, a3, a4, a5, a6, a7⟩ :=
        ih _ _ _ r1 (after_reachable cs _ (attempt_fail_reachable w hq)) hr1
      have hcur : (Thread.IRQenableIrqAndWait (IRQwakeWaitingThread w q).1).current =
          w.current := by
        simp [Thread.IRQenableIrqAndWait, wake_current]
      rw [hcur] at a3 a7
      subst hr2
      refine ⟨w1, q1, a1, a2, a3, a4, a5, a6, ?_⟩
      show suspensions w.current r1.world.trace = suspensions w.current w.trace + (r1.turns + 1)
      rw [a7]
      have hs : suspensions w.current
          (Thread.IRQenableIrqAndWait (IRQwakeWaitingThread w q).1).trace =
          suspensions w.current w.trace + 1 := by
        have h1 := suspensions_wake w.current w q
        simp only [suspensions] at h1 ⊢
        simp [Thread.IRQenableIrqAndWait, wake_current, h1]
      rw [hs]; omega
    | false =>
      have hd : (putAttempt w q elem).done = true := by rw [putAttempt_done w q elem hf]
      rw [put, blockingLoop_done putAttempt w q elem _ hd, putAttempt_done w q elem hf] at hr
      injection hr with hr
      subst hr
      refine ⟨w, q, hq, hf, rfl, rfl, rfl, rfl, ?_⟩
      show suspensions w.current (IRQput_elem w q elem).world.trace = _
      unfold IRQput_elem
      rw [IRQput_world, suspensions_wake]; rfl

end QueueBase

namespace QueueBase

variable {T : Type}

/-- C23 (blocking put/get loop). On a reachable queue, for the caller
`w.current` and whatever others do during its suspensions:
a blocking `get` on a non-empty queue (resp. `put` on a non-full queue) returns
from its first attempt, with no turn of the loop body, without registering the
caller (`waiting` is null) and without calling `IRQenableIrqAndWait`, one
element removed (resp. `elem` enqueued once);
on an empty (resp. full) queue the failed attempt removes (resp. adds) nothing,
registers the caller in `waiting`, calls `IRQenableIrqAndWait` exactly once, and
the call does not return without a further attempt;
and whenever the call returns, it has called `IRQenableIrqAndWait` once per turn
of the loop body, and its last attempt was an `IRQget` that returned true on a
non-empty queue, one element removed (resp. an `IRQput` that returned true on a
non-full queue, `elem` enqueued once). `IRQgetBlocking` and `IRQputBlocking`
run the same loops. -/
theorem blocking_loop [Inhabited T] (storage : List T) (h32 : storage.length < UINT_MOD)
    (q : QueueBase T) (hq : Reachable storage q) (w : World) (elem : T)
    (waits : List (List (Call T))) :
    (q.isEmpty = false →
      get w q elem waits =
        some { elem := (IRQget_elem w q elem).elem, world := (IRQget_elem w q elem).world,
               queue := (IRQget_elem w q elem).queue, turns := 0 } ∧
      (IRQget_elem w q elem).queue.waiting = none ∧
      suspensions w.current (IRQget_elem w q elem).world.trace =
        suspensions w.current w.trace ∧
      q.contents = (IRQget_elem w q elem).elem :: (IRQget_elem w q elem).queue.contents) ∧
    (q.isFull = false →
      put w q elem waits =
        some { elem := elem, world := (IRQput_elem w q elem).world,
               queue := (IRQput_elem w q elem).queue, turns := 0 } ∧
      (IRQput_elem w q elem).queue.waiting = none ∧
      suspensions w.current (IRQput_elem w q elem).world.trace =
        suspensions w.current w.trace ∧
      (IRQput_elem w q elem).queue.contents = q.contents ++ [elem]) ∧
    (q.isEmpty = true →
      (getAttempt w q elem).done = false ∧
      (getAttempt w q elem).queue.waiting = some w.current ∧
      suspensions w.current (getAttempt w q elem).world.trace =
        suspensions w.current w.trace + 1 ∧
      (getAttempt w q elem).queue.contents = q.contents ∧
      (getAttempt w q elem).elem = elem ∧
      get w q elem [] = none) ∧
    (q.isFull = true →
      (putAttempt w q elem).done = false ∧
      (putAttempt w q elem).queue.waiting = some w.current ∧
      suspensions w.current (putAttempt w q elem).world.trace =
        suspensions w.current w.trace + 1 ∧
      (putAttempt w q elem).queue.contents = q.contents ∧
      put w q elem [] = none) ∧
    (∀ r, get w q elem waits = some r →
      suspensions w.current r.world.trace = suspensions w.current w.trace + r.turns ∧
      ∃ w1 q1 e1, Reachable storage q1 ∧ q1.isEmpty = false ∧
        (IRQget_elem w1 q1 e1).ret = true ∧ r.elem = (IRQget_elem w1 q1 e1).elem ∧
        r.queue = (IRQget_elem w1 q1 e1).queue ∧ q1.contents = r.elem :: r.queue.contents) ∧
    (∀ r, put w q elem waits = some r →
      suspensions w.current r.world.trace = suspensions w.current w.trace + r.turns ∧
      ∃ w1 q1, Reachable storage q1 ∧ q1.isFull = false ∧
        (IRQput_elem w1 q1 elem).ret = true ∧ r.queue = (IRQput_elem w1 q1 elem).queue ∧
        r.queue.contents = q1.contents ++ [elem]) ∧
    IRQgetBlocking w q elem waits = get w q elem waits ∧
    IRQputBlocking w q elem waits = put w q elem waits := by
  have hwf := hq.wf h32
  have hsusp : ∀ (w0 : World) (q0 : QueueBase T),
      suspensions w.current (Thread.IRQenableIrqAndWait (IRQwakeWaitingThread w q0).1).trace =
        suspensions w.current w.trace + 1 := by
    intro w0 q0
    have h1 := suspensions_wake w.current w q0
    simp only [suspensions] at h1 ⊢
    simp [Thread.IRQenableIrqAndWait, wake_current, h1]
  refine ⟨?_, ?_, ?_, ?_, ?_, ?_, rfl, rfl⟩
  · intro he
    have hd : (getAttempt w q elem).done = true := by rw [getAttempt_done w q elem he]
    refine ⟨?_, IRQget_waiting w q elem none, ?_, contents_get hwf he w elem none⟩
    · rw [get, blockingLoop_done getAttempt w q elem waits hd, getAttempt_done w q elem he]
    · unfold IRQget_elem
      rw [IRQget_world, suspensions_wake]
  · intro hf
    have hd : (putAttempt w q elem).done = true := by rw [putAttempt_done w q elem hf]
    refine ⟨?_, IRQput_waiting w q elem none, ?_, contents_put hwf hf w elem none⟩
    · rw [put, blockingLoop_done putAttempt w q elem waits hd, putAttempt_done w q elem hf]
    · unfold IRQput_elem
      rw [IRQput_world, suspensions_wake]
  · intro he
    have hd : (getAttempt w q elem).done = false := by rw [getAttempt_fail w q elem he]
    refine ⟨hd, ?_, ?_, ?_, ?_, ?_⟩
    · rw [getAttempt_fail w q elem he]
      simp [wake_current]
    · rw [getAttempt_fail w q elem he]
      exact hsusp w q
    · rw [getAttempt_fail w q elem he]
      rfl
    · rw [getAttempt_fail w q elem he]
    · rw [get, blockingLoop_nil getAttempt w q elem hd]
  · intro hf
    have hd : (putAttempt w q elem).done = false := by rw [putAttempt_fail w q elem hf]
    refine ⟨hd, ?_, ?_, ?_, ?_⟩
    · rw [putAttempt_fail w q elem hf]
      simp [wake_current]
    · rw [putAttempt_fail w q elem hf]
      exact hsusp w q
    · rw [putAttempt_fail w q elem hf]
      rfl
    · rw [put, blockingLoop_nil putAttempt w q elem hd]
  · intro r hr
    obtain ⟨w1, q1, e1, a1, a2, _, a4, a5, _, a7⟩ := get_returns waits w q elem r hq hr
    refine ⟨a7, w1, q1, e1, a1, a2, ?_, a4, a5, ?_⟩
    · unfold IRQget_elem; rw [IRQget_not_empty w1 q1 e1 none a2]
    · rw [a4, a5]
      exact contents_get (a1.wf h32) a2 w1 e1 none
  · intro r hr
    obtain ⟨w1, q1, a1, a2, _, _, a5, _, a7⟩ := put_returns waits w q elem r hq hr
    refine ⟨a7, w1, q1, a1, a2, ?_, a5, ?_⟩
    · unfold IRQput_elem; rw [IRQput_not_full w1 q1 elem none a2]
    · rw [a5]
      exact contents_put (a1.wf h32) a2 w1 elem none

/-- Witness of `blocking_loop`: thread B calls `get` on an empty queue of length
one, is suspended once, an interrupt puts 42, and `get` returns 42 after one
turn of its loop. -/
theorem blocking_loop_witness :
    get worldB (new [0]) 0 exampleWaits =
      some ⟨42, ⟨threadB, [Event.enableIrqAndWait threadB]⟩, ⟨[42], none, 0, 0, 0⟩, 1⟩ ∧
    suspensions threadB [Event.enableIrqAndWait threadB] = suspensions threadB [] + 1 :=
  ⟨by decide,
   ((blocking_loop [0] (by decide) (new [0]) Reachable.fresh worldB 0 exampleWaits).2.2.2.2.1
      ⟨42, ⟨threadB, [Event.enableIrqAndWait threadB]⟩, ⟨[42], none, 0, 0, 0⟩, 1⟩
      (by decide)).1⟩

end QueueBase

namespace ProcessPool

set_option maxRecDepth 100000

/-- C26, the code at the failing input. On the 96 KB pool at 0x20008000 whose
blocks 32 to 95 are taken, no free run of 64 blocks exists; `allocate(65536)`
nevertheless tests, after bit 32, the bit of index 96 = `poolSize/blockSize`,
which lies past the bitmap, and with zeros there it returns the block at
0x20020000 = `poolBase + poolSize`, outside the pool, instead of throwing
`bad_alloc`. -/
theorem allocate_leaves_pool :
    examplePoolUsed.poolSize / blockSize = 96 ∧
    (∀ b, b ∈ examplePoolUsed.bitmap ↔ 32 ≤ b ∧ b < 96) ∧
    (allocate id examplePoolUsed 65536).map (fun a => a.tested.take 2) = some [32, 96] ∧
    (allocate id examplePoolUsed 65536).map (fun a => a.block) =
      some (some (0x20020000, 65536)) ∧
    0x20020000 = examplePoolUsed.poolBase + examplePoolUsed.poolSize := by
  refine ⟨by decide, ?_, by decide, by decide, by decide⟩
  intro b
  have hb : examplePoolUsed.bitmap = (List.range' 32 64).reverse := by decide
  rw [hb]
  simp only [List.mem_reverse, List.mem_range'_1]

/-- C27, the claim as stated fails. The empty 96 KB pool at 0x20008200, an
address that is not a multiple of `blockSize`: `allocate(1024)` returns the
block at 0x20008200, which is not a multiple of the returned size 1024. -/
theorem allocate_aligned_counterexample :
    (allocate id (new 0x20008200 (96 * 1024) []) 1024).map (fun a => a.block) =
      some (some (0x20008200, 1024)) ∧
    0x20008200 % 1024 = 512 ∧ ¬ (0x20008200 % 1024 = 0) := by
  decide

end ProcessPool

namespace ProcessPool

theorem blockSize_eq : blockSize = 1024 := by decide

theorem scan_true_pos (pool : ProcessPool) (i : Nat) :
    ∀ (left j : Nat), (scan pool i j left).1 = true → 0 < left := by
  intro left j h
  cases left with
  | zero => simp [scan] at h
  | succ n => omega

theorem search_total (pool : ProcessPool) (sizeBit : Nat)
    (hwrap : pool.poolSize / blockSize + sizeBit < UINT_MOD) :
    ∀ (fuel i : Nat), 1 ≤ fuel → pool.poolSize / blockSize + 2 ≤ fuel + i →
      ∃ s, search pool sizeBit fuel i = some s ∧
        ∀ j, s.found = some j →
          j ≤ pool.poolSize / blockSize ∧ ∃ m, j = i + m * sizeBit := by
  intro fuel
  induction fuel with
  | zero => intro i h1 _; omega
  | succ fuel ih =>
    intro i _ hi
    by_cases hle : i ≤ pool.poolSize / blockSize
    · cases hs : (scan pool i 0 sizeBit).1 with
      | true =>
        have hpos := scan_true_pos pool i sizeBit 0 hs
        have hnw : (i + sizeBit) % UINT_MOD = i + sizeBit := Nat.mod_eq_of_lt (by omega)
        obtain ⟨s, h1, h2⟩ := ih (i + sizeBit) (by omega) (by omega)
        refine ⟨{ s with tested := (scan pool i 0 sizeBit).2 ++ s.tested }, ?_, ?_⟩
        · simp only [search, hle, if_true, hs, hnw, h1, Option.map_some']
        · intro j hj
          obtain ⟨a, m, hm⟩ := h2 j hj
          exact ⟨a, m + 1, by rw [hm, Nat.add_mul]; omega⟩
      | false =>
        refine ⟨{ found := some i, tested := (scan pool i 0 sizeBit).2 }, ?_, ?_⟩
        · simp only [search, hle, if_true, hs, Bool.false_eq_true, if_false]
        · intro j hj
          simp only [Option.some.injEq] at hj
          subst hj
          exact ⟨hle, 0, by omega⟩
    · refine ⟨{ found := none, tested := [] }, ?_, by simp⟩
      simp only [search, hle, if_false]

theorem aligned_address (base sb m : Nat) (hsb : 1 ≤ sb) (hbase : base % 1024 = 0) :
    (base + ((if base % (1024 * sb) ≠ 0 then 1024 * sb - base % (1024 * sb) else 0) / 1024
        + m * sb) * 1024) % (1024 * sb) = 0 := by
  obtain ⟨b1, hb1⟩ : ∃ b1, base = 1024 * b1 := ⟨base / 1024, by omega⟩
  subst hb1
  rw [Nat.mul_mod_mul_left]
  have hdm := Nat.div_add_mod b1 sb
  have hr : b1 % sb < sb := Nat.mod_lt _ (by omega)
  generalize b1 % sb = r at hdm hr
  generalize b1 / sb = q at hdm
  by_cases h0 : r = 0
  · subst h0
    have e : 1024 * b1 + ((if 1024 * 0 ≠ 0 then 1024 * sb - 1024 * 0 else 0) / 1024 + m * sb) * 1024
        = (1024 * sb) * (q + m) := by
      have : (1024 * sb) * (q + m) = 1024 * (sb * q) + 1024 * (m * sb) := by ring
      rw [this]
      simp only [Nat.mul_zero, ne_eq, not_true_eq_false, if_false, Nat.zero_div, Nat.zero_add]
      omega
    rw [e, Nat.mul_mod_right]
  · have hc : 1024 * r ≠ 0 := by omega
    have hd : (1024 * sb - 1024 * r) / 1024 = sb - r := by omega
    have e : 1024 * b1 + ((if 1024 * r ≠ 0 then 1024 * sb - 1024 * r else 0) / 1024 + m * sb) * 1024
        = (1024 * sb) * (q + 1 + m) := by
      have : (1024 * sb) * (q + 1 + m) = 1024 * (sb * q) + 1024 * sb + 1024 * (m * sb) := by ring
      rw [this, if_pos hc, hd]
      omega
    rw [e, Nat.mul_mod_right]

theorem pow_block (k : Nat) (hk : blockBits ≤ k) (hk32 : k < 32) :
    ∃ sb, 2 ^ k = 1024 * sb ∧ 1 ≤ sb ∧ 2 ^ k < UINT_MOD := by
  refine ⟨2 ^ (k - 10), ?_, Nat.one_le_two_pow, ?_⟩
  · have hk10 : 10 ≤ k := hk
    have : k = 10 + (k - 10) := by omega
    conv_lhs => rw [this, Nat.pow_add]
  · exact Nat.pow_lt_pow_right (by decide) hk32

/-- C27 as amended. For every pool whose base address is a multiple of
`blockSize` and every accepted size (after rounding a power of two `2^k` with
`blockSize ≤ 2^k < 2^32`), `allocate` completes, and when it returns a block the
address of the block is a multiple of the returned size, which is the rounded
requested size. -/
theorem allocate_aligned (roundSizeForMPU : Nat → Nat) (pool : ProcessPool) (size k : Nat)
    (hbase : pool.poolBase % blockSize = 0) (hb32 : pool.poolBase < UINT_MOD)
    (hp32 : pool.poolSize < UINT_MOD) (hk : blockBits ≤ k) (hk32 : k < 32)
    (hsz : roundSizeForMPU (max size blockSize) = 2 ^ k) :
    ∃ a, allocate roundSizeForMPU pool size = some a ∧
      ∀ addr sz, a.block = some (addr, sz) →
        addr % sz = 0 ∧ sz = roundSizeForMPU (max size blockSize) := by
  obtain ⟨sb, hsb, hsb1, hlt⟩ := pow_block k hk hk32
  have hU : UINT_MOD = 4294967296 := by decide
  have hB := blockSize_eq
  rw [hB] at hbase
  rw [hU] at hb32 hp32 hlt
  have hdiv : 2 ^ k / blockSize = sb := by
    rw [hB, hsb]; exact Nat.mul_div_cancel_left sb (by decide)
  unfold allocate
  simp only [hsz]
  by_cases hgt : 2 ^ k > pool.poolSize
  · refine ⟨_, if_pos hgt, ?_⟩
    intro addr sz h
    simp [Allocation.block] at h
  · rw [if_neg hgt]
    have hn : pool.poolSize / blockSize * 1024 ≤ pool.poolSize := by
      rw [hB]; exact Nat.div_mul_le_self _ _
    have hwrap : pool.poolSize / blockSize + 2 ^ k / blockSize < UINT_MOD := by
      rw [hdiv, hU]; omega
    have hbm : pool.poolBase % UINT_MOD = pool.poolBase := Nat.mod_eq_of_lt (by rw [hU]; exact hb32)
    obtain ⟨s, hs1, hs2⟩ := search_total pool (2 ^ k / blockSize) hwrap
      (pool.poolSize / blockSize + 2)
      ((if (pool.poolBase % UINT_MOD) % 2 ^ k ≠ 0
          then usub (2 ^ k) ((pool.poolBase % UINT_MOD) % 2 ^ k) else 0) / blockSize)
      (by omega) (Nat.le_add_right _ _)
    rw [hs1]
    refine ⟨_, rfl, ?_⟩
    intro addr sz h
    cases hf : s.found with
    | none => simp [hf, Allocation.block] at h
    | some i =>
      simp only [hf, Allocation.block, Option.some.injEq, Prod.mk.injEq] at h
      obtain ⟨haddr, hsize⟩ := h
      obtain ⟨hi, m, hm⟩ := hs2 i hf
      subst hsize
      refine ⟨?_, rfl⟩
      have hmod : (pool.poolBase % UINT_MOD) % 2 ^ k < 2 ^ k := Nat.mod_lt _ (by omega)
      have husub : usub (2 ^ k) ((pool.poolBase % UINT_MOD) % 2 ^ k) =
          2 ^ k - (pool.poolBase % UINT_MOD) % 2 ^ k :=
        QueueBase.usub_of_le (by omega) (by rw [hU]; exact hlt)
      have hi1 : (i * blockSize) % UINT_MOD = i * 1024 := by
        rw [hB, hU]; exact Nat.mod_eq_of_lt (by omega)
      have h4 : 4 * (i * 1024 / 4) = i * 1024 := by omega
      rw [hi1, h4] at haddr
      rw [← haddr, hm, husub, hbm, hdiv, hB, hsb]
      exact aligned_address pool.poolBase sb m hsb1 hbase

/-- Witness of `allocate_aligned`: on the empty 96 KB pool at 0x20008000,
`allocate(65536)` returns the block at 0x20010000. -/
theorem allocate_aligned_witness :
    ∃ a, allocate id examplePool 65536 = some a ∧
      ∀ addr sz, a.block = some (addr, sz) →
        addr % sz = 0 ∧ sz = id (max 65536 blockSize) :=
  allocate_aligned id examplePool 65536 16 (by decide) (by decide) (by decide) (by decide)
    (by decide) (by decide)

end ProcessPool


end Miosix
